import Mathlib

/-! The file `docker/dockerfile/dockerfile.go` of docker-slim.

A shallow embedding of `ReverseDockerfileFromHistory`, the routine that turns
the layer history of an image into Dockerfile lines.

Go strings are embedded as lists of Unicode scalar values (`Str`).  All the
separators, prefixes and replaced literals of the program are ASCII, so on
well-formed UTF-8 text the byte-level operations of the Go `strings` package
and the scalar-level operations below cut a string at the same places.
-/

namespace Dockerfile

/-- A Go string, as the list of its characters. -/
abbrev Str := List Char

/-! ## The functions of Go's `strings` package used by the program -/

/-- Go `strings.HasPrefix(s, prefix)`. -/
def HasPrefix (s pre : Str) : Bool :=
  pre.isPrefixOf s

/-- Go `strings.TrimPrefix(s, prefix)`: `s` without the leading `prefix`,
or `s` itself when it does not start with it. -/
def TrimPrefix (s pre : Str) : Str :=
  if HasPrefix s pre then s.drop pre.length else s

/-- Go `strings.Index(s, sep)`: the position of the first occurrence of `sep`
in `s`; `none` stands for Go's `-1`. -/
def Index : Str → Str → Option Nat
  | [], sep => if HasPrefix [] sep then some 0 else none
  | c :: cs, sep =>
    if HasPrefix (c :: cs) sep then some 0 else (Index cs sep).map Nat.succ

/-- Go `strings.Contains(s, substr)`, which is `Index(s, substr) >= 0`. -/
def Contains (s substr : Str) : Bool :=
  (Index s substr).isSome

/-- The loop of Go `strings.Count` for a non-empty separator:
`for { i := Index(s, sep); if i == -1 { return n }; n++; s = s[i+len(sep):] }`.
Every round removes at least one character, so `len(s)` rounds are enough
(`countLoop_fuel`). -/
def countLoop (sep : Str) : Nat → Str → Nat
  | 0, _ => 0
  | fuel + 1, s =>
    match Index s sep with
    | none => 0
    | some i => countLoop sep fuel (s.drop (i + sep.length)) + 1

/-- Go `strings.Count(s, sep)`: the number of non-overlapping occurrences of
`sep` in `s`, found left to right; one more than the number of characters when
`sep` is empty. -/
def Count (s sep : Str) : Nat :=
  if sep.length = 0 then s.length + 1 else countLoop sep s.length s

/-- The loop of Go `strings.genSplit` (with `sepSave = 0`): at most `n` cuts,
each at the first occurrence of `sep` in what is left of `s`. -/
def genSplit (sep : Str) : Nat → Str → List Str
  | 0, s => [s]
  | n + 1, s =>
    match Index s sep with
    | none => [s]
    | some m => s.take m :: genSplit sep n (s.drop (m + sep.length))

/-- Go `strings.Split(s, sep)`: `genSplit` with `Count(s, sep) + 1` pieces; an
empty separator explodes `s` into its characters. -/
def Split (s sep : Str) : List Str :=
  if sep.length = 0 then s.map (fun c => [c]) else genSplit sep (Count s sep) s

/-- Go `strings.Join(a, sep)`. -/
def Join : List Str → Str → Str
  | [], _ => []
  | [a], _ => a
  | a :: b :: rest, sep => a ++ sep ++ Join (b :: rest) sep

/-- Go `unicode.IsSpace`: the Latin-1 spaces tab, line feed, vertical tab, form
feed, carriage return, space, U+0085, U+00A0, and the other characters with the
Unicode property White_Space. -/
def IsSpace (c : Char) : Bool :=
  let r := c.toNat
  (0x09 ≤ r && r ≤ 0x0D) || r == 0x20 || r == 0x85 || r == 0xA0 || r == 0x1680
    || (0x2000 ≤ r && r ≤ 0x200A) || r == 0x2028 || r == 0x2029 || r == 0x202F
    || r == 0x205F || r == 0x3000

/-- Go `strings.TrimSpace(s)`: `s` without its leading and trailing white
space (`TrimRightFunc(TrimLeftFunc(s, unicode.IsSpace), unicode.IsSpace)`). -/
def TrimSpace (s : Str) : Str :=
  ((s.dropWhile IsSpace).reverse.dropWhile IsSpace).reverse

/-- The loop of Go `strings.Replace` for a non-empty `old`: `n` times, copy the
text up to the next occurrence of `old`, then `new`; at the end copy the rest. -/
def replaceLoop (old new : Str) : Nat → Str → Str
  | 0, s => s
  | n + 1, s =>
    match Index s old with
    | none => s
    | some j => s.take j ++ new ++ replaceLoop old new n (s.drop (j + old.length))

/-- Go `strings.Replace(s, old, new, -1)`: every non-overlapping occurrence of
`old`, found left to right, replaced by `new`.  With an empty `old`, `new` is
put before every character and at the end. -/
def Replace (s old new : Str) : Str :=
  if old = new then s
  else if old.length = 0 then new ++ s.flatMap (fun c => c :: new)
  else replaceLoop old new (Count s old) s

/-! ## The data model -/

/-- One entry of the image history returned by the Docker client
(`docker.ImageHistory`), with the fields the program reads. -/
structure ImageHistory where
  ID : Str
  Tags : List Str
  Created : Int
  CreatedBy : Str
  Comment : Str
  deriving DecidableEq, Repr

/-- The Go struct `imageInst`: one reconstructed instruction. -/
structure imageInst where
  instCmd : Str
  instComment : Str
  instType : Str
  instTime : Int
  layerImageID : Str
  imageName : Str
  shortTags : List Str
  fullTags : List Str
  deriving DecidableEq, Repr

/-! ## `ReverseDockerfileFromHistory` -/

/-- The constant `nopPrefix` of the loop body. -/
def nopPrefix : Str := "/bin/sh -c #(nop) ".toList

/-- The constant `execPrefix` of the loop body. -/
def execPrefix : Str := "/bin/sh -c ".toList

/-- The loop `for i := range parts` of the multi-step `RUN` branch, started at
index `i`: every part is trimmed, and every part but the one at index `0` gets
a tab in front. -/
def formatParts : Nat → List Str → List Str
  | _, [] => []
  | i, part :: rest =>
    let partPrefix : Str := if i ≠ 0 then "\t".toList else "".toList
    (partPrefix ++ TrimSpace part) :: formatParts (i + 1) rest

/-- The `if`/`else if` chain of the loop body (source lines 46-68): the
instruction decoded from `rawLine` before the `ENTRYPOINT` clean-up. -/
def prefixDecode (rawLine : Str) : Str :=
  if rawLine.length = 0 then
    "FROM scratch".toList
  else if HasPrefix rawLine nopPrefix then
    TrimPrefix rawLine nopPrefix
  else if HasPrefix rawLine execPrefix then
    let runData := TrimPrefix rawLine execPrefix
    if Contains runData "&&".toList then
      let parts := formatParts 0 (Split runData "&&".toList)
      let runDataFormatted := Join parts " && \\\n".toList
      "RUN ".toList ++ runDataFormatted
    else
      "RUN ".toList ++ runData
  else
    rawLine

/-- The `ENTRYPOINT` clean-up of the loop body (source lines 70-73). -/
def entrypointFix (inst : Str) : Str :=
  if HasPrefix inst "ENTRYPOINT ".toList then
    Replace (Replace inst "&\x7b[".toList "[".toList) "]\x7d".toList "]".toList
  else
    inst

/-- The value of `inst` when the loop body builds `instInfo` (source lines
43-73). -/
def decodeInst (rawLine : Str) : Str :=
  entrypointFix (prefixDecode rawLine)

/-- The loop `for _, fullTag := range instInfo.fullTags` (source lines 96-100),
appending to `shortTags`. -/
def shortTagsLoop : List Str → List Str → List Str
  | [], shortTags => shortTags
  | fullTag :: rest, shortTags =>
    let tagInfo := Split fullTag ":".toList
    if tagInfo.length > 1 then shortTagsLoop rest (shortTags ++ [tagInfo.getD 1 []])
    else shortTagsLoop rest shortTags

/-- One round of the history loop (source lines 41-105) for the layer
`layer = imageHistory[idx]`; `isStart` is the test `idx == imageLayerStart`. -/
def layerInst (layer : ImageHistory) (isStart : Bool) : imageInst :=
  let inst := decodeInst layer.CreatedBy
  let instType : Str := if isStart then "first".toList else "intermediate".toList
  if layer.Tags.length > 0 then
    let tagInfo := Split (layer.Tags.headD []) ":".toList
    { instCmd := inst
      instComment := layer.Comment
      instType := "last".toList
      instTime := layer.Created
      layerImageID := layer.ID
      imageName := if tagInfo.length > 1 then tagInfo.headD [] else []
      shortTags := shortTagsLoop layer.Tags []
      fullTags := layer.Tags }
  else
    { instCmd := inst
      instComment := layer.Comment
      instType := instType
      instTime := layer.Created
      layerImageID := layer.ID
      imageName := []
      shortTags := []
      fullTags := [] }

/-- The history loop `for idx := imageLayerStart; idx >= 0; idx--` (source
lines 40-106).  The counter `k` is `idx + 1`: the round for `idx = k - 1` reads
`imageHistory[idx]`, which is in range, and appends its instruction. -/
def instLoop (imageHistory : List ImageHistory) (imageLayerStart : Int) :
    (k : Nat) → k ≤ imageHistory.length → List imageInst → List imageInst
  | 0, _, acc => acc
  | idx + 1, h, acc =>
    instLoop imageHistory imageLayerStart idx (Nat.le_of_succ_le h)
      (acc ++ [layerInst (imageHistory.get ⟨idx, h⟩) (decide ((idx : Int) = imageLayerStart))])

/-- The slice `fatImageDockerInstructions` after the history loop (source
lines 35-107). -/
def fatImageDockerInstructions (imageHistory : List ImageHistory) : List imageInst :=
  let imageLayerCount : Int := imageHistory.length
  let imageLayerStart : Int := imageLayerCount - 1
  if imageLayerCount > 0 then
    instLoop imageHistory imageLayerStart imageHistory.length (Nat.le_refl _) []
  else
    []

/-- The text of `commentText` (source lines 117-118):
`fmt.Sprintf("# end of image: %s (id: %s tags: %s)", ...)`. -/
def commentText (instInfo : imageInst) : Str :=
  "# end of image: ".toList ++ instInfo.imageName ++ " (id: ".toList
    ++ instInfo.layerImageID ++ " tags: ".toList
    ++ Join instInfo.shortTags ",".toList ++ ")".toList

/-- The lines one instruction appends in the second loop (source lines
111-128); `idx` is its index and `n` is `len(fatImageDockerInstructions)`. -/
def instLines (n : Nat) (idx : Nat) (instInfo : imageInst) : List Str :=
  (if instInfo.instType = "first".toList then ["# new image".toList] else [])
    ++ [instInfo.instCmd]
    ++ (if instInfo.instType = "last".toList then
          [commentText instInfo, "".toList]
            ++ (if (idx : Int) < (n : Int) - 1 then ["# new image".toList] else [])
        else [])
    ++ (if instInfo.instComment ≠ "".toList then ["# ".toList ++ instInfo.instComment] else [])

/-- The second loop `for idx, instInfo := range fatImageDockerInstructions`
(source lines 110-131), from index `idx` on, appending to the lines so far. -/
def lineLoop (n : Nat) : Nat → List imageInst → List Str → List Str
  | _, [], fatImageDockerfileLines => fatImageDockerfileLines
  | idx, instInfo :: rest, fatImageDockerfileLines =>
    lineLoop n (idx + 1) rest (fatImageDockerfileLines ++ instLines n idx instInfo)

/-- The function `ReverseDockerfileFromHistory`, given the result of
`apiClient.ImageHistory(imageID)`: the error of the fetch, or the lines. -/
def ReverseDockerfileFromHistory {ε : Type} (fetched : Except ε (List ImageHistory)) :
    Except ε (List Str) :=
  match fetched with
  | .error err => .error err
  | .ok imageHistory =>
    let insts := fatImageDockerInstructions imageHistory
    .ok (lineLoop insts.length 0 insts [])


/-! ## Example histories

Histories are listed newest layer first, as the Docker client returns them. -/

/-- A tagged layer recorded by an `ENTRYPOINT` instruction. -/
def entrypointLayer : ImageHistory :=
  { ID := "sha6".toList
    Tags := ["myrepo:v1".toList, "myrepo:latest".toList]
    Created := 6
    CreatedBy := "/bin/sh -c #(nop) ENTRYPOINT &\x7b[\"/bin/sh\" \"-c\"]\x7d".toList
    Comment := "".toList }

/-- A layer produced by a chain of three shell commands. -/
def multiRunLayer : ImageHistory :=
  { ID := "sha5".toList
    Tags := []
    Created := 5
    CreatedBy := "/bin/sh -c apt-get update  &&  apt-get install -y curl&&rm -rf /var/lib/apt ".toList
    Comment := "".toList }

/-- A layer produced by one shell command whose text holds the literals that
the `ENTRYPOINT` clean-up looks for. -/
def singleRunLayer : ImageHistory :=
  { ID := "sha4".toList
    Tags := []
    Created := 4
    CreatedBy := "/bin/sh -c echo &\x7b[x]\x7d > /etc/motd".toList
    Comment := "".toList }

/-- A layer whose creation string carries neither prefix. -/
def verbatimLayer : ImageHistory :=
  { ID := "sha3".toList
    Tags := []
    Created := 3
    CreatedBy := "MAINTAINER someone".toList
    Comment := "imported".toList }

/-- A layer recorded by an `ENV` instruction. -/
def envLayer : ImageHistory :=
  { ID := "sha2".toList
    Tags := []
    Created := 2
    CreatedBy := "/bin/sh -c #(nop) ENV PATH=/usr/bin".toList
    Comment := "".toList }

/-- A layer with no creation string. -/
def scratchLayer : ImageHistory :=
  { ID := "sha1".toList
    Tags := []
    Created := 1
    CreatedBy := "".toList
    Comment := "".toList }

/-- A history of six layers under one tagged image. -/
def exampleHistory : List ImageHistory :=
  [entrypointLayer, multiRunLayer, singleRunLayer, verbatimLayer, envLayer, scratchLayer]

/-- A layer whose creation string is an `ENTRYPOINT` instruction as the engine
renders it, with neither prefix. -/
def bareEntrypointLayer : ImageHistory :=
  { ID := "sha7".toList
    Tags := []
    Created := 7
    CreatedBy := "ENTRYPOINT &\x7b[\"/app\"]\x7d".toList
    Comment := "".toList }

/-- A history of two layers, the newer one a bare `ENTRYPOINT`. -/
def bareEntrypointHistory : List ImageHistory :=
  [bareEntrypointLayer, scratchLayer]

/-- A tagged image of a single layer. -/
def singleTaggedLayer : ImageHistory :=
  { ID := "sha8".toList
    Tags := ["busybox:latest".toList]
    Created := 8
    CreatedBy := "".toList
    Comment := "".toList }

/-- The history of a single-layer tagged image. -/
def singleTaggedHistory : List ImageHistory :=
  [singleTaggedLayer]

/-- A tagged layer without comment, the newest layer of `boundaryHistory`. -/
def boundaryTop : ImageHistory :=
  { ID := "sha4".toList
    Tags := ["myrepo:v1".toList, "myrepo:latest".toList]
    Created := 4
    CreatedBy := "/bin/sh -c #(nop) CMD [\"/app\"]".toList
    Comment := "".toList }

/-- Three layers without tags and without comment, newest first. -/
def boundaryOlder : List ImageHistory :=
  [ { ID := "sha3".toList, Tags := [], Created := 3,
      CreatedBy := "/bin/sh -c make install".toList, Comment := "".toList },
    { ID := "sha2".toList, Tags := [], Created := 2,
      CreatedBy := "/bin/sh -c #(nop) ENV PATH=/usr/bin".toList, Comment := "".toList },
    { ID := "sha1".toList, Tags := [], Created := 1,
      CreatedBy := "".toList, Comment := "".toList } ]

/-- Three layers without tags under one tagged layer, all without comment. -/
def boundaryHistory : List ImageHistory :=
  boundaryTop :: boundaryOlder

/-- The tagged top layer of `fatHistory`, with a comment. -/
def fatTopLayer : ImageHistory :=
  { ID := "sha9".toList
    Tags := ["app:1.0".toList]
    Created := 9
    CreatedBy := "/bin/sh -c #(nop) CMD [\"/app\"]".toList
    Comment := "release".toList }

/-- A layer of `fatHistory` without tags, with a comment. -/
def fatBuildLayer : ImageHistory :=
  { ID := "sha8".toList
    Tags := []
    Created := 8
    CreatedBy := "/bin/sh -c make".toList
    Comment := "build step".toList }

/-- The tagged top layer of the base image inside `fatHistory`, with a
comment. -/
def fatBaseLayer : ImageHistory :=
  { ID := "sha7".toList
    Tags := ["base:1".toList]
    Created := 7
    CreatedBy := "/bin/sh -c #(nop) ENV A=1".toList
    Comment := "base image".toList }

/-- The oldest layer of `fatHistory`. -/
def fatRootLayer : ImageHistory :=
  { ID := "sha6".toList
    Tags := []
    Created := 6
    CreatedBy := "".toList
    Comment := "".toList }

/-- A history that stacks a tagged image on a tagged base image. -/
def fatHistory : List ImageHistory :=
  [fatTopLayer, fatBuildLayer, fatBaseLayer, fatRootLayer]

/-- A layer with a tag without `:` and a tag with a registry port. -/
def oddTagsLayer : ImageHistory :=
  { ID := "sha10".toList
    Tags := ["busybox".toList, "localhost:5000/app:v1".toList]
    Created := 10
    CreatedBy := "".toList
    Comment := "".toList }

/-- A layer with a tag without `:` before a tag of the form `name:tag`. -/
def mixedTagsLayer : ImageHistory :=
  { ID := "sha11".toList
    Tags := ["busybox".toList, "myrepo:v1".toList]
    Created := 11
    CreatedBy := "".toList
    Comment := "".toList }

/-- The text of a tag with at most one `:`: a name alone, or a name, a `:`
and a tag part. -/
def tagText (name : Str) (tag : Option Str) : Str :=
  match tag with
  | none => name
  | some t => name ++ ":".toList ++ t

/-- Whether a line reads as the delimiter `# new image`. -/
def isDelimiter (line : Str) : Bool :=
  line == "# new image".toList

/-- Whether a line reads as an end-of-image summary: it starts with
`# end of image: `. -/
def isSummary (line : Str) : Bool :=
  HasPrefix line "# end of image: ".toList

/-- Whether a line reads as a delimiter or as a summary. -/
def isMark (line : Str) : Bool :=
  isDelimiter line || isSummary line

/-- A layer none of whose lines, command or comment, reads as a delimiter or
as a summary. -/
abbrev cleanLayer (layer : ImageHistory) : Prop :=
  isMark (decodeInst layer.CreatedBy) = false
    ∧ isMark ("# ".toList ++ layer.Comment) = false

/-- The lines that `fatHistory` decodes to. -/
def fatHistoryLines : List Str :=
  [ "# new image".toList,
    "FROM scratch".toList,
    "ENV A=1".toList,
    "# end of image: base (id: sha7 tags: 1)".toList,
    "".toList,
    "# new image".toList,
    "# base image".toList,
    "RUN make".toList,
    "# build step".toList,
    "CMD [\"/app\"]".toList,
    "# end of image: app (id: sha9 tags: 1.0)".toList,
    "".toList,
    "# release".toList ]

/-- A tagged single layer whose comment is the text `new image`. -/
def newImageCommentLayer : ImageHistory :=
  { ID := "k1".toList
    Tags := ["a:b".toList]
    Created := 1
    CreatedBy := "".toList
    Comment := "new image".toList }

/-! ## The functions of Go's `strconv` package used by the program -/

/-- Go `strconv.IsPrint`.  For the characters up to U+00FF it is computed as
the library does; for the others the library looks the character up in its
tables of printable ranges, which are taken as the parameter `isPrintTable`. -/
def IsPrint (isPrintTable : Char → Bool) (r : Char) : Bool :=
  if r.toNat ≤ 0xFF then
    if 0x20 ≤ r.toNat ∧ r.toNat < 0x7F then true
    else if 0xA1 ≤ r.toNat then r.toNat != 0xAD
    else false
  else isPrintTable r

/-- The digit `lowerhex[d]` of the constant `"0123456789abcdef"`. -/
def hexDigit (d : Nat) : Char :=
  "0123456789abcdef".toList.getD d '0'

/-- The text that Go `strconv.appendEscapedRune` appends for the character
`r` inside a double-quoted string: a backslash before `"` and `\`, the
character itself when it is printable, and otherwise one of the escapes `\a`,
`\b`, `\f`, `\n`, `\r`, `\t`, `\v`, `\x` with two hexadecimal digits (below
U+0020, and U+007F), `\u` with four (below U+10000) or `\U` with eight.  The
digit `r>>s&0xF` is written `r / 2^s % 16`. -/
def escapedRune (isPrintTable : Char → Bool) (r : Char) : Str :=
  if r = '"' ∨ r = '\\' then ['\\', r]
  else if IsPrint isPrintTable r then [r]
  else if r.toNat = 0x07 then ['\\', 'a']
  else if r.toNat = 0x08 then ['\\', 'b']
  else if r.toNat = 0x0C then ['\\', 'f']
  else if r.toNat = 0x0A then ['\\', 'n']
  else if r.toNat = 0x0D then ['\\', 'r']
  else if r.toNat = 0x09 then ['\\', 't']
  else if r.toNat = 0x0B then ['\\', 'v']
  else if r.toNat < 0x20 ∨ r.toNat = 0x7F then
    ['\\', 'x', hexDigit (r.toNat / 16 % 16), hexDigit (r.toNat % 16)]
  else if r.toNat < 0x10000 then
    ['\\', 'u', hexDigit (r.toNat / 4096 % 16), hexDigit (r.toNat / 256 % 16),
      hexDigit (r.toNat / 16 % 16), hexDigit (r.toNat % 16)]
  else
    ['\\', 'U', hexDigit (r.toNat / 268435456 % 16), hexDigit (r.toNat / 16777216 % 16),
      hexDigit (r.toNat / 1048576 % 16), hexDigit (r.toNat / 65536 % 16),
      hexDigit (r.toNat / 4096 % 16), hexDigit (r.toNat / 256 % 16),
      hexDigit (r.toNat / 16 % 16), hexDigit (r.toNat % 16)]

/-- The loop of Go `strconv.appendQuotedWith` over the characters of `s`,
appending to `buf`. -/
def quoteRunes (isPrintTable : Char → Bool) : Str → Str → Str
  | [], buf => buf
  | r :: rest, buf => quoteRunes isPrintTable rest (buf ++ escapedRune isPrintTable r)

/-- Go `strconv.Quote(s)`: a double quote, the escaped characters of `s`, a
double quote. -/
def Quote (isPrintTable : Char → Bool) (s : Str) : Str :=
  quoteRunes isPrintTable s ['"'] ++ ['"']

/-! ## `GenerateFromInfo` -/

/-- The loop `for _, envInfo := range env` (source lines 187-194), writing to
the buffer `dfData`. -/
def envLoop : List Str → Str → Str
  | [], dfData => dfData
  | envInfo :: rest, dfData =>
    let envParts := Split envInfo "=".toList
    if envParts.length > 1 then
      let envLine := envParts.getD 0 [] ++ " ".toList ++ envParts.getD 1 []
      envLoop rest (dfData ++ "ENV ".toList ++ envLine ++ ['\n'])
    else
      envLoop rest dfData

/-- The loop `for portInfo := range exposedPorts` (source lines 198-202) over
the keys of the map, in the order in which the `range` statement yields
them. -/
def exposeLoop : List Str → Str → Str
  | [], dfData => dfData
  | portInfo :: rest, dfData =>
    exposeLoop rest (dfData ++ "EXPOSE ".toList ++ portInfo ++ ['\n'])

/-- The loops `for idx := range entrypoint` and `for idx := range cmd` (source
lines 207-209 and 225-227), appending the quoted elements. -/
def quoteLoop (isPrintTable : Char → Bool) : List Str → List Str → List Str
  | [], quoted => quoted
  | element :: rest, quoted =>
    quoteLoop isPrintTable rest (quoted ++ [Quote isPrintTable element])

/-- The content of the buffer `dfData` when `GenerateFromInfo` writes the file
(source lines 176-232).  `exposedPorts` lists the keys of the map in the order
in which the `range` statement yields them. -/
def dockerfileData (isPrintTable : Char → Bool) (workingDir : Str) (env : List Str)
    (exposedPorts : List Str) (entrypoint cmd : List Str) : Str :=
  let dfData : Str := "FROM scratch\n".toList
  let dfData := dfData ++ "COPY files /\n".toList
  let dfData :=
    if workingDir ≠ "".toList then dfData ++ "WORKDIR ".toList ++ workingDir ++ ['\n']
    else dfData
  let dfData := if env.length > 0 then envLoop env dfData else dfData
  let dfData := if exposedPorts.length > 0 then exposeLoop exposedPorts dfData else dfData
  let dfData :=
    if entrypoint.length > 0 then
      let quotedEntryPoint := quoteLoop isPrintTable entrypoint []
      dfData ++ "ENTRYPOINT [".toList ++ Join quotedEntryPoint ",".toList ++ [']'] ++ ['\n']
    else dfData
  let dfData :=
    if cmd.length > 0 then
      let quotedCmd := quoteLoop isPrintTable cmd []
      dfData ++ "CMD [".toList ++ Join quotedCmd ",".toList ++ [']'] ++ ['\n']
    else dfData
  dfData

/-- The function `GenerateFromInfo`.  The two collaborators are parameters:
`filepathJoin` is `filepath.Join` and `writeFile` is `ioutil.WriteFile` with
the mode `0644`; the result is the result of the write. -/
def GenerateFromInfo {ε : Type} (isPrintTable : Char → Bool)
    (filepathJoin : Str → Str → Str) (writeFile : Str → Str → Except ε Unit)
    (location workingDir : Str) (env : List Str) (exposedPorts : List Str)
    (entrypoint cmd : List Str) : Except ε Unit :=
  let dockerfileLocation := filepathJoin location "Dockerfile".toList
  writeFile dockerfileLocation
    (dockerfileData isPrintTable workingDir env exposedPorts entrypoint cmd)

/-! ## Reading a bracketed list back

The specification speaks of re-parsing the bracketed list of an `ENTRYPOINT`
or `CMD` line: the list is cut at the commas that stand between quoted
elements, and every quoted element is unescaped.  The definitions below are
that reader; the program has no such function. -/

/-- The value of a hexadecimal digit. -/
def hexVal (c : Char) : Option Nat :=
  if 48 ≤ c.toNat ∧ c.toNat ≤ 57 then some (c.toNat - 48)
  else if 97 ≤ c.toNat ∧ c.toNat ≤ 102 then some (c.toNat - 87)
  else if 65 ≤ c.toNat ∧ c.toNat ≤ 70 then some (c.toNat - 55)
  else none

/-- The number written by hexadecimal digits, most significant first,
continuing from `acc`. -/
def hexNumber : Nat → Str → Option Nat
  | acc, [] => some acc
  | acc, c :: cs =>
    match hexVal c with
    | some d => hexNumber (acc * 16 + d) cs
    | none => none

/-- The character that a one-letter escape stands for. -/
def simpleEscape (e : Char) : Option Char :=
  if e = 'a' then some (Char.ofNat 0x07)
  else if e = 'b' then some (Char.ofNat 0x08)
  else if e = 'f' then some (Char.ofNat 0x0C)
  else if e = 'n' then some (Char.ofNat 0x0A)
  else if e = 'r' then some (Char.ofNat 0x0D)
  else if e = 't' then some (Char.ofNat 0x09)
  else if e = 'v' then some (Char.ofNat 0x0B)
  else if e = '"' then some '"'
  else if e = '\\' then some '\\'
  else none

/-- Reading one character of a quoted element: a character that stands for
itself, or an escape that starts with a backslash.  The result is the
character and the text after it. -/
def readRune (s : Str) : Option (Char × Str) :=
  match s with
  | [] => none
  | c :: rest =>
    if c = '\\' then
      match rest with
      | [] => none
      | e :: rest2 =>
        if e = 'x' then
          match rest2 with
          | h1 :: h2 :: rest3 =>
            (hexNumber 0 [h1, h2]).map (fun n => (Char.ofNat n, rest3))
          | _ => none
        else if e = 'u' then
          match rest2 with
          | h1 :: h2 :: h3 :: h4 :: rest3 =>
            (hexNumber 0 [h1, h2, h3, h4]).map (fun n => (Char.ofNat n, rest3))
          | _ => none
        else if e = 'U' then
          match rest2 with
          | h1 :: h2 :: h3 :: h4 :: h5 :: h6 :: h7 :: h8 :: rest3 =>
            (hexNumber 0 [h1, h2, h3, h4, h5, h6, h7, h8]).map
              (fun n => (Char.ofNat n, rest3))
          | _ => none
        else (simpleEscape e).map (fun r => (r, rest2))
    else some (c, rest)

/-- Unescaping a quoted element from behind its opening quote, up to its
closing quote: the characters read so far are `acc`; the result is the element
and the text after the closing quote, or `none` when the text is not a quoted
element.  At most `fuel` characters of the element are read. -/
def unquoteRunes : Nat → Str → Str → Option (Str × Str)
  | 0, _, _ => none
  | fuel + 1, s, acc =>
    match s with
    | [] => none
    | c :: rest =>
      if c = '"' then some (acc, rest)
      else
        match readRune (c :: rest) with
        | none => none
        | some (r, rest2) => unquoteRunes fuel rest2 (acc ++ [r])

/-- Reading the elements of a bracketed list from behind the opening bracket:
a quoted element, then a comma and the next element, or the closing bracket at
the end of the text.  At most `fuel` elements are read; the length of the text
bounds the characters of every element. -/
def parseElements : Nat → Str → List Str → Option (List Str)
  | 0, _, _ => none
  | fuel + 1, s, elements =>
    match s with
    | [] => none
    | c :: body =>
      if c = '"' then
        match unquoteRunes (body.length + 1) body [] with
        | none => none
        | some (element, rest) =>
          match rest with
          | [] => none
          | d :: rest2 =>
            if d = ',' then parseElements fuel rest2 (elements ++ [element])
            else if d = ']' ∧ rest2 = [] then some (elements ++ [element])
            else none
      else none

/-- Reading a bracketed list of quoted elements; the length of the text is
enough fuel, since every element takes at least two characters. -/
def parseList (s : Str) : Option (List Str) :=
  match s with
  | [] => none
  | c :: rest => if c = '[' then parseElements rest.length rest [] else none

/-- An entrypoint whose last element holds double quotes, a comma and a
backslash. -/
def quotedEntrypoint : List Str :=
  ["/bin/sh".toList, "-c".toList, "echo \"a,b\" \\ c".toList]

/-- One pass over `s`, character by character, that puts `new` in the place of
every occurrence of a non-empty `old`, found left to right without overlap.
It computes what `Replace` computes (`Replace_eq_scanLoop`); `len(s)` rounds
are enough fuel. -/
def scanLoop (old new : Str) : Nat → Str → Str
  | 0, s => s
  | _ + 1, [] => []
  | fuel + 1, c :: rest =>
    if HasPrefix (c :: rest) old then new ++ scanLoop old new fuel (rest.drop (old.length - 1))
    else c :: scanLoop old new fuel rest

/-- A layer whose `ENTRYPOINT` list is wrapped twice in the artifacts that the
clean-up removes. -/
def nestedEntrypointLayer : ImageHistory :=
  { ID := "sha12".toList
    Tags := []
    Created := 12
    CreatedBy := "/bin/sh -c #(nop) ENTRYPOINT &\x7b&\x7b[[\"/app\"]]\x7d\x7d".toList
    Comment := "".toList }

/-! ## Facts about the string functions -/

theorem HasPrefix_iff (s pre : Str) : HasPrefix s pre = true ↔ ∃ r, s = pre ++ r := by
  unfold HasPrefix
  rw [List.isPrefixOf_iff_prefix]
  constructor
  · rintro ⟨r, hr⟩
    exact ⟨r, hr.symm⟩
  · rintro ⟨r, hr⟩
    exact ⟨r, hr.symm⟩

theorem HasPrefix_append (pre r : Str) : HasPrefix (pre ++ r) pre = true :=
  (HasPrefix_iff _ _).2 ⟨r, rfl⟩

theorem TrimPrefix_append (pre r : Str) : TrimPrefix (pre ++ r) pre = r := by
  simp [TrimPrefix, HasPrefix_append]

theorem HasPrefix_nil_left (sep : Str) (h : 0 < sep.length) : HasPrefix [] sep = false := by
  cases sep with
  | nil => simp at h
  | cons a l => rfl

theorem Index_nil (sep : Str) (h : 0 < sep.length) : Index [] sep = none := by
  simp [Index, HasPrefix_nil_left sep h]

/-- An index found by `Index` cuts the string into the text before the
occurrence, the occurrence, and the text after it. -/
theorem Index_cut (sep : Str) :
    ∀ (s : Str) (m : Nat), Index s sep = some m →
      s = s.take m ++ sep ++ s.drop (m + sep.length) := by
  intro s
  induction s with
  | nil =>
    intro m h
    unfold Index at h
    split at h
    · rename_i hp
      obtain ⟨r, hr⟩ := (HasPrefix_iff _ _).1 hp
      have hsep : sep = [] := (List.append_eq_nil.1 hr.symm).1
      simp [hsep]
    · cases h
  | cons c cs ih =>
    intro m h
    unfold Index at h
    split at h
    · rename_i hp
      obtain ⟨r, hr⟩ := (HasPrefix_iff _ _).1 hp
      cases h
      rw [hr]
      simp
    · cases hi : Index cs sep with
      | none => simp [hi] at h
      | some j =>
        simp [hi] at h
        subst h
        have := ih j hi
        have e : j + 1 + sep.length = (j + sep.length) + 1 := by omega
        rw [e]
        simp only [List.take_succ_cons, List.drop_succ_cons, List.cons_append]
        exact congrArg (List.cons c) this

theorem Index_bound (sep : Str) :
    ∀ (s : Str) (m : Nat), Index s sep = some m → m + sep.length ≤ s.length := by
  intro s
  induction s with
  | nil =>
    intro m h
    unfold Index at h
    split at h
    · rename_i hp
      obtain ⟨r, hr⟩ := (HasPrefix_iff _ _).1 hp
      have hsep : sep = [] := (List.append_eq_nil.1 hr.symm).1
      cases h
      simp [hsep]
    · cases h
  | cons c cs ih =>
    intro m h
    unfold Index at h
    split at h
    · rename_i hp
      obtain ⟨r, hr⟩ := (HasPrefix_iff _ _).1 hp
      cases h
      rw [hr]
      simp
    · cases hi : Index cs sep with
      | none => simp [hi] at h
      | some j =>
        simp [hi] at h
        subst h
        have := ih j hi
        simp only [List.length_cons]
        omega

/-- With a non-empty separator, any fuel of at least `len(s)` gives the loop
of `Count` the same result: the loop has ended by itself. -/
theorem countLoop_fuel (sep : Str) (hsep : 0 < sep.length) :
    ∀ (f g : Nat) (s : Str), s.length ≤ f → s.length ≤ g →
      countLoop sep f s = countLoop sep g s := by
  intro f
  induction f with
  | zero =>
    intro g s hf _
    have hs : s = [] := List.length_eq_zero.1 (Nat.le_zero.1 hf)
    subst hs
    cases g with
    | zero => rfl
    | succ g => simp [countLoop, Index_nil sep hsep]
  | succ f ih =>
    intro g s hf hg
    cases g with
    | zero =>
      have hs : s = [] := List.length_eq_zero.1 (Nat.le_zero.1 hg)
      subst hs
      simp [countLoop, Index_nil sep hsep]
    | succ g =>
      unfold countLoop
      cases hi : Index s sep with
      | none => rfl
      | some i =>
        simp only
        have hb := Index_bound sep s i hi
        have hl : (s.drop (i + sep.length)).length = s.length - (i + sep.length) := List.length_drop _ _
        rw [ih g (s.drop (i + sep.length)) (by omega) (by omega)]

theorem genSplit_ne_nil (sep : Str) (n : Nat) (s : Str) : genSplit sep n s ≠ [] := by
  cases n with
  | zero => simp [genSplit]
  | succ n =>
    unfold genSplit
    cases Index s sep <;> simp

theorem Join_cons (a : Str) (l : List Str) (sep : Str) (h : l ≠ []) :
    Join (a :: l) sep = a ++ sep ++ Join l sep := by
  cases l with
  | nil => exact absurd rfl h
  | cons b rest => rfl

/-- Joining the pieces of `genSplit` with the separator gives the string back. -/
theorem Join_genSplit (sep : Str) : ∀ (n : Nat) (s : Str), Join (genSplit sep n s) sep = s := by
  intro n
  induction n with
  | zero => intro s; rfl
  | succ n ih =>
    intro s
    unfold genSplit
    cases hi : Index s sep with
    | none => rfl
    | some m =>
      simp only
      rw [Join_cons _ _ _ (genSplit_ne_nil _ _ _), ih]
      exact (Index_cut sep s m hi).symm

theorem length_genSplit_countLoop (sep : Str) :
    ∀ (f : Nat) (s : Str), (genSplit sep (countLoop sep f s) s).length = countLoop sep f s + 1 := by
  intro f
  induction f with
  | zero => intro s; rfl
  | succ f ih =>
    intro s
    unfold countLoop
    cases hi : Index s sep with
    | none => rfl
    | some i =>
      simp only
      unfold genSplit
      simp only [hi, List.length_cons, ih]

/-- The number of pieces of `Split` is one more than the number of
occurrences of the separator. -/
theorem length_Split (s sep : Str) (hsep : 0 < sep.length) :
    (Split s sep).length = Count s sep + 1 := by
  have h0 : sep.length ≠ 0 := by omega
  simp only [Split, Count, h0, if_false]
  exact length_genSplit_countLoop sep s.length s

theorem Join_Split (s sep : Str) (hsep : 0 < sep.length) : Join (Split s sep) sep = s := by
  have h0 : sep.length ≠ 0 := by omega
  simp only [Split, h0, if_false]
  exact Join_genSplit sep _ s

theorem TrimSpace_getLast (s : Str) (c : Char) (h : (TrimSpace s).getLast? = some c) :
    IsSpace c = false := by
  unfold TrimSpace at h
  rw [List.getLast?_reverse] at h
  have := List.head?_dropWhile_not IsSpace (s.dropWhile IsSpace).reverse
  rw [h] at this
  exact this

theorem TrimSpace_head (s : Str) (c : Char) (h : (TrimSpace s).head? = some c) :
    IsSpace c = false := by
  have hcut : s.dropWhile IsSpace
      = TrimSpace s ++ ((s.dropWhile IsSpace).reverse.takeWhile IsSpace).reverse := by
    unfold TrimSpace
    rw [← List.reverse_append, List.takeWhile_append_dropWhile, List.reverse_reverse]
  have := List.head?_dropWhile_not IsSpace s
  rw [hcut] at this
  cases ht : TrimSpace s with
  | nil => rw [ht] at h; cases h
  | cons a l =>
    rw [ht] at h this
    simp at h this
    rw [← h]
    exact this


/-! ## Facts about the decoding of one layer -/

theorem formatParts_succ (i : Nat) (parts : List Str) :
    formatParts (i + 1) parts = parts.map (fun p => "\t".toList ++ TrimSpace p) := by
  induction parts generalizing i with
  | nil => rfl
  | cons p ps ih =>
    unfold formatParts
    rw [ih]
    rfl

theorem formatParts_zero (p : Str) (ps : List Str) :
    formatParts 0 (p :: ps)
      = TrimSpace p :: ps.map (fun q => "\t".toList ++ TrimSpace q) := by
  unfold formatParts
  rw [formatParts_succ]
  rfl

theorem entrypointFix_RUN (x : Str) : entrypointFix ("RUN ".toList ++ x) = "RUN ".toList ++ x := by
  have h : HasPrefix ("RUN ".toList ++ x) "ENTRYPOINT ".toList = false := rfl
  unfold entrypointFix
  rw [h]
  rfl

theorem execPrefix_append_length (runData : Str) : ¬ ((execPrefix ++ runData).length = 0) := by
  simp [execPrefix]

theorem prefixDecode_exec (runData : Str)
    (hNop : HasPrefix (execPrefix ++ runData) nopPrefix = false) :
    prefixDecode (execPrefix ++ runData)
      = if Contains runData "&&".toList then
          "RUN ".toList ++ Join (formatParts 0 (Split runData "&&".toList)) " && \\\n".toList
        else "RUN ".toList ++ runData := by
  unfold prefixDecode
  rw [if_neg (execPrefix_append_length runData), hNop, HasPrefix_append, TrimPrefix_append]
  simp

theorem prefixDecode_nop (rest : Str) : prefixDecode (nopPrefix ++ rest) = rest := by
  unfold prefixDecode
  have h : ¬ ((nopPrefix ++ rest).length = 0) := by simp [nopPrefix]
  rw [if_neg h, HasPrefix_append, TrimPrefix_append]
  simp

theorem prefixDecode_other (rawLine : Str) (hLen : rawLine ≠ [])
    (hNop : HasPrefix rawLine nopPrefix = false) (hExec : HasPrefix rawLine execPrefix = false) :
    prefixDecode rawLine = rawLine := by
  unfold prefixDecode
  have h : ¬ (rawLine.length = 0) := by
    intro h0
    exact hLen (List.length_eq_zero.1 h0)
  rw [if_neg h, hNop, hExec]
  simp

theorem layerInst_instCmd (layer : ImageHistory) (isStart : Bool) :
    (layerInst layer isStart).instCmd = decodeInst layer.CreatedBy := by
  by_cases h : layer.Tags.length > 0 <;> simp [layerInst, h]

theorem layerInst_instTime (layer : ImageHistory) (isStart : Bool) :
    (layerInst layer isStart).instTime = layer.Created := by
  by_cases h : layer.Tags.length > 0 <;> simp [layerInst, h]

theorem layerInst_layerImageID (layer : ImageHistory) (isStart : Bool) :
    (layerInst layer isStart).layerImageID = layer.ID := by
  by_cases h : layer.Tags.length > 0 <;> simp [layerInst, h]

theorem layerInst_instComment (layer : ImageHistory) (isStart : Bool) :
    (layerInst layer isStart).instComment = layer.Comment := by
  by_cases h : layer.Tags.length > 0 <;> simp [layerInst, h]

theorem layerInst_instType (layer : ImageHistory) (isStart : Bool) :
    (layerInst layer isStart).instType
      = if layer.Tags.length > 0 then "last".toList
        else if isStart then "first".toList else "intermediate".toList := by
  by_cases h : layer.Tags.length > 0 <;> simp [layerInst, h]

/-! ## Facts about the history loop -/

/-- The rounds of the history loop that are not the round of
`imageLayerStart` append the instructions of the first `k` layers, newest
last. -/
theorem instLoop_rest (imageHistory : List ImageHistory) (imageLayerStart : Int) :
    ∀ (k : Nat) (hk : k ≤ imageHistory.length) (acc : List imageInst),
      (∀ idx : Nat, idx < k → (idx : Int) ≠ imageLayerStart) →
      instLoop imageHistory imageLayerStart k hk acc
        = acc ++ ((imageHistory.take k).reverse.map (fun layer => layerInst layer false)) := by
  intro k
  induction k with
  | zero => intro hk acc _; simp [instLoop]
  | succ k ih =>
    intro hk acc hne
    unfold instLoop
    rw [ih (Nat.le_of_succ_le hk) _ (fun idx hidx => hne idx (Nat.lt_succ_of_lt hidx))]
    have hflag : decide ((k : Int) = imageLayerStart) = false :=
      decide_eq_false (hne k (Nat.lt_succ_self k))
    have hk2 : k < imageHistory.length := hk
    rw [hflag, List.take_succ, List.getElem?_eq_getElem hk2]
    simp only [List.get_eq_getElem, Option.toList, List.reverse_append, List.reverse_cons,
      List.reverse_nil, List.nil_append, List.map_append, List.map_cons, List.map_nil,
      List.append_assoc, List.singleton_append, List.cons_append]

/-- The instructions of a non-empty history: the oldest layer first, decoded
in the round `idx == imageLayerStart`, then the other layers from older to
newer. -/
theorem instructions_concat (init : List ImageHistory) (oldest : ImageHistory) :
    fatImageDockerInstructions (init ++ [oldest])
      = layerInst oldest true :: init.reverse.map (fun layer => layerInst layer false) := by
  unfold fatImageDockerInstructions
  have hlen : (init ++ [oldest]).length = init.length + 1 := by simp
  have hpos : ((init ++ [oldest]).length : Int) > 0 := by rw [hlen]; push_cast; omega
  simp only [hpos, if_true]
  have key : ∀ (n : Nat) (hn : n ≤ (init ++ [oldest]).length), n = init.length + 1 →
      instLoop (init ++ [oldest]) (((init ++ [oldest]).length : Int) - 1) n hn []
        = layerInst oldest true :: init.reverse.map (fun layer => layerInst layer false) := by
    intro n hn hn1
    subst hn1
    unfold instLoop
    rw [instLoop_rest]
    · have hflag : decide ((init.length : Int) = ((init ++ [oldest]).length : Int) - 1) = true := by
        rw [hlen]; push_cast; simp
      rw [hflag]
      simp
    · intro idx hidx
      rw [hlen]; push_cast; omega
  exact key _ _ hlen

theorem instructions_nil : fatImageDockerInstructions [] = [] := rfl

theorem instructions_length (imageHistory : List ImageHistory) :
    (fatImageDockerInstructions imageHistory).length = imageHistory.length := by
  rcases List.eq_nil_or_concat imageHistory with h | ⟨init, oldest, h⟩
  · subst h; rfl
  · subst h
    rw [List.concat_eq_append, instructions_concat]
    simp

/-- The instruction at position `n - 1 - idx` is the one decoded from the
layer at input index `idx`, in the round whose test `idx == imageLayerStart`
is `idx + 1 = n`. -/
theorem instruction_of_layer (imageHistory : List ImageHistory) (idx : Nat)
    (hidx : idx < imageHistory.length) :
    (fatImageDockerInstructions imageHistory)[imageHistory.length - 1 - idx]?
      = (imageHistory[idx]?).map
          (fun layer => layerInst layer (decide (idx + 1 = imageHistory.length))) := by
  rcases List.eq_nil_or_concat imageHistory with h | ⟨init, oldest, h⟩
  · subst h; simp at hidx
  · subst h
    rw [List.concat_eq_append] at hidx ⊢
    rw [instructions_concat]
    have hlen : (init ++ [oldest]).length = init.length + 1 := by simp
    rw [hlen] at hidx ⊢
    by_cases hlast : idx = init.length
    · subst hlast
      simp
    · have hlt : idx < init.length := by omega
      have e : init.length + 1 - 1 - idx = (init.length - 1 - idx) + 1 := by omega
      have hd : decide (idx + 1 = init.length + 1) = false := by simp; omega
      rw [e, hd, List.getElem?_cons_succ, List.getElem?_map,
        List.getElem?_reverse (by omega), List.getElem?_append_left hlt]
      congr 2
      omega


/-- The instruction decoded from the layer found at input index `idx`. -/
theorem instruction_of_some (imageHistory : List ImageHistory) (idx : Nat)
    (layer : ImageHistory) (hl : imageHistory[idx]? = some layer) :
    (fatImageDockerInstructions imageHistory)[imageHistory.length - 1 - idx]?
      = some (layerInst layer (decide (idx + 1 = imageHistory.length))) := by
  have hidx : idx < imageHistory.length := by
    rcases Nat.lt_or_ge idx imageHistory.length with h | h
    · exact h
    · rw [List.getElem?_eq_none h] at hl; cases hl
  rw [instruction_of_layer imageHistory idx hidx, hl]
  rfl

theorem replaceLoop_eq_Join_genSplit (old new : Str) :
    ∀ (n : Nat) (s : Str), replaceLoop old new n s = Join (genSplit old n s) new := by
  intro n
  induction n with
  | zero => intro s; rfl
  | succ n ih =>
    intro s
    unfold replaceLoop genSplit
    cases hi : Index s old with
    | none => rfl
    | some j =>
      simp only
      rw [Join_cons _ _ _ (genSplit_ne_nil _ _ _), ih]

/-- Replacing every occurrence of a non-empty `old` is cutting the string at
the occurrences of `old` and joining the pieces with `new`. -/
theorem Replace_eq_Join_Split (s old new : Str) (hold : 0 < old.length) :
    Replace s old new = Join (Split s old) new := by
  have h0 : old.length ≠ 0 := by omega
  unfold Replace Split
  rw [if_neg h0, if_neg h0]
  by_cases he : old = new
  · rw [if_pos he, ← he]
    exact (Join_genSplit old _ s).symm
  · rw [if_neg he]
    exact replaceLoop_eq_Join_genSplit old new _ s

/-! ## Splitting at a one-character separator -/

theorem HasPrefix_cons_single (c d : Char) (cs : Str) (h : c ≠ d) :
    HasPrefix (c :: cs) [d] = false := by
  have hne : (d == c) = false := by
    rw [beq_eq_false_iff_ne]
    exact fun e => h e.symm
  simp [HasPrefix, List.isPrefixOf, hne]

theorem Index_single_none (d : Char) : ∀ (t : Str), d ∉ t → Index t [d] = none := by
  intro t
  induction t with
  | nil => intro _; rfl
  | cons c cs ih =>
    intro h
    have hc : c ≠ d := fun e => h (by simp [e])
    have hcs : d ∉ cs := fun e => h (List.mem_cons_of_mem _ e)
    unfold Index
    rw [HasPrefix_cons_single c d cs hc, ih hcs]
    rfl

theorem Index_single_append (d : Char) (t : Str) :
    ∀ (name : Str), d ∉ name → Index (name ++ d :: t) [d] = some name.length := by
  intro name
  induction name with
  | nil =>
    intro _
    have hp : HasPrefix (d :: t) [d] = true := by simp [HasPrefix, List.isPrefixOf]
    simp [Index, hp]
  | cons c cs ih =>
    intro h
    have hc : c ≠ d := fun e => h (by simp [e])
    have hcs : d ∉ cs := fun e => h (List.mem_cons_of_mem _ e)
    rw [List.cons_append]
    unfold Index
    rw [HasPrefix_cons_single c d _ hc, ih hcs]
    rfl

theorem countLoop_single_none (d : Char) (t : Str) (h : d ∉ t) (f : Nat) :
    countLoop [d] f t = 0 := by
  cases f with
  | zero => rfl
  | succ f =>
    unfold countLoop
    rw [Index_single_none d t h]

/-- A string with exactly one occurrence of the separator character splits
into the text before it and the text after it. -/
theorem Split_single (d : Char) (name t : Str) (hn : d ∉ name) (ht : d ∉ t) :
    Split (name ++ [d] ++ t) [d] = [name, t] := by
  have hi : Index (name ++ d :: t) [d] = some name.length := Index_single_append d t name hn
  have hs : name ++ [d] ++ t = name ++ d :: t := by simp
  have hdrop : (name ++ d :: t).drop (name.length + 1) = t := by
    rw [List.drop_append_eq_append_drop]
    simp
  have htake : (name ++ d :: t).take name.length = name := by
    rw [List.take_append_eq_append_take]
    simp
  have hcount : Count (name ++ d :: t) [d] = 1 := by
    unfold Count
    have hl : (name ++ d :: t).length = (name.length + t.length) + 1 := by
      simp; omega
    simp only [List.length_singleton, Nat.succ_ne_zero, if_false, hl]
    unfold countLoop
    simp only [hi, List.length_singleton, hdrop, countLoop_single_none d t ht]
  rw [hs]
  unfold Split
  simp only [List.length_singleton, Nat.succ_ne_zero, if_false, hcount]
  unfold genSplit
  simp only [hi, List.length_singleton, hdrop, htake]
  rfl

theorem shortTagsLoop_pairs (pairs : List (Str × Str))
    (hColon : ∀ p ∈ pairs, ':' ∉ p.1 ∧ ':' ∉ p.2) (acc : List Str) :
    shortTagsLoop (pairs.map (fun p => p.1 ++ ":".toList ++ p.2)) acc
      = acc ++ pairs.map Prod.snd := by
  induction pairs generalizing acc with
  | nil => simp [shortTagsLoop]
  | cons p ps ih =>
    have hp := hColon p (List.mem_cons_self _ _)
    have hps : ∀ q ∈ ps, ':' ∉ q.1 ∧ ':' ∉ q.2 :=
      fun q hq => hColon q (List.mem_cons_of_mem _ hq)
    have hsplit : Split (p.1 ++ ":".toList ++ p.2) ":".toList = [p.1, p.2] :=
      Split_single ':' p.1 p.2 hp.1 hp.2
    rw [List.map_cons]
    unfold shortTagsLoop
    simp only [hsplit]
    rw [if_pos (by simp), ih hps]
    simp

/-! ## The regions of the instructions -/

theorem layerInst_first_iff (layer : ImageHistory) (isStart : Bool) :
    (layerInst layer isStart).instType = "first".toList
      ↔ (layer.Tags.length = 0 ∧ isStart = true) := by
  rw [layerInst_instType]
  by_cases h : layer.Tags.length > 0
  · rw [if_pos h]
    constructor
    · intro e; exact absurd e (by decide)
    · intro e; exact absurd e.1 (by omega)
  · rw [if_neg h]
    cases isStart with
    | true =>
      simp only [if_true, and_true, true_iff]
      omega
    | false =>
      simp only [Bool.false_eq_true, if_false, and_false, iff_false]
      decide

theorem layerInst_last_iff (layer : ImageHistory) (isStart : Bool) :
    (layerInst layer isStart).instType = "last".toList ↔ layer.Tags.length > 0 := by
  rw [layerInst_instType]
  by_cases h : layer.Tags.length > 0
  · simp [h]
  · rw [if_neg h]
    cases isStart with
    | true =>
      simp only [if_true]
      constructor
      · intro e; exact absurd e (by decide)
      · intro e; exact absurd e h
    | false =>
      simp only [Bool.false_eq_true, if_false]
      constructor
      · intro e; exact absurd e (by decide)
      · intro e; exact absurd e h

theorem layerInst_region (layer : ImageHistory) (isStart : Bool) :
    (layerInst layer isStart).instType = "first".toList
      ∨ (layerInst layer isStart).instType = "last".toList
      ∨ (layerInst layer isStart).instType = "intermediate".toList := by
  rw [layerInst_instType]
  by_cases h : layer.Tags.length > 0
  · simp [h]
  · cases isStart <;> simp [h]

theorem history_of_getLast (imageHistory : List ImageHistory) (oldest : ImageHistory)
    (hOld : imageHistory.getLast? = some oldest) :
    ∃ init, imageHistory = init ++ [oldest] := by
  rcases List.eq_nil_or_concat imageHistory with h | ⟨init, b, h⟩
  · subst h; simp at hOld
  · refine ⟨init, ?_⟩
    rw [List.concat_eq_append] at h
    subst h
    simp at hOld
    rw [hOld]

/-! ## The decoding of one layer (claims C1 to C6) -/

/-- C1: a layer whose `createdBy` is `/bin/sh -c ` followed by a remainder
that contains `&&`, and that does not start with the no-op prefix, decodes to
`RUN ` followed by the trimmed pieces of the remainder, joined by
space, `&&`, space, backslash, newline, every piece after the first with one
tab in front.  No piece begins or ends with white space, there is one piece
more than there are occurrences of `&&`, and the pieces are the texts between
the occurrences: joined by `&&` they give the remainder back. -/
theorem C1_multi_step_run (imageHistory : List ImageHistory) (idx : Nat)
    (layer : ImageHistory) (runData : Str)
    (hl : imageHistory[idx]? = some layer)
    (hBy : layer.CreatedBy = "/bin/sh -c ".toList ++ runData)
    (hNop : HasPrefix layer.CreatedBy "/bin/sh -c #(nop) ".toList = false)
    (hAnd : Contains runData "&&".toList = true) :
    ∃ inst first rest,
      (fatImageDockerInstructions imageHistory)[imageHistory.length - 1 - idx]? = some inst
      ∧ (Split runData "&&".toList).map TrimSpace = first :: rest
      ∧ inst.instCmd
          = "RUN ".toList
            ++ Join (first :: rest.map (fun p => "\t".toList ++ p)) " && \\\n".toList
      ∧ (∀ p ∈ first :: rest, ∀ c, (p.head? = some c ∨ p.getLast? = some c) → IsSpace c = false)
      ∧ (first :: rest).length = Count runData "&&".toList + 1
      ∧ Join (Split runData "&&".toList) "&&".toList = runData := by
  have hidx : idx < imageHistory.length := by
    rcases Nat.lt_or_ge idx imageHistory.length with h | h
    · exact h
    · rw [List.getElem?_eq_none h] at hl; cases hl
  have hget := instruction_of_layer imageHistory idx hidx
  rw [hl] at hget
  have hsep : 0 < ("&&".toList).length := by decide
  have hlen := length_Split runData "&&".toList hsep
  cases hs : Split runData "&&".toList with
  | nil => rw [hs] at hlen; simp at hlen
  | cons p ps =>
    refine ⟨_, TrimSpace p, ps.map TrimSpace, hget, by simp, ?_, ?_, ?_, ?_⟩
    · rw [layerInst_instCmd, decodeInst, hBy]
      have hNop2 : HasPrefix (execPrefix ++ runData) nopPrefix = false := by
        rw [hBy] at hNop; exact hNop
      have hpd := prefixDecode_exec runData hNop2
      rw [hAnd, if_pos rfl, hs, formatParts_zero] at hpd
      have hpd2 : prefixDecode ("/bin/sh -c ".toList ++ runData)
          = "RUN ".toList
            ++ Join (TrimSpace p :: ps.map (fun q => "\t".toList ++ TrimSpace q))
                " && \\\n".toList := hpd
      rw [hpd2, entrypointFix_RUN, List.map_map]
      rfl
    · intro q hq c hc
      have hq2 : q ∈ (p :: ps).map TrimSpace := by simpa using hq
      obtain ⟨r, _, hr⟩ := List.mem_map.1 hq2
      subst hr
      rcases hc with hc | hc
      · exact TrimSpace_head r c hc
      · exact TrimSpace_getLast r c hc
    · rw [← hlen, hs]; simp
    · rw [← hs]; exact Join_Split runData _ hsep

/-- Witness of C1: the layer of `exampleHistory` produced by a chain of three
shell commands. -/
theorem C1_multi_step_run_witness :
    (∃ inst first rest,
      (fatImageDockerInstructions exampleHistory)[exampleHistory.length - 1 - 1]? = some inst
      ∧ (Split "apt-get update  &&  apt-get install -y curl&&rm -rf /var/lib/apt ".toList
            "&&".toList).map TrimSpace = first :: rest
      ∧ inst.instCmd
          = "RUN ".toList
            ++ Join (first :: rest.map (fun p => "\t".toList ++ p)) " && \\\n".toList
      ∧ (∀ p ∈ first :: rest, ∀ c, (p.head? = some c ∨ p.getLast? = some c) → IsSpace c = false)
      ∧ (first :: rest).length
          = Count "apt-get update  &&  apt-get install -y curl&&rm -rf /var/lib/apt ".toList
              "&&".toList + 1
      ∧ Join (Split "apt-get update  &&  apt-get install -y curl&&rm -rf /var/lib/apt ".toList
            "&&".toList) "&&".toList
          = "apt-get update  &&  apt-get install -y curl&&rm -rf /var/lib/apt ".toList)
    ∧ (fatImageDockerInstructions exampleHistory)[4]?.map imageInst.instCmd
        = some "RUN apt-get update && \\\n\tapt-get install -y curl && \\\n\trm -rf /var/lib/apt".toList :=
  ⟨C1_multi_step_run exampleHistory 1 multiRunLayer
      "apt-get update  &&  apt-get install -y curl&&rm -rf /var/lib/apt ".toList
      (by rfl) (by decide) (by decide) (by decide),
    by decide⟩


/-- C2, as the code has it: a layer whose `createdBy` is the no-op prefix
followed by a remainder decodes to that remainder, with no `RUN ` in front and
no reformatting at `&&`; only when the remainder starts with `ENTRYPOINT ` it
is rewritten, by the `ENTRYPOINT` clean-up that follows the prefix decoding. -/
theorem C2_nop_remainder (imageHistory : List ImageHistory) (idx : Nat)
    (layer : ImageHistory) (rest : Str)
    (hl : imageHistory[idx]? = some layer)
    (hBy : layer.CreatedBy = "/bin/sh -c #(nop) ".toList ++ rest) :
    ∃ inst,
      (fatImageDockerInstructions imageHistory)[imageHistory.length - 1 - idx]? = some inst
      ∧ inst.instCmd
          = if HasPrefix rest "ENTRYPOINT ".toList then
              Replace (Replace rest "&\x7b[".toList "[".toList) "]\x7d".toList "]".toList
            else rest := by
  refine ⟨_, instruction_of_some imageHistory idx layer hl, ?_⟩
  rw [layerInst_instCmd, decodeInst, hBy]
  have h := prefixDecode_nop rest
  have h2 : prefixDecode ("/bin/sh -c #(nop) ".toList ++ rest) = rest := h
  rw [h2]
  rfl

/-- Witness of C2: the `ENV` layer of `exampleHistory`. -/
theorem C2_nop_remainder_witness :
    (∃ inst,
      (fatImageDockerInstructions exampleHistory)[exampleHistory.length - 1 - 4]? = some inst
      ∧ inst.instCmd
          = if HasPrefix "ENV PATH=/usr/bin".toList "ENTRYPOINT ".toList then
              Replace (Replace "ENV PATH=/usr/bin".toList "&\x7b[".toList "[".toList)
                "]\x7d".toList "]".toList
            else "ENV PATH=/usr/bin".toList)
    ∧ (fatImageDockerInstructions exampleHistory)[1]?.map imageInst.instCmd
        = some "ENV PATH=/usr/bin".toList :=
  ⟨C2_nop_remainder exampleHistory 4 envLayer "ENV PATH=/usr/bin".toList (by rfl) (by decide),
    by decide⟩

/-- Counterexample to C2 as stated: the newest layer of `exampleHistory` starts
with the no-op prefix, and its instruction is not `createdBy` without the
prefix: the brackets of the `ENTRYPOINT` list have been rewritten. -/
theorem C2_counterexample :
    exampleHistory[0]? = some entrypointLayer
    ∧ HasPrefix entrypointLayer.CreatedBy "/bin/sh -c #(nop) ".toList = true
    ∧ TrimPrefix entrypointLayer.CreatedBy "/bin/sh -c #(nop) ".toList
        = "ENTRYPOINT &\x7b[\"/bin/sh\" \"-c\"]\x7d".toList
    ∧ (fatImageDockerInstructions exampleHistory)[exampleHistory.length - 1 - 0]?.map
          imageInst.instCmd
        = some "ENTRYPOINT [\"/bin/sh\" \"-c\"]".toList
    ∧ (fatImageDockerInstructions exampleHistory)[exampleHistory.length - 1 - 0]?.map
          imageInst.instCmd
        ≠ some (TrimPrefix entrypointLayer.CreatedBy "/bin/sh -c #(nop) ".toList) := by
  decide

/-- C3: a layer whose `createdBy` is empty decodes to `FROM scratch`, at any
position of any history and whatever its other fields. -/
theorem C3_empty_is_from_scratch (imageHistory : List ImageHistory) (idx : Nat)
    (layer : ImageHistory)
    (hl : imageHistory[idx]? = some layer)
    (hBy : layer.CreatedBy = "".toList) :
    ∃ inst,
      (fatImageDockerInstructions imageHistory)[imageHistory.length - 1 - idx]? = some inst
      ∧ inst.instCmd = "FROM scratch".toList := by
  refine ⟨_, instruction_of_some imageHistory idx layer hl, ?_⟩
  rw [layerInst_instCmd, hBy]
  rfl

/-- Witness of C3: the tagged single layer of `singleTaggedHistory`, whose
`createdBy` is empty. -/
theorem C3_empty_is_from_scratch_witness :
    ∃ inst,
      (fatImageDockerInstructions singleTaggedHistory)[singleTaggedHistory.length - 1 - 0]?
        = some inst
      ∧ inst.instCmd = "FROM scratch".toList :=
  C3_empty_is_from_scratch singleTaggedHistory 0 singleTaggedLayer (by rfl) (by rfl)

/-- C4: a layer whose `createdBy` is `/bin/sh -c ` followed by a remainder
without `&&`, and that does not start with the no-op prefix, decodes to `RUN `
followed by the remainder.  The `ENTRYPOINT` clean-up leaves it as the prefix
decoding made it, and putting `/bin/sh -c ` in the place of the leading `RUN `
gives `createdBy` back. -/
theorem C4_single_step_run (imageHistory : List ImageHistory) (idx : Nat)
    (layer : ImageHistory) (runData : Str)
    (hl : imageHistory[idx]? = some layer)
    (hBy : layer.CreatedBy = "/bin/sh -c ".toList ++ runData)
    (hNop : HasPrefix layer.CreatedBy "/bin/sh -c #(nop) ".toList = false)
    (hAnd : Contains runData "&&".toList = false) :
    ∃ inst,
      (fatImageDockerInstructions imageHistory)[imageHistory.length - 1 - idx]? = some inst
      ∧ inst.instCmd = "RUN ".toList ++ runData
      ∧ inst.instCmd = prefixDecode layer.CreatedBy
      ∧ HasPrefix inst.instCmd "RUN ".toList = true
      ∧ "/bin/sh -c ".toList ++ TrimPrefix inst.instCmd "RUN ".toList = layer.CreatedBy := by
  have hNop2 : HasPrefix (execPrefix ++ runData) nopPrefix = false := by
    rw [hBy] at hNop; exact hNop
  have hpd := prefixDecode_exec runData hNop2
  rw [hAnd] at hpd
  have hpd2 : prefixDecode ("/bin/sh -c ".toList ++ runData) = "RUN ".toList ++ runData := hpd
  have hcmd : (layerInst layer (decide (idx + 1 = imageHistory.length))).instCmd
      = "RUN ".toList ++ runData := by
    rw [layerInst_instCmd, decodeInst, hBy, hpd2, entrypointFix_RUN]
  refine ⟨_, instruction_of_some imageHistory idx layer hl, hcmd, ?_, ?_, ?_⟩
  · rw [hcmd, hBy, hpd2]
  · rw [hcmd]; exact HasPrefix_append _ _
  · rw [hcmd, TrimPrefix_append, hBy]

/-- Witness of C4: the single-command layer of `exampleHistory`, whose command
holds both literals of the `ENTRYPOINT` clean-up. -/
theorem C4_single_step_run_witness :
    (∃ inst,
      (fatImageDockerInstructions exampleHistory)[exampleHistory.length - 1 - 2]? = some inst
      ∧ inst.instCmd = "RUN ".toList ++ "echo &\x7b[x]\x7d > /etc/motd".toList
      ∧ inst.instCmd = prefixDecode singleRunLayer.CreatedBy
      ∧ HasPrefix inst.instCmd "RUN ".toList = true
      ∧ "/bin/sh -c ".toList ++ TrimPrefix inst.instCmd "RUN ".toList
          = singleRunLayer.CreatedBy)
    ∧ Contains "echo &\x7b[x]\x7d > /etc/motd".toList "&\x7b[".toList = true
    ∧ Contains "echo &\x7b[x]\x7d > /etc/motd".toList "]\x7d".toList = true :=
  ⟨C4_single_step_run exampleHistory 2 singleRunLayer "echo &\x7b[x]\x7d > /etc/motd".toList
      (by rfl) (by decide) (by decide) (by decide),
    by decide, by decide⟩

/-- C5, as the code has it: a layer whose `createdBy` is not empty and starts
with neither prefix decodes to `createdBy` itself; only when `createdBy` starts
with `ENTRYPOINT ` it is rewritten, by the `ENTRYPOINT` clean-up that follows
the prefix decoding. -/
theorem C5_verbatim (imageHistory : List ImageHistory) (idx : Nat)
    (layer : ImageHistory)
    (hl : imageHistory[idx]? = some layer)
    (hLen : layer.CreatedBy ≠ "".toList)
    (hNop : HasPrefix layer.CreatedBy "/bin/sh -c #(nop) ".toList = false)
    (hExec : HasPrefix layer.CreatedBy "/bin/sh -c ".toList = false) :
    ∃ inst,
      (fatImageDockerInstructions imageHistory)[imageHistory.length - 1 - idx]? = some inst
      ∧ inst.instCmd
          = if HasPrefix layer.CreatedBy "ENTRYPOINT ".toList then
              Replace (Replace layer.CreatedBy "&\x7b[".toList "[".toList)
                "]\x7d".toList "]".toList
            else layer.CreatedBy := by
  refine ⟨_, instruction_of_some imageHistory idx layer hl, ?_⟩
  rw [layerInst_instCmd, decodeInst, prefixDecode_other layer.CreatedBy hLen hNop hExec]
  rfl

/-- Witness of C5: the `MAINTAINER` layer of `exampleHistory`. -/
theorem C5_verbatim_witness :
    (∃ inst,
      (fatImageDockerInstructions exampleHistory)[exampleHistory.length - 1 - 3]? = some inst
      ∧ inst.instCmd
          = if HasPrefix verbatimLayer.CreatedBy "ENTRYPOINT ".toList then
              Replace (Replace verbatimLayer.CreatedBy "&\x7b[".toList "[".toList)
                "]\x7d".toList "]".toList
            else verbatimLayer.CreatedBy)
    ∧ (fatImageDockerInstructions exampleHistory)[2]?.map imageInst.instCmd
        = some "MAINTAINER someone".toList :=
  ⟨C5_verbatim exampleHistory 3 verbatimLayer (by rfl) (by decide) (by decide) (by decide),
    by decide⟩

/-- Counterexample to C5 as stated: the newer layer of `bareEntrypointHistory`
is not empty and starts with neither prefix, and its instruction is not
`createdBy` itself: the brackets of the `ENTRYPOINT` list have been
rewritten. -/
theorem C5_counterexample :
    bareEntrypointHistory[0]? = some bareEntrypointLayer
    ∧ bareEntrypointLayer.CreatedBy ≠ "".toList
    ∧ HasPrefix bareEntrypointLayer.CreatedBy "/bin/sh -c #(nop) ".toList = false
    ∧ HasPrefix bareEntrypointLayer.CreatedBy "/bin/sh -c ".toList = false
    ∧ (fatImageDockerInstructions bareEntrypointHistory)[bareEntrypointHistory.length - 1 - 0]?.map
          imageInst.instCmd
        = some "ENTRYPOINT [\"/app\"]".toList
    ∧ (fatImageDockerInstructions bareEntrypointHistory)[bareEntrypointHistory.length - 1 - 0]?.map
          imageInst.instCmd
        ≠ some bareEntrypointLayer.CreatedBy := by
  decide

/-- C6: the instruction of a layer is the text of the prefix decoding when
that text does not start with `ENTRYPOINT `; when it does, it is that text
with every occurrence of `&{[`, found left to right without overlap, replaced
by `[`, and then every occurrence of `]}` replaced by `]`.  Replacing is
cutting at the occurrences and joining the pieces with the new text.  The
`ENTRYPOINT` layer of the claim decodes to the list in plain brackets. -/
theorem C6_entrypoint_cleanup (imageHistory : List ImageHistory) (idx : Nat)
    (layer : ImageHistory)
    (hl : imageHistory[idx]? = some layer) :
    (∃ inst,
      (fatImageDockerInstructions imageHistory)[imageHistory.length - 1 - idx]? = some inst
      ∧ inst.instCmd
          = (if HasPrefix (prefixDecode layer.CreatedBy) "ENTRYPOINT ".toList then
              Replace (Replace (prefixDecode layer.CreatedBy) "&\x7b[".toList "[".toList)
                "]\x7d".toList "]".toList
            else prefixDecode layer.CreatedBy))
    ∧ (∀ s : Str,
        Replace (Replace s "&\x7b[".toList "[".toList) "]\x7d".toList "]".toList
          = Join (Split (Join (Split s "&\x7b[".toList) "[".toList) "]\x7d".toList) "]".toList)
    ∧ decodeInst "/bin/sh -c #(nop) ENTRYPOINT &\x7b[\"/bin/sh\" \"-c\"]\x7d".toList
        = "ENTRYPOINT [\"/bin/sh\" \"-c\"]".toList := by
  refine ⟨⟨_, instruction_of_some imageHistory idx layer hl, ?_⟩, ?_, by decide⟩
  · rw [layerInst_instCmd]
    rfl
  · intro s
    rw [Replace_eq_Join_Split _ _ _ (by decide), Replace_eq_Join_Split _ _ _ (by decide)]

/-- Witness of C6: the `ENTRYPOINT` layer of `exampleHistory`. -/
theorem C6_entrypoint_cleanup_witness :
    ((∃ inst,
      (fatImageDockerInstructions exampleHistory)[exampleHistory.length - 1 - 0]? = some inst
      ∧ inst.instCmd
          = (if HasPrefix (prefixDecode entrypointLayer.CreatedBy) "ENTRYPOINT ".toList then
              Replace (Replace (prefixDecode entrypointLayer.CreatedBy) "&\x7b[".toList "[".toList)
                "]\x7d".toList "]".toList
            else prefixDecode entrypointLayer.CreatedBy))
    ∧ (∀ s : Str,
        Replace (Replace s "&\x7b[".toList "[".toList) "]\x7d".toList "]".toList
          = Join (Split (Join (Split s "&\x7b[".toList) "[".toList) "]\x7d".toList) "]".toList)
    ∧ decodeInst "/bin/sh -c #(nop) ENTRYPOINT &\x7b[\"/bin/sh\" \"-c\"]\x7d".toList
        = "ENTRYPOINT [\"/bin/sh\" \"-c\"]".toList)
    ∧ (fatImageDockerInstructions exampleHistory)[5]?.map imageInst.instCmd
        = some "ENTRYPOINT [\"/bin/sh\" \"-c\"]".toList :=
  ⟨C6_entrypoint_cleanup exampleHistory 0 entrypointLayer (by rfl), by decide⟩


/-! ## The instruction list of a history (claims C7 to C10) -/

/-- C7: the history loop builds one instruction per layer, and the
instruction at position `i` comes from the input record `n - 1 - i`: its
command is the decoding of that record's `CreatedBy`, and its time, layer id
and comment are the record's `Created`, `ID` and `Comment`.  So the commands
stand in the reverse of the input order, oldest first. -/
theorem C7_one_instruction_per_layer (imageHistory : List ImageHistory) :
    (fatImageDockerInstructions imageHistory).length = imageHistory.length
    ∧ (∀ i : Nat, i < imageHistory.length →
        ∃ inst layer,
          (fatImageDockerInstructions imageHistory)[i]? = some inst
          ∧ imageHistory[imageHistory.length - 1 - i]? = some layer
          ∧ inst.instCmd = decodeInst layer.CreatedBy
          ∧ inst.instTime = layer.Created
          ∧ inst.layerImageID = layer.ID
          ∧ inst.instComment = layer.Comment)
    ∧ (fatImageDockerInstructions imageHistory).map imageInst.instCmd
        = (imageHistory.map (fun layer => decodeInst layer.CreatedBy)).reverse := by
  refine ⟨instructions_length imageHistory, ?_, ?_⟩
  · intro i hi
    have hidx : imageHistory.length - 1 - i < imageHistory.length := by omega
    have hl : imageHistory[imageHistory.length - 1 - i]?
        = some (imageHistory[imageHistory.length - 1 - i]) := List.getElem?_eq_getElem hidx
    have hget := instruction_of_some imageHistory _ _ hl
    have e : imageHistory.length - 1 - (imageHistory.length - 1 - i) = i := by omega
    rw [e] at hget
    exact ⟨_, _, hget, hl, layerInst_instCmd _ _, layerInst_instTime _ _,
      layerInst_layerImageID _ _, layerInst_instComment _ _⟩
  · rcases List.eq_nil_or_concat imageHistory with h | ⟨init, oldest, h⟩
    · subst h; rfl
    · subst h
      rw [List.concat_eq_append, instructions_concat]
      simp [layerInst_instCmd, Function.comp_def]

/-- C8: the region of the instruction decoded from the layer at input index
`idx` is `last` when the layer has tags, also when it is the oldest layer;
otherwise it is `first` when `idx = n - 1`, and `intermediate` when not. -/
theorem C8_region_rule (imageHistory : List ImageHistory) (idx : Nat)
    (layer : ImageHistory)
    (hl : imageHistory[idx]? = some layer) :
    ∃ inst,
      (fatImageDockerInstructions imageHistory)[imageHistory.length - 1 - idx]? = some inst
      ∧ inst.instType
          = if layer.Tags.length > 0 then "last".toList
            else if idx = imageHistory.length - 1 then "first".toList
            else "intermediate".toList := by
  have hidx : idx < imageHistory.length := by
    rcases Nat.lt_or_ge idx imageHistory.length with h | h
    · exact h
    · rw [List.getElem?_eq_none h] at hl; cases hl
  refine ⟨_, instruction_of_some imageHistory idx layer hl, ?_⟩
  rw [layerInst_instType]
  have hd : (decide (idx + 1 = imageHistory.length) = true) ↔ idx = imageHistory.length - 1 := by
    rw [decide_eq_true_iff]; omega
  simp only [hd]

/-- Witness of C8: in `exampleHistory` the newest layer has tags, the oldest
has none, and the layer at index `3` is neither; in `singleTaggedHistory` the
oldest layer has tags. -/
theorem C8_region_rule_witness :
    (∃ inst,
      (fatImageDockerInstructions exampleHistory)[exampleHistory.length - 1 - 5]? = some inst
      ∧ inst.instType
          = if scratchLayer.Tags.length > 0 then "last".toList
            else if 5 = exampleHistory.length - 1 then "first".toList
            else "intermediate".toList)
    ∧ (fatImageDockerInstructions exampleHistory).map imageInst.instType
        = ["first".toList, "intermediate".toList, "intermediate".toList,
            "intermediate".toList, "intermediate".toList, "last".toList]
    ∧ (fatImageDockerInstructions singleTaggedHistory).map imageInst.instType
        = ["last".toList] :=
  ⟨C8_region_rule exampleHistory 5 scratchLayer (by rfl), by decide, by decide⟩

/-- C9, as the code has it: in a non-empty history the region `first` is
given to the instruction of the oldest layer, the one at position `0`, and to
no other; it occurs once when the oldest layer has no tags and not at all when
it has tags.  The region `last` is given exactly to the instructions of the
layers with tags, so it occurs once per such layer, and every other
instruction is `intermediate`. -/
theorem C9_region_partition (imageHistory : List ImageHistory) (oldest : ImageHistory)
    (hOld : imageHistory.getLast? = some oldest) :
    (fatImageDockerInstructions imageHistory).countP
        (fun inst => decide (inst.instType = "first".toList))
      = (if oldest.Tags.length > 0 then 0 else 1)
    ∧ (∀ (i : Nat) (inst : imageInst),
        (fatImageDockerInstructions imageHistory)[i]? = some inst →
        inst.instType = "first".toList → i = 0)
    ∧ (oldest.Tags.length = 0 →
        (fatImageDockerInstructions imageHistory)[0]?.map imageInst.instType
          = some "first".toList)
    ∧ (fatImageDockerInstructions imageHistory).countP
        (fun inst => decide (inst.instType = "last".toList))
      = imageHistory.countP (fun layer => decide (layer.Tags.length > 0))
    ∧ (∀ (idx : Nat) (layer : ImageHistory), imageHistory[idx]? = some layer →
        ∃ inst,
          (fatImageDockerInstructions imageHistory)[imageHistory.length - 1 - idx]? = some inst
          ∧ (inst.instType = "last".toList ↔ layer.Tags.length > 0))
    ∧ (∀ inst ∈ fatImageDockerInstructions imageHistory,
        inst.instType ≠ "first".toList → inst.instType ≠ "last".toList →
        inst.instType = "intermediate".toList) := by
  obtain ⟨init, hinit⟩ := history_of_getLast imageHistory oldest hOld
  subst hinit
  have hrest_first : ∀ l : List ImageHistory,
      (l.map (fun layer => layerInst layer false)).countP
        (fun inst => decide (inst.instType = "first".toList)) = 0 := by
    intro l
    rw [List.countP_eq_zero]
    intro inst hinst
    obtain ⟨layer, _, hlayer⟩ := List.mem_map.1 hinst
    subst hlayer
    intro hp
    have hp2 := (layerInst_first_iff layer false).1 (of_decide_eq_true hp)
    exact absurd hp2.2 (by decide)
  have hrest_last : ∀ l : List ImageHistory,
      (l.map (fun layer => layerInst layer false)).countP
        (fun inst => decide (inst.instType = "last".toList))
      = l.countP (fun layer => decide (layer.Tags.length > 0)) := by
    intro l
    rw [List.countP_map]
    congr 1
    funext layer
    exact decide_eq_decide.2 (layerInst_last_iff layer false)
  refine ⟨?_, ?_, ?_, ?_, ?_, ?_⟩
  · rw [instructions_concat, List.countP_cons, hrest_first]
    by_cases h : oldest.Tags.length > 0
    · have hf : ¬ ((layerInst oldest true).instType = "first".toList) := by
        rw [layerInst_first_iff]; omega
      rw [if_pos h, decide_eq_false hf]
      rfl
    · have hf : (layerInst oldest true).instType = "first".toList := by
        rw [layerInst_first_iff]; exact ⟨by omega, rfl⟩
      rw [if_neg h, decide_eq_true hf]
      rfl
  · intro i inst hi hfirst
    rw [instructions_concat] at hi
    cases i with
    | zero => rfl
    | succ j =>
      rw [List.getElem?_cons_succ] at hi
      have hmem := List.getElem?_mem hi
      obtain ⟨layer, _, hlayer⟩ := List.mem_map.1 hmem
      subst hlayer
      rw [layerInst_first_iff] at hfirst
      exact absurd hfirst.2 (by decide)
  · intro h
    rw [instructions_concat]
    have hf : (layerInst oldest true).instType = "first".toList := by
      rw [layerInst_first_iff]; exact ⟨h, rfl⟩
    rw [List.getElem?_cons_zero, Option.map_some', hf]
  · have hd : decide ((layerInst oldest true).instType = "last".toList)
        = decide (oldest.Tags.length > 0) := decide_eq_decide.2 (layerInst_last_iff oldest true)
    rw [instructions_concat, List.countP_cons, hrest_last, List.countP_reverse,
      List.countP_append, hd]
    simp only [List.countP_cons, List.countP_nil, Nat.zero_add]
  · intro idx layer hl
    exact ⟨_, instruction_of_some _ idx layer hl, layerInst_last_iff _ _⟩
  · intro inst hinst hnf hnl
    rw [instructions_concat] at hinst
    have hreg : ∃ layer b, inst = layerInst layer b := by
      rcases List.mem_cons.1 hinst with h | h
      · exact ⟨oldest, true, h⟩
      · obtain ⟨layer, _, hlayer⟩ := List.mem_map.1 h
        exact ⟨layer, false, hlayer.symm⟩
    obtain ⟨layer, b, hlb⟩ := hreg
    subst hlb
    rcases layerInst_region layer b with h | h | h
    · exact absurd h hnf
    · exact absurd h hnl
    · exact h


/-- Witness of C9: `exampleHistory`, whose oldest layer has no tags and whose
newest layer is the only one with tags. -/
theorem C9_region_partition_witness :
    ((fatImageDockerInstructions exampleHistory).countP
        (fun inst => decide (inst.instType = "first".toList))
      = (if scratchLayer.Tags.length > 0 then 0 else 1)
    ∧ (∀ (i : Nat) (inst : imageInst),
        (fatImageDockerInstructions exampleHistory)[i]? = some inst →
        inst.instType = "first".toList → i = 0)
    ∧ (scratchLayer.Tags.length = 0 →
        (fatImageDockerInstructions exampleHistory)[0]?.map imageInst.instType
          = some "first".toList)
    ∧ (fatImageDockerInstructions exampleHistory).countP
        (fun inst => decide (inst.instType = "last".toList))
      = exampleHistory.countP (fun layer => decide (layer.Tags.length > 0))
    ∧ (∀ (idx : Nat) (layer : ImageHistory), exampleHistory[idx]? = some layer →
        ∃ inst,
          (fatImageDockerInstructions exampleHistory)[exampleHistory.length - 1 - idx]? = some inst
          ∧ (inst.instType = "last".toList ↔ layer.Tags.length > 0))
    ∧ (∀ inst ∈ fatImageDockerInstructions exampleHistory,
        inst.instType ≠ "first".toList → inst.instType ≠ "last".toList →
        inst.instType = "intermediate".toList))
    ∧ (fatImageDockerInstructions exampleHistory).countP
        (fun inst => decide (inst.instType = "first".toList)) = 1
    ∧ (fatImageDockerInstructions exampleHistory).countP
        (fun inst => decide (inst.instType = "last".toList)) = 1 :=
  ⟨C9_region_partition exampleHistory scratchLayer (by rfl), by decide, by decide⟩

/-- Counterexample to C9 as stated: `singleTaggedHistory` is not empty, and
none of its instructions has the region `first`: its only layer is the oldest
one and has tags, so its region is `last`. -/
theorem C9_counterexample :
    singleTaggedHistory ≠ []
    ∧ (fatImageDockerInstructions singleTaggedHistory).map imageInst.instType = ["last".toList]
    ∧ (fatImageDockerInstructions singleTaggedHistory).countP
        (fun inst => decide (inst.instType = "first".toList)) = 0
    ∧ (fatImageDockerInstructions singleTaggedHistory).countP
        (fun inst => decide (inst.instType = "first".toList)) ≠ 1 := by
  decide

/-- C10: for a layer with a non-empty list of tags, each of the form
`name:tag` with no other `:`, the instruction has the name of the first tag as
`imageName`, the tag parts of all tags, in order and as many as there are
tags, as `shortTags`, and the list of tags itself as `fullTags`. -/
theorem C10_tag_round_trip (imageHistory : List ImageHistory) (idx : Nat)
    (layer : ImageHistory) (pairs : List (Str × Str))
    (hl : imageHistory[idx]? = some layer)
    (hne : pairs ≠ [])
    (hTags : layer.Tags = pairs.map (fun p => p.1 ++ ":".toList ++ p.2))
    (hColon : ∀ p ∈ pairs, ':' ∉ p.1 ∧ ':' ∉ p.2) :
    ∃ inst,
      (fatImageDockerInstructions imageHistory)[imageHistory.length - 1 - idx]? = some inst
      ∧ some inst.imageName = pairs.head?.map Prod.fst
      ∧ inst.shortTags = pairs.map Prod.snd
      ∧ inst.shortTags.length = layer.Tags.length
      ∧ inst.fullTags = layer.Tags := by
  refine ⟨_, instruction_of_some imageHistory idx layer hl, ?_⟩
  cases pairs with
  | nil => exact absurd rfl hne
  | cons p ps =>
    have hp := hColon p (List.mem_cons_self _ _)
    have hsplit : Split (p.1 ++ ":".toList ++ p.2) ":".toList = [p.1, p.2] :=
      Split_single ':' p.1 p.2 hp.1 hp.2
    have hshort := shortTagsLoop_pairs (p :: ps) hColon []
    rw [← hTags] at hshort
    have hpos : layer.Tags.length > 0 := by rw [hTags]; simp
    have hhead : layer.Tags.headD [] = p.1 ++ ":".toList ++ p.2 := by rw [hTags]; rfl
    unfold layerInst
    simp only [hpos, if_true, hhead, hsplit, hshort]
    refine ⟨?_, ?_, ?_, ?_⟩
    · rfl
    · rfl
    · rw [hTags]; simp
    · trivial

/-- Witness of C10: the tagged layer of `exampleHistory`, with the tags
`myrepo:v1` and `myrepo:latest`. -/
theorem C10_tag_round_trip_witness :
    (∃ inst,
      (fatImageDockerInstructions exampleHistory)[exampleHistory.length - 1 - 0]? = some inst
      ∧ some inst.imageName
          = [("myrepo".toList, "v1".toList), ("myrepo".toList, "latest".toList)].head?.map Prod.fst
      ∧ inst.shortTags
          = [("myrepo".toList, "v1".toList), ("myrepo".toList, "latest".toList)].map Prod.snd
      ∧ inst.shortTags.length = entrypointLayer.Tags.length
      ∧ inst.fullTags = entrypointLayer.Tags)
    ∧ entrypointLayer.Tags = ["myrepo:v1".toList, "myrepo:latest".toList]
    ∧ (fatImageDockerInstructions exampleHistory)[5]?.map imageInst.imageName
        = some "myrepo".toList
    ∧ (fatImageDockerInstructions exampleHistory)[5]?.map imageInst.shortTags
        = some ["v1".toList, "latest".toList]
    ∧ (fatImageDockerInstructions exampleHistory)[5]?.map imageInst.fullTags
        = some ["myrepo:v1".toList, "myrepo:latest".toList] :=
  ⟨C10_tag_round_trip exampleHistory 0 entrypointLayer
      [("myrepo".toList, "v1".toList), ("myrepo".toList, "latest".toList)]
      (by rfl) (by decide) (by decide) (by decide),
    by decide, by decide, by decide, by decide⟩

/-- Witness of C7: the six instructions of `exampleHistory`, oldest layer
first. -/
theorem C7_one_instruction_per_layer_witness :
    (fatImageDockerInstructions exampleHistory).map
        (fun inst => (inst.instCmd, inst.instTime, inst.layerImageID, inst.instComment))
      = [ ("FROM scratch".toList, 1, "sha1".toList, "".toList),
          ("ENV PATH=/usr/bin".toList, 2, "sha2".toList, "".toList),
          ("MAINTAINER someone".toList, 3, "sha3".toList, "imported".toList),
          ("RUN echo &\x7b[x]\x7d > /etc/motd".toList, 4, "sha4".toList, "".toList),
          ("RUN apt-get update && \\\n\tapt-get install -y curl && \\\n\trm -rf /var/lib/apt".toList,
            5, "sha5".toList, "".toList),
          ("ENTRYPOINT [\"/bin/sh\" \"-c\"]".toList, 6, "sha6".toList, "".toList) ]
    ∧ (fatImageDockerInstructions exampleHistory).length = exampleHistory.length :=
  ⟨by decide, (C7_one_instruction_per_layer exampleHistory).1⟩

/-! ## Facts about the line assembly -/

theorem lineLoop_acc (n : Nat) :
    ∀ (insts : List imageInst) (idx : Nat) (acc : List Str),
      lineLoop n idx insts acc = acc ++ lineLoop n idx insts [] := by
  intro insts
  induction insts with
  | nil => intro idx acc; simp [lineLoop]
  | cons inst rest ih =>
    intro idx acc
    unfold lineLoop
    rw [ih (idx + 1) (acc ++ instLines n idx inst), ih (idx + 1) ([] ++ instLines n idx inst)]
    simp

theorem lineLoop_cons (n idx : Nat) (inst : imageInst) (rest : List imageInst) :
    lineLoop n idx (inst :: rest) []
      = instLines n idx inst ++ lineLoop n (idx + 1) rest [] := by
  show lineLoop n (idx + 1) rest ([] ++ instLines n idx inst) = _
  rw [lineLoop_acc]
  simp

theorem lineLoop_nil (n idx : Nat) : lineLoop n idx [] [] = [] := rfl

theorem lineLoop_append (n : Nat) :
    ∀ (a : List imageInst) (idx : Nat) (b : List imageInst),
      lineLoop n idx (a ++ b) []
        = lineLoop n idx a [] ++ lineLoop n (idx + a.length) b [] := by
  intro a
  induction a with
  | nil => intro idx b; simp [lineLoop_nil]
  | cons x a ih =>
    intro idx b
    rw [List.cons_append, lineLoop_cons, lineLoop_cons, ih]
    have e : idx + 1 + a.length = idx + (x :: a).length := by simp; omega
    rw [e, List.append_assoc]

/-- The lines of a history, cut around the lines of the instruction at
position `i`. -/
theorem lineLoop_split (n : Nat) (insts : List imageInst) (i : Nat) (inst : imageInst)
    (h : insts[i]? = some inst) :
    lineLoop n 0 insts []
      = lineLoop n 0 (insts.take i) [] ++ instLines n i inst
          ++ lineLoop n (i + 1) (insts.drop (i + 1)) [] := by
  have hi : i < insts.length := by
    rcases Nat.lt_or_ge i insts.length with h1 | h1
    · exact h1
    · rw [List.getElem?_eq_none h1] at h; cases h
  have hget : insts[i] = inst := by
    rw [List.getElem?_eq_getElem hi] at h
    exact Option.some.inj h
  have hcut : insts = insts.take i ++ inst :: insts.drop (i + 1) := by
    rw [← hget, ← List.drop_eq_getElem_cons hi, List.take_append_drop]
  have hlen : (insts.take i).length = i := by
    rw [List.length_take]; omega
  conv => lhs; rw [hcut]
  rw [lineLoop_append, hlen, lineLoop_cons]
  simp


/-- The lines of the instruction of one layer, in terms of the layer. -/
theorem instLines_layerInst (n idx : Nat) (layer : ImageHistory) (isStart : Bool) :
    instLines n idx (layerInst layer isStart)
      = (if layer.Tags.length = 0 ∧ isStart = true then ["# new image".toList] else [])
        ++ [decodeInst layer.CreatedBy]
        ++ (if layer.Tags.length > 0 then
              [commentText (layerInst layer isStart), "".toList]
                ++ (if idx + 1 < n then ["# new image".toList] else [])
            else [])
        ++ (if layer.Comment ≠ "".toList then ["# ".toList ++ layer.Comment] else []) := by
  unfold instLines
  rw [layerInst_instCmd, layerInst_instComment]
  have h1 : (layerInst layer isStart).instType = "first".toList
      ↔ (layer.Tags.length = 0 ∧ isStart = true) := layerInst_first_iff layer isStart
  have h2 : (layerInst layer isStart).instType = "last".toList ↔ layer.Tags.length > 0 :=
    layerInst_last_iff layer isStart
  have h3 : ((idx : Int) < (n : Int) - 1) ↔ idx + 1 < n := by omega
  rw [if_congr h1 rfl rfl, if_congr h2 rfl rfl, if_congr h3 rfl rfl]

/-- Layers without tags and without comment, decoded in rounds other than the
round of `imageLayerStart`, give one line each: the command. -/
theorem lineLoop_plain (n : Nat) :
    ∀ (layers : List ImageHistory) (idx : Nat),
      (∀ l ∈ layers, l.Tags = [] ∧ l.Comment = []) →
      lineLoop n idx (layers.map (fun layer => layerInst layer false)) []
        = layers.map (fun layer => decodeInst layer.CreatedBy) := by
  intro layers
  induction layers with
  | nil => intro idx _; rfl
  | cons l ls ih =>
    intro idx h
    have hl := h l (List.mem_cons_self _ _)
    rw [List.map_cons, lineLoop_cons, ih (idx + 1) (fun x hx => h x (List.mem_cons_of_mem _ hx)),
      instLines_layerInst]
    have ht : ¬ (l.Tags.length > 0) := by rw [hl.1]; simp
    have hs : ¬ (l.Tags.length = 0 ∧ false = true) := by simp
    have hc : ¬ (l.Comment ≠ "".toList) := by rw [hl.2]; exact fun h => h rfl
    rw [if_neg ht, if_neg hs, if_neg hc]
    rfl

/-! ## The lines of a history (claims C11 to C14) -/

/-- C11: for a history of at least two layers in which only the newest layer
has tags and no layer has a comment, the lines are: one `# new image` line,
the decoded commands from the oldest layer to the newest, the line
`# end of image: <imageName> (id: <layerId> tags: <shortTags joined by ,>)` of
the tagged layer, one empty line, and nothing more. -/
theorem C11_single_image_lines (ε : Type) (newest : ImageHistory) (older : List ImageHistory)
    (hOlder : older ≠ [])
    (hTags : newest.Tags ≠ [])
    (hNoTags : ∀ layer ∈ older, layer.Tags = [])
    (hNoComment : ∀ layer ∈ newest :: older, layer.Comment = "".toList) :
    ∃ inst,
      (fatImageDockerInstructions (newest :: older))[older.length]? = some inst
      ∧ inst.layerImageID = newest.ID
      ∧ ReverseDockerfileFromHistory (Except.ok (newest :: older) : Except ε (List ImageHistory))
          = Except.ok
              (["# new image".toList]
                ++ (newest :: older).reverse.map (fun layer => decodeInst layer.CreatedBy)
                ++ ["# end of image: ".toList ++ inst.imageName ++ " (id: ".toList
                      ++ inst.layerImageID ++ " tags: ".toList
                      ++ Join inst.shortTags ",".toList ++ ")".toList,
                    "".toList]) := by
  rcases List.eq_nil_or_concat older with h | ⟨init, oldest, h⟩
  · exact absurd h hOlder
  · rw [List.concat_eq_append] at h
    subst h
    have hget := instruction_of_some (newest :: (init ++ [oldest])) 0 newest
      (List.getElem?_cons_zero)
    have hlen : (newest :: (init ++ [oldest])).length - 1 - 0 = (init ++ [oldest]).length := by
      simp
    have hflag : decide (0 + 1 = (newest :: (init ++ [oldest])).length) = false := by
      simp
    rw [hlen, hflag] at hget
    refine ⟨_, hget, layerInst_layerImageID _ _, ?_⟩
    have hinsts : fatImageDockerInstructions (newest :: (init ++ [oldest]))
        = layerInst oldest true
            :: (init.reverse.map (fun layer => layerInst layer false)
                ++ [layerInst newest false]) := by
      have e : newest :: (init ++ [oldest]) = (newest :: init) ++ [oldest] := rfl
      rw [e, instructions_concat]
      simp
    have holdest : oldest.Tags = [] ∧ oldest.Comment = [] :=
      ⟨hNoTags oldest (by simp), hNoComment oldest (by simp)⟩
    have hinit : ∀ l ∈ init.reverse, l.Tags = [] ∧ l.Comment = [] := by
      intro l hl
      have hl2 : l ∈ init := List.mem_reverse.1 hl
      exact ⟨hNoTags l (by simp [hl2]), hNoComment l (by simp [hl2])⟩
    have hnewest : newest.Comment = [] := hNoComment newest (by simp)
    unfold ReverseDockerfileFromHistory
    simp only
    rw [hinsts, lineLoop_cons, lineLoop_append, lineLoop_plain _ _ _ hinit, lineLoop_cons,
      lineLoop_nil, instLines_layerInst, instLines_layerInst]
    have ht0 : oldest.Tags.length = 0 ∧ true = true := ⟨by rw [holdest.1]; rfl, rfl⟩
    have ht1 : ¬ (oldest.Tags.length > 0) := by rw [holdest.1]; simp
    have hc0 : ¬ (oldest.Comment ≠ "".toList) := by rw [holdest.2]; exact fun h => h rfl
    have ht2 : newest.Tags.length > 0 := List.length_pos.2 hTags
    have ht3 : ¬ (newest.Tags.length = 0 ∧ false = true) := by simp
    have hc1 : ¬ (newest.Comment ≠ "".toList) := by rw [hnewest]; exact fun h => h rfl
    have hidx : ¬ (0 + 1 + (init.reverse.map (fun layer => layerInst layer false)).length + 1
        < (layerInst oldest true
            :: (init.reverse.map (fun layer => layerInst layer false)
                ++ [layerInst newest false])).length) := by
      simp
      omega
    rw [if_pos ht0, if_neg ht1, if_neg hc0, if_pos ht2, if_neg ht3, if_neg hc1, if_neg hidx]
    simp [commentText, layerInst_layerImageID]


/-- Witness of C11: three layers without tags under one tagged layer. -/
theorem C11_single_image_lines_witness :
    (∃ inst,
      (fatImageDockerInstructions (boundaryTop :: boundaryOlder))[boundaryOlder.length]?
        = some inst
      ∧ inst.layerImageID = boundaryTop.ID
      ∧ ReverseDockerfileFromHistory
            (Except.ok (boundaryTop :: boundaryOlder) : Except Unit (List ImageHistory))
          = Except.ok
              (["# new image".toList]
                ++ (boundaryTop :: boundaryOlder).reverse.map
                    (fun layer => decodeInst layer.CreatedBy)
                ++ ["# end of image: ".toList ++ inst.imageName ++ " (id: ".toList
                      ++ inst.layerImageID ++ " tags: ".toList
                      ++ Join inst.shortTags ",".toList ++ ")".toList,
                    "".toList]))
    ∧ ReverseDockerfileFromHistory (Except.ok boundaryHistory : Except Unit (List ImageHistory))
        = Except.ok
            [ "# new image".toList,
              "FROM scratch".toList,
              "ENV PATH=/usr/bin".toList,
              "RUN make install".toList,
              "CMD [\"/app\"]".toList,
              "# end of image: myrepo (id: sha4 tags: v1,latest)".toList,
              "".toList ] :=
  ⟨C11_single_image_lines Unit boundaryTop boundaryOlder (by decide) (by decide) (by decide)
      (by decide),
    by rfl⟩


/-- The lines of a history, cut around the lines of the instruction at
position `i`; nothing follows the lines of the newest instruction. -/
theorem lines_split (ε : Type) (imageHistory : List ImageHistory) (i : Nat) (inst : imageInst)
    (hi : (fatImageDockerInstructions imageHistory)[i]? = some inst) :
    ReverseDockerfileFromHistory (Except.ok imageHistory : Except ε (List ImageHistory))
      = Except.ok
          (lineLoop (fatImageDockerInstructions imageHistory).length 0
              ((fatImageDockerInstructions imageHistory).take i) []
            ++ instLines (fatImageDockerInstructions imageHistory).length i inst
            ++ lineLoop (fatImageDockerInstructions imageHistory).length (i + 1)
                ((fatImageDockerInstructions imageHistory).drop (i + 1)) []) := by
  unfold ReverseDockerfileFromHistory
  simp only
  rw [lineLoop_split _ _ i inst hi]

theorem lineLoop_drop_all (n idx : Nat) (insts : List imageInst) (k : Nat)
    (h : insts.length ≤ k) : lineLoop n idx (insts.drop k) [] = [] := by
  rw [List.drop_eq_nil_of_le h]
  rfl

/-- The lines around an instruction of region `last`: the lines of the
instructions before it, its command line, the summary line, an empty line, a
`delimiter` slot that holds the line `# new image` when the instruction is not
the newest one and nothing otherwise, the comment line of the instruction when
it has a comment, and the lines of the newer instructions. -/
theorem last_block_split (ε : Type) (imageHistory : List ImageHistory) (i : Nat)
    (inst : imageInst)
    (hi : (fatImageDockerInstructions imageHistory)[i]? = some inst)
    (hLast : inst.instType = "last".toList) :
    ∃ delimiter : List Str,
      ReverseDockerfileFromHistory (Except.ok imageHistory : Except ε (List ImageHistory))
        = Except.ok
            (lineLoop (fatImageDockerInstructions imageHistory).length 0
                ((fatImageDockerInstructions imageHistory).take i) []
              ++ [ inst.instCmd,
                   "# end of image: ".toList ++ inst.imageName ++ " (id: ".toList
                     ++ inst.layerImageID ++ " tags: ".toList
                     ++ Join inst.shortTags ",".toList ++ ")".toList,
                   "".toList ]
              ++ delimiter
              ++ (if inst.instComment ≠ "".toList then ["# ".toList ++ inst.instComment]
                  else [])
              ++ lineLoop (fatImageDockerInstructions imageHistory).length (i + 1)
                  ((fatImageDockerInstructions imageHistory).drop (i + 1)) [])
      ∧ (delimiter = ["# new image".toList] ↔ i + 1 < imageHistory.length)
      ∧ (delimiter = [] ↔ ¬ (i + 1 < imageHistory.length))
      ∧ (¬ (i + 1 < imageHistory.length) →
          lineLoop (fatImageDockerInstructions imageHistory).length (i + 1)
            ((fatImageDockerInstructions imageHistory).drop (i + 1)) [] = []) := by
  have hlen := instructions_length imageHistory
  have hnf : ¬ (inst.instType = "first".toList) := by rw [hLast]; decide
  have h3 : ((i : Int) < ((fatImageDockerInstructions imageHistory).length : Int) - 1)
      ↔ i + 1 < imageHistory.length := by
    rw [hlen]; omega
  have hblock : instLines (fatImageDockerInstructions imageHistory).length i inst
      = [inst.instCmd, commentText inst, "".toList]
        ++ ((if i + 1 < imageHistory.length then ["# new image".toList] else [])
            ++ (if inst.instComment ≠ "".toList then ["# ".toList ++ inst.instComment]
                else [])) := by
    unfold instLines
    rw [if_neg hnf, if_pos hLast, if_congr h3 rfl rfl]
    simp
  refine ⟨if i + 1 < imageHistory.length then ["# new image".toList] else [], ?_, ?_, ?_, ?_⟩
  · rw [lines_split ε imageHistory i inst hi, hblock]
    simp only [commentText, List.append_assoc]
  · by_cases h : i + 1 < imageHistory.length
    · rw [if_pos h]
      exact ⟨fun _ => h, fun _ => rfl⟩
    · rw [if_neg h]
      exact ⟨fun e => absurd e (by decide), fun e => absurd e h⟩
  · by_cases h : i + 1 < imageHistory.length
    · rw [if_pos h]
      exact ⟨fun e => absurd e (by decide), fun e => absurd h e⟩
    · rw [if_neg h]
      exact ⟨fun _ => h, fun _ => rfl⟩
  · intro h
    exact lineLoop_drop_all _ _ _ _ (by rw [hlen]; omega)

/-- The line at position `pre.length + j` of `pre ++ block`. -/
theorem getElem?_after (pre block : List Str) (j : Nat) :
    (pre ++ block)[pre.length + j]? = block[j]? := by
  rw [List.getElem?_append_right (by omega)]
  congr 1
  omega

theorem getElem?_block_zero (a : Str) (l : List Str) : (a :: l)[0]? = some a := by
  simp

theorem getElem?_block_one (a b : Str) (l : List Str) : (a :: b :: l)[1]? = some b := by
  simp

theorem getElem?_block_two (a b c : Str) (l : List Str) :
    (a :: b :: c :: l)[2]? = some c := by
  simp

theorem getElem?_block_three (a b c : Str) (l : List Str) :
    (a :: b :: c :: l)[3]? = l[0]? := by
  simp

theorem comment_line_eq_delimiter (comment : Str) :
    "# ".toList ++ comment = "# new image".toList ↔ comment = "new image".toList := by
  have e : "# new image".toList = "# ".toList ++ "new image".toList := by decide
  rw [e]
  exact List.append_cancel_left_eq _ _ _ |>.to_iff


/-- C12, as the code has it: for every instruction of region `last`, the
function returns lines that hold, right after the lines of the instructions
before it, the command line of the instruction, then the line `# end of image:
<imageName> (id: <layerId> tags: <shortTags joined by ,>)`, then an empty line.
The `# new image` delimiter is written right after the empty line exactly when
the instruction is not the newest one; then come the comment line of the
instruction, when it has a comment, and the lines of the newer instructions
(none after the newest one).  So the line right after the empty line reads
`# new image` if and only if the instruction is not the newest one or its
comment is the text `new image`. -/
theorem C12_end_of_image_block (ε : Type) (imageHistory : List ImageHistory) (i : Nat)
    (inst : imageInst)
    (hi : (fatImageDockerInstructions imageHistory)[i]? = some inst)
    (hLast : inst.instType = "last".toList) :
    ∃ lines pre later : List Str,
      ReverseDockerfileFromHistory (Except.ok imageHistory : Except ε (List ImageHistory))
        = Except.ok lines
      ∧ pre = lineLoop (fatImageDockerInstructions imageHistory).length 0
              ((fatImageDockerInstructions imageHistory).take i) []
      ∧ later = lineLoop (fatImageDockerInstructions imageHistory).length (i + 1)
                  ((fatImageDockerInstructions imageHistory).drop (i + 1)) []
      ∧ lines
          = pre
            ++ [ inst.instCmd,
                 "# end of image: ".toList ++ inst.imageName ++ " (id: ".toList
                   ++ inst.layerImageID ++ " tags: ".toList
                   ++ Join inst.shortTags ",".toList ++ ")".toList,
                 "".toList ]
            ++ (if i + 1 < (fatImageDockerInstructions imageHistory).length then
                  ["# new image".toList]
                else [])
            ++ (if inst.instComment ≠ "".toList then ["# ".toList ++ inst.instComment]
                else [])
            ++ later
      ∧ (¬ (i + 1 < (fatImageDockerInstructions imageHistory).length) → later = [])
      ∧ lines[pre.length]? = some inst.instCmd
      ∧ lines[pre.length + 1]?
          = some ("# end of image: ".toList ++ inst.imageName ++ " (id: ".toList
                    ++ inst.layerImageID ++ " tags: ".toList
                    ++ Join inst.shortTags ",".toList ++ ")".toList)
      ∧ lines[pre.length + 2]? = some "".toList
      ∧ (lines[pre.length + 3]? = some "# new image".toList
          ↔ (i + 1 < (fatImageDockerInstructions imageHistory).length
              ∨ inst.instComment = "new image".toList)) := by
  obtain ⟨delimiter, heq, hd1, hd2, hlater⟩ :=
    last_block_split ε imageHistory i inst hi hLast
  rw [← instructions_length imageHistory] at hd1 hd2 hlater
  have hdel : delimiter
      = if i + 1 < (fatImageDockerInstructions imageHistory).length then
          ["# new image".toList]
        else [] := by
    by_cases h : i + 1 < (fatImageDockerInstructions imageHistory).length
    · rw [if_pos h]; exact hd1.2 h
    · rw [if_neg h]; exact hd2.2 h
  rw [hdel] at heq
  obtain ⟨lines, hl, hLines⟩ : ∃ lines : List Str,
      lines
          = lineLoop (fatImageDockerInstructions imageHistory).length 0
              ((fatImageDockerInstructions imageHistory).take i) []
            ++ [ inst.instCmd,
                 "# end of image: ".toList ++ inst.imageName ++ " (id: ".toList
                   ++ inst.layerImageID ++ " tags: ".toList
                   ++ Join inst.shortTags ",".toList ++ ")".toList,
                 "".toList ]
            ++ (if i + 1 < (fatImageDockerInstructions imageHistory).length then
                  ["# new image".toList]
                else [])
            ++ (if inst.instComment ≠ "".toList then ["# ".toList ++ inst.instComment]
                else [])
            ++ lineLoop (fatImageDockerInstructions imageHistory).length (i + 1)
                ((fatImageDockerInstructions imageHistory).drop (i + 1)) []
      ∧ ReverseDockerfileFromHistory (Except.ok imageHistory : Except ε (List ImageHistory))
          = Except.ok lines := ⟨_, rfl, heq⟩
  have hl2 : lines
      = lineLoop (fatImageDockerInstructions imageHistory).length 0
          ((fatImageDockerInstructions imageHistory).take i) []
        ++ (inst.instCmd
            :: ("# end of image: ".toList ++ inst.imageName ++ " (id: ".toList
                  ++ inst.layerImageID ++ " tags: ".toList
                  ++ Join inst.shortTags ",".toList ++ ")".toList)
            :: "".toList
            :: ((if i + 1 < (fatImageDockerInstructions imageHistory).length then
                   ["# new image".toList]
                 else [])
                ++ ((if inst.instComment ≠ "".toList then
                      ["# ".toList ++ inst.instComment] else [])
                    ++ lineLoop (fatImageDockerInstructions imageHistory).length (i + 1)
                        ((fatImageDockerInstructions imageHistory).drop (i + 1)) []))) := by
    rw [hl]
    simp only [List.append_assoc, List.cons_append, List.nil_append]
  refine ⟨lines, _, _, hLines, rfl, rfl, hl, hlater, ?_, ?_, ?_, ?_⟩
  · rw [hl2]
    exact Eq.trans (getElem?_after _ _ 0) (getElem?_block_zero _ _)
  · rw [hl2]
    exact Eq.trans (getElem?_after _ _ 1) (getElem?_block_one _ _ _)
  · rw [hl2]
    exact Eq.trans (getElem?_after _ _ 2) (getElem?_block_two _ _ _ _)
  · have h3 : lines[(lineLoop (fatImageDockerInstructions imageHistory).length 0
          ((fatImageDockerInstructions imageHistory).take i) []).length + 3]?
        = ((if i + 1 < (fatImageDockerInstructions imageHistory).length then
              ["# new image".toList]
            else [])
            ++ ((if inst.instComment ≠ "".toList then ["# ".toList ++ inst.instComment]
                 else [])
                ++ lineLoop (fatImageDockerInstructions imageHistory).length (i + 1)
                    ((fatImageDockerInstructions imageHistory).drop (i + 1)) []))[0]? := by
      rw [hl2]
      exact Eq.trans (getElem?_after _ _ 3) (getElem?_block_three _ _ _ _)
    rw [h3]
    by_cases h : i + 1 < (fatImageDockerInstructions imageHistory).length
    · rw [if_pos h]
      exact ⟨fun _ => Or.inl h, fun _ => getElem?_block_zero _ _⟩
    · rw [if_neg h, hlater h, List.nil_append, List.append_nil]
      by_cases hc : inst.instComment = "".toList
      · rw [if_neg (fun hn => hn hc), List.getElem?_nil]
        constructor
        · intro e; cases e
        · rintro (h2 | h2)
          · exact absurd h2 h
          · rw [hc] at h2
            exact absurd h2 (by decide)
      · rw [if_pos hc, getElem?_block_zero]
        constructor
        · intro e
          exact Or.inr ((comment_line_eq_delimiter _).1 (Option.some.inj e))
        · rintro (h2 | h2)
          · exact absurd h2 h
          · rw [(comment_line_eq_delimiter inst.instComment).2 h2]

/-- Witness of C12: in `fatHistory` the instruction at position `1` closes the
base image; its command `ENV A=1` is line `2`, the summary line `3`, the empty
line `4`, the delimiter line `5` and its comment line `6`. -/
theorem C12_end_of_image_block_witness :
    (∃ lines pre later : List Str,
      ReverseDockerfileFromHistory (Except.ok fatHistory : Except Unit (List ImageHistory))
        = Except.ok lines
      ∧ pre = lineLoop (fatImageDockerInstructions fatHistory).length 0
              ((fatImageDockerInstructions fatHistory).take 1) []
      ∧ later = lineLoop (fatImageDockerInstructions fatHistory).length (1 + 1)
                  ((fatImageDockerInstructions fatHistory).drop (1 + 1)) []
      ∧ lines
          = pre
            ++ [ (layerInst fatBaseLayer false).instCmd,
                 "# end of image: ".toList ++ (layerInst fatBaseLayer false).imageName
                   ++ " (id: ".toList ++ (layerInst fatBaseLayer false).layerImageID
                   ++ " tags: ".toList
                   ++ Join (layerInst fatBaseLayer false).shortTags ",".toList ++ ")".toList,
                 "".toList ]
            ++ (if 1 + 1 < (fatImageDockerInstructions fatHistory).length then
                  ["# new image".toList]
                else [])
            ++ (if (layerInst fatBaseLayer false).instComment ≠ "".toList then
                  ["# ".toList ++ (layerInst fatBaseLayer false).instComment]
                else [])
            ++ later
      ∧ (¬ (1 + 1 < (fatImageDockerInstructions fatHistory).length) → later = [])
      ∧ lines[pre.length]? = some (layerInst fatBaseLayer false).instCmd
      ∧ lines[pre.length + 1]?
          = some ("# end of image: ".toList ++ (layerInst fatBaseLayer false).imageName
                    ++ " (id: ".toList ++ (layerInst fatBaseLayer false).layerImageID
                    ++ " tags: ".toList
                    ++ Join (layerInst fatBaseLayer false).shortTags ",".toList
                    ++ ")".toList)
      ∧ lines[pre.length + 2]? = some "".toList
      ∧ (lines[pre.length + 3]? = some "# new image".toList
          ↔ (1 + 1 < (fatImageDockerInstructions fatHistory).length
              ∨ (layerInst fatBaseLayer false).instComment = "new image".toList)))
    ∧ (fatImageDockerInstructions fatHistory)[1]? = some (layerInst fatBaseLayer false)
    ∧ (layerInst fatBaseLayer false).instType = "last".toList
    ∧ ReverseDockerfileFromHistory (Except.ok fatHistory : Except Unit (List ImageHistory))
        = Except.ok
            [ "# new image".toList,
              "FROM scratch".toList,
              "ENV A=1".toList,
              "# end of image: base (id: sha7 tags: 1)".toList,
              "".toList,
              "# new image".toList,
              "# base image".toList,
              "RUN make".toList,
              "# build step".toList,
              "CMD [\"/app\"]".toList,
              "# end of image: app (id: sha9 tags: 1.0)".toList,
              "".toList,
              "# release".toList ] :=
  ⟨C12_end_of_image_block Unit fatHistory 1 (layerInst fatBaseLayer false) (by rfl) (by rfl),
    by rfl, by rfl, by rfl⟩

/-- Counterexample to C12 as stated: the history of the single layer
`newImageCommentLayer`, which has a tag and the comment `new image`.  Its one
instruction has the region `last` and is the newest instruction.  The output
is the command line, the summary line, the empty line and the comment line
`# new image`: the empty line at position `2` is followed by a line that reads
`# new image` although the instruction is the final one. -/
theorem C12_counterexample :
    fatImageDockerInstructions [newImageCommentLayer]
        = [layerInst newImageCommentLayer true]
    ∧ (layerInst newImageCommentLayer true).instType = "last".toList
    ∧ (layerInst newImageCommentLayer true).instComment = "new image".toList
    ∧ ¬ (0 + 1 < (fatImageDockerInstructions [newImageCommentLayer]).length)
    ∧ ReverseDockerfileFromHistory
          (Except.ok [newImageCommentLayer] : Except Unit (List ImageHistory))
        = Except.ok
            [ "FROM scratch".toList,
              "# end of image: a (id: k1 tags: b)".toList,
              "".toList,
              "# new image".toList ]
    ∧ (lineLoop (fatImageDockerInstructions [newImageCommentLayer]).length 0
          (fatImageDockerInstructions [newImageCommentLayer]) [])[2]?
        = some "".toList
    ∧ (lineLoop (fatImageDockerInstructions [newImageCommentLayer]).length 0
          (fatImageDockerInstructions [newImageCommentLayer]) [])[3]?
        = some "# new image".toList
    ∧ ¬ ((lineLoop (fatImageDockerInstructions [newImageCommentLayer]).length 0
            (fatImageDockerInstructions [newImageCommentLayer]) [])[3]?
          = some "# new image".toList
        ↔ 0 + 1 < (fatImageDockerInstructions [newImageCommentLayer]).length) := by
  refine ⟨by rfl, by rfl, by rfl, by decide, by rfl, by decide, by decide, by decide⟩

/-- C13, as the code has it: the comment line `# <comment>` of a layer with a
comment is the last line that the layer contributes.  For a layer whose region
is not `last` it stands right after the command line.  For a layer of region
`last` it stands after the end-of-image block: command line, summary line,
empty line, the `# new image` delimiter when the layer is not the newest one,
and then the comment line.  A layer without comment contributes no comment
line. -/
theorem C13_comment_line (ε : Type) (imageHistory : List ImageHistory) (i : Nat)
    (inst : imageInst)
    (hi : (fatImageDockerInstructions imageHistory)[i]? = some inst) :
    ∃ block,
      ReverseDockerfileFromHistory (Except.ok imageHistory : Except ε (List ImageHistory))
        = Except.ok
            (lineLoop (fatImageDockerInstructions imageHistory).length 0
                ((fatImageDockerInstructions imageHistory).take i) []
              ++ block
              ++ lineLoop (fatImageDockerInstructions imageHistory).length (i + 1)
                  ((fatImageDockerInstructions imageHistory).drop (i + 1)) [])
      ∧ (inst.instType ≠ "last".toList → inst.instComment ≠ "".toList →
          block = (if inst.instType = "first".toList then ["# new image".toList] else [])
                    ++ [inst.instCmd, "# ".toList ++ inst.instComment])
      ∧ (inst.instType = "last".toList → inst.instComment ≠ "".toList →
          block = [inst.instCmd, commentText inst, "".toList]
                    ++ (if i + 1 < imageHistory.length then ["# new image".toList] else [])
                    ++ ["# ".toList ++ inst.instComment])
      ∧ (inst.instComment = "".toList →
          block = (if inst.instType = "first".toList then ["# new image".toList] else [])
                    ++ [inst.instCmd]
                    ++ (if inst.instType = "last".toList then
                          [commentText inst, "".toList]
                            ++ (if i + 1 < imageHistory.length then ["# new image".toList]
                                else [])
                        else [])) := by
  have hlen := instructions_length imageHistory
  have h3 : ((i : Int) < ((fatImageDockerInstructions imageHistory).length : Int) - 1)
      ↔ i + 1 < imageHistory.length := by
    rw [hlen]; omega
  refine ⟨instLines (fatImageDockerInstructions imageHistory).length i inst,
    lines_split ε imageHistory i inst hi, ?_, ?_, ?_⟩
  · intro hnl hc
    unfold instLines
    rw [if_neg hnl, if_pos hc]
    simp
  · intro hl hc
    have hnf : ¬ (inst.instType = "first".toList) := by rw [hl]; decide
    unfold instLines
    rw [if_neg hnf, if_pos hl, if_pos hc, if_congr h3 rfl rfl]
    simp
  · intro hc
    have hc2 : ¬ (inst.instComment ≠ "".toList) := fun h => h hc
    unfold instLines
    rw [if_neg hc2, if_congr h3 rfl rfl]
    simp

/-- Witness of C13: the layer of `fatHistory` without tags and with the
comment `build step`, at position `2`. -/
theorem C13_comment_line_witness :
    ∃ block,
      ReverseDockerfileFromHistory (Except.ok fatHistory : Except Unit (List ImageHistory))
        = Except.ok
            (lineLoop (fatImageDockerInstructions fatHistory).length 0
                ((fatImageDockerInstructions fatHistory).take 2) []
              ++ block
              ++ lineLoop (fatImageDockerInstructions fatHistory).length (2 + 1)
                  ((fatImageDockerInstructions fatHistory).drop (2 + 1)) [])
      ∧ ((layerInst fatBuildLayer false).instType ≠ "last".toList →
          (layerInst fatBuildLayer false).instComment ≠ "".toList →
          block = (if (layerInst fatBuildLayer false).instType = "first".toList then
                     ["# new image".toList] else [])
                    ++ [(layerInst fatBuildLayer false).instCmd,
                        "# ".toList ++ (layerInst fatBuildLayer false).instComment])
      ∧ ((layerInst fatBuildLayer false).instType = "last".toList →
          (layerInst fatBuildLayer false).instComment ≠ "".toList →
          block = [(layerInst fatBuildLayer false).instCmd,
                    commentText (layerInst fatBuildLayer false), "".toList]
                    ++ (if 2 + 1 < fatHistory.length then ["# new image".toList] else [])
                    ++ ["# ".toList ++ (layerInst fatBuildLayer false).instComment])
      ∧ ((layerInst fatBuildLayer false).instComment = "".toList →
          block = (if (layerInst fatBuildLayer false).instType = "first".toList then
                     ["# new image".toList] else [])
                    ++ [(layerInst fatBuildLayer false).instCmd]
                    ++ (if (layerInst fatBuildLayer false).instType = "last".toList then
                          [commentText (layerInst fatBuildLayer false), "".toList]
                            ++ (if 2 + 1 < fatHistory.length then ["# new image".toList]
                                else [])
                        else [])) :=
  C13_comment_line Unit fatHistory 2 (layerInst fatBuildLayer false) (by rfl)

/-- Counterexample to C13 as stated: the layer at input index `2` of
`fatHistory` has the comment `base image` and the command `ENV A=1`.  Its
command line is line `2` of the output, and the line right after it is the
end-of-image summary, not `# base image`, which comes three lines later. -/
theorem C13_counterexample :
    fatHistory[2]? = some fatBaseLayer
    ∧ fatBaseLayer.Comment = "base image".toList
    ∧ (fatImageDockerInstructions fatHistory)[fatHistory.length - 1 - 2]?.map imageInst.instCmd
        = some "ENV A=1".toList
    ∧ (lineLoop (fatImageDockerInstructions fatHistory).length 0
          (fatImageDockerInstructions fatHistory) [])[2]?
        = some "ENV A=1".toList
    ∧ (lineLoop (fatImageDockerInstructions fatHistory).length 0
          (fatImageDockerInstructions fatHistory) [])[3]?
        = some "# end of image: base (id: sha7 tags: 1)".toList
    ∧ (lineLoop (fatImageDockerInstructions fatHistory).length 0
          (fatImageDockerInstructions fatHistory) [])[3]?
        ≠ some ("# ".toList ++ fatBaseLayer.Comment)
    ∧ (lineLoop (fatImageDockerInstructions fatHistory).length 0
          (fatImageDockerInstructions fatHistory) [])[6]?
        = some ("# ".toList ++ fatBaseLayer.Comment)
    ∧ ReverseDockerfileFromHistory (Except.ok fatHistory : Except Unit (List ImageHistory))
        = Except.ok (lineLoop (fatImageDockerInstructions fatHistory).length 0
            (fatImageDockerInstructions fatHistory) []) := by
  refine ⟨by rfl, by rfl, by decide, by decide, by decide, by decide, by decide, by rfl⟩

/-- C14: the decoder fails exactly when the fetch of the history failed, and
then with the error of the fetch and no lines; for every fetched history it
returns lines and no error, and for the empty history no line at all. -/
theorem C14_failure_iff_fetch_failure (ε : Type) (fetched : Except ε (List ImageHistory)) :
    ((∃ err, ReverseDockerfileFromHistory fetched = Except.error err)
        ↔ (∃ err, fetched = Except.error err))
    ∧ (∀ err, fetched = Except.error err →
        ReverseDockerfileFromHistory fetched = Except.error err)
    ∧ (∀ imageHistory, fetched = Except.ok imageHistory →
        ∃ lines, ReverseDockerfileFromHistory fetched = Except.ok lines)
    ∧ ReverseDockerfileFromHistory (Except.ok [] : Except ε (List ImageHistory))
        = Except.ok [] := by
  refine ⟨?_, ?_, ?_, rfl⟩
  · cases fetched with
    | error e =>
      exact ⟨fun _ => ⟨e, rfl⟩, fun _ => ⟨e, rfl⟩⟩
    | ok h =>
      constructor
      · rintro ⟨err, herr⟩
        simp [ReverseDockerfileFromHistory] at herr
      · rintro ⟨err, herr⟩
        cases herr
  · intro err h
    subst h
    rfl
  · intro imageHistory h
    subst h
    exact ⟨_, rfl⟩

/-! ## Tags with at most one colon -/

/-- A string without the separator character is its only piece. -/
theorem Split_single_none (d : Char) (s : Str) (h : d ∉ s) : Split s [d] = [s] := by
  have hcount : Count s [d] = 0 := by
    unfold Count
    simp only [List.length_singleton, Nat.succ_ne_zero, if_false]
    exact countLoop_single_none d s h _
  unfold Split
  simp only [List.length_singleton, Nat.succ_ne_zero, if_false, hcount]
  rfl

theorem shortTagsLoop_parts (parts : List (Str × Option Str))
    (hColon : ∀ p ∈ parts, ':' ∉ p.1 ∧ ∀ t, p.2 = some t → ':' ∉ t) (acc : List Str) :
    shortTagsLoop
        (parts.map (fun p => tagText p.1 p.2)) acc
      = acc ++ parts.filterMap Prod.snd := by
  induction parts generalizing acc with
  | nil => simp [shortTagsLoop]
  | cons p ps ih =>
    have hp := hColon p (List.mem_cons_self _ _)
    have hps : ∀ q ∈ ps, ':' ∉ q.1 ∧ ∀ t, q.2 = some t → ':' ∉ t :=
      fun q hq => hColon q (List.mem_cons_of_mem _ hq)
    obtain ⟨name, tag⟩ := p
    rw [List.map_cons]
    unfold shortTagsLoop
    cases tag with
    | none =>
      have hsplit : Split (tagText name none) ":".toList = [name] :=
        Split_single_none ':' name hp.1
      simp only [hsplit]
      rw [if_neg (by simp), ih hps]
      simp
    | some t =>
      have hsplit : Split (tagText name (some t)) ":".toList = [name, t] :=
        Split_single ':' name t hp.1 (hp.2 t rfl)
      simp only [hsplit]
      rw [if_pos (by simp), ih hps]
      simp

/-- C18, as the code has it: when every tag of a layer has at most one `:`,
`shortTags` holds, in order, the text after the `:` of every tag that has one;
a tag without `:` gives no entry.  `imageName` is the text before the `:` of
the first tag, and is empty when the first tag has no `:`.  `fullTags` is the
list of tags.  For a layer without tags all three are empty. -/
theorem C18_short_tags (imageHistory : List ImageHistory) (idx : Nat)
    (layer : ImageHistory) (parts : List (Str × Option Str))
    (hl : imageHistory[idx]? = some layer)
    (hTags : layer.Tags
      = parts.map (fun p => tagText p.1 p.2))
    (hColon : ∀ p ∈ parts, ':' ∉ p.1 ∧ ∀ t, p.2 = some t → ':' ∉ t) :
    ∃ inst,
      (fatImageDockerInstructions imageHistory)[imageHistory.length - 1 - idx]? = some inst
      ∧ inst.shortTags = parts.filterMap Prod.snd
      ∧ inst.imageName
          = (parts.head?.elim [] (fun p => p.2.elim [] (fun _ => p.1)))
      ∧ inst.fullTags = layer.Tags
      ∧ (layer.Tags = [] →
          inst.imageName = [] ∧ inst.shortTags = [] ∧ inst.fullTags = []) := by
  refine ⟨_, instruction_of_some imageHistory idx layer hl, ?_⟩
  have hshort := shortTagsLoop_parts parts hColon []
  rw [← hTags] at hshort
  cases parts with
  | nil =>
    have hnil : layer.Tags = [] := hTags
    have hpos : ¬ (layer.Tags.length > 0) := by rw [hnil]; simp
    simp [layerInst, hnil]
  | cons p ps =>
    have hp := hColon p (List.mem_cons_self _ _)
    obtain ⟨name, tag⟩ := p
    have hpos : layer.Tags.length > 0 := by rw [hTags]; simp
    have hne : layer.Tags ≠ [] := List.length_pos.1 hpos
    have hhead : layer.Tags.headD [] = tagText name tag := by rw [hTags]; rfl
    unfold layerInst
    simp only [hpos, if_true, hhead, hshort]
    refine ⟨by simp, ?_, trivial, fun h => absurd h hne⟩
    cases tag with
    | none =>
      have hsplit : Split (tagText name none) ":".toList = [name] :=
        Split_single_none ':' name hp.1
      simp only [hsplit]
      simp
    | some t =>
      have hsplit : Split (tagText name (some t)) ":".toList = [name, t] :=
        Split_single ':' name t hp.1 (hp.2 t rfl)
      simp only [hsplit]
      simp

/-- Witness of C18: a layer with the tags `busybox` and `myrepo:v1`. -/
theorem C18_short_tags_witness :
    (∃ inst,
      (fatImageDockerInstructions [mixedTagsLayer])[[mixedTagsLayer].length - 1 - 0]? = some inst
      ∧ inst.shortTags
          = [("busybox".toList, none), ("myrepo".toList, some "v1".toList)].filterMap Prod.snd
      ∧ inst.imageName
          = (([("busybox".toList, none), ("myrepo".toList, some "v1".toList)]
                : List (Str × Option Str)).head?.elim []
              (fun p => p.2.elim [] (fun _ => p.1)))
      ∧ inst.fullTags = mixedTagsLayer.Tags
      ∧ (mixedTagsLayer.Tags = [] →
          inst.imageName = [] ∧ inst.shortTags = [] ∧ inst.fullTags = []))
    ∧ (fatImageDockerInstructions [mixedTagsLayer]).map
          (fun inst => (inst.imageName, inst.shortTags, inst.fullTags))
        = [("".toList, ["v1".toList], ["busybox".toList, "myrepo:v1".toList])]
    ∧ (fatImageDockerInstructions [scratchLayer]).map
          (fun inst => (inst.imageName, inst.shortTags, inst.fullTags))
        = [("".toList, [], [])] :=
  ⟨C18_short_tags [mixedTagsLayer] 0 mixedTagsLayer
      [("busybox".toList, none), ("myrepo".toList, some "v1".toList)]
      (by rfl) (by decide) (by decide),
    by decide, by decide⟩

/-- Counterexample to C18 as stated: a layer with the two tags `busybox` and
`localhost:5000/app:v1` gets one short tag, not two, and no image name; the
short tag is `5000/app`, the text between the first two colons of the second
tag, not its suffix `v1`. -/
theorem C18_counterexample :
    [oddTagsLayer][0]? = some oddTagsLayer
    ∧ oddTagsLayer.Tags = ["busybox".toList, "localhost:5000/app:v1".toList]
    ∧ (fatImageDockerInstructions [oddTagsLayer])[[oddTagsLayer].length - 1 - 0]?.map
          imageInst.shortTags
        = some ["5000/app".toList]
    ∧ (fatImageDockerInstructions [oddTagsLayer])[[oddTagsLayer].length - 1 - 0]?.map
          (fun inst => inst.shortTags.length)
        ≠ some oddTagsLayer.Tags.length
    ∧ (fatImageDockerInstructions [oddTagsLayer])[[oddTagsLayer].length - 1 - 0]?.map
          imageInst.imageName
        = some "".toList := by
  decide

/-! ## Delimiters and summaries -/

theorem isMark_delimiter : isMark "# new image".toList = true := by decide

theorem isMark_empty : isMark "".toList = false := by decide

theorem isSummary_commentText (inst : imageInst) : isSummary (commentText inst) = true := by
  unfold isSummary commentText
  simp only [List.append_assoc]
  exact HasPrefix_append _ _

theorem isMark_commentText (inst : imageInst) : isMark (commentText inst) = true := by
  unfold isMark
  rw [isSummary_commentText]
  simp

theorem isDelimiter_commentText (inst : imageInst) : isDelimiter (commentText inst) = false := by
  have h : isSummary "# new image".toList = false := by decide
  cases hd : isDelimiter (commentText inst) with
  | false => rfl
  | true =>
    unfold isDelimiter at hd
    have e : commentText inst = "# new image".toList := eq_of_beq hd
    have hs := isSummary_commentText inst
    rw [e, h] at hs
    cases hs

theorem filter_block (p : Str → Bool) (d cmd sm e c : Str) (c1 c2 c3 c4 : Prop)
    [Decidable c1] [Decidable c2] [Decidable c3] [Decidable c4]
    (hd : p d = true) (hcmd : p cmd = false) (hsm : p sm = true) (he : p e = false)
    (hc : p c = false) :
    ((if c1 then [d] else []) ++ [cmd]
        ++ (if c2 then [sm, e] ++ (if c3 then [d] else []) else [])
        ++ (if c4 then [c] else [])).filter p
      = (if c1 then [d] else [])
        ++ (if c2 then sm :: (if c3 then [d] else []) else []) := by
  by_cases h1 : c1 <;> by_cases h2 : c2 <;> by_cases h3 : c3 <;> by_cases h4 : c4 <;>
    simp [h1, h2, h3, h4, List.filter, hd, hcmd, hsm, he, hc]

/-- The delimiters and summaries among the lines of one layer. -/
theorem marks_instLines (n idx : Nat) (layer : ImageHistory) (isStart : Bool)
    (hClean : cleanLayer layer) :
    (instLines n idx (layerInst layer isStart)).filter isMark
      = (if layer.Tags.length = 0 ∧ isStart = true then ["# new image".toList] else [])
        ++ (if layer.Tags.length > 0 then
              commentText (layerInst layer isStart)
                :: (if idx + 1 < n then ["# new image".toList] else [])
            else []) := by
  rw [instLines_layerInst]
  exact filter_block isMark _ _ _ _ _ _ _ _ _ isMark_delimiter hClean.1
    (isMark_commentText _) isMark_empty hClean.2


/-- The delimiters and summaries among the lines of layers that are neither
the oldest nor the newest one: a summary and a delimiter for every layer with
tags. -/
theorem marks_middle (n : Nat) :
    ∀ (layers : List ImageHistory) (idx : Nat),
      (∀ l ∈ layers, cleanLayer l) → idx + layers.length < n →
      (lineLoop n idx (layers.map (fun layer => layerInst layer false)) []).filter isMark
        = (layers.filter (fun layer => decide (layer.Tags.length > 0))).flatMap
            (fun layer => [commentText (layerInst layer false), "# new image".toList]) := by
  intro layers
  induction layers with
  | nil => intro idx _ _; rfl
  | cons l ls ih =>
    intro idx hClean hidx
    have hlen : (l :: ls).length = ls.length + 1 := rfl
    rw [hlen] at hidx
    rw [List.map_cons, lineLoop_cons, List.filter_append,
      ih (idx + 1) (fun x hx => hClean x (List.mem_cons_of_mem _ hx)) (by omega),
      marks_instLines n idx l false (hClean l (List.mem_cons_self _ _))]
    have h1 : ¬ (l.Tags.length = 0 ∧ false = true) := by simp
    have h2 : idx + 1 < n := by omega
    rw [if_neg h1, if_pos h2, List.nil_append]
    by_cases ht : l.Tags.length > 0
    · rw [if_pos ht, List.filter_cons_of_pos (by simpa using ht), List.flatMap_cons]
    · rw [if_neg ht, List.filter_cons_of_neg (by simpa using ht)]
      rfl

theorem regroup_marks (d y : Str) (g : ImageHistory → Str) :
    ∀ (l : List ImageHistory),
      [d] ++ l.flatMap (fun x => [g x, d]) ++ [y]
        = (l.map g ++ [y]).flatMap (fun s => [d, s]) := by
  intro l
  induction l with
  | nil => rfl
  | cons x xs ih =>
    have e : (g x :: List.map g xs ++ [y]).flatMap (fun s => [d, s])
        = [d, g x] ++ (List.map g xs ++ [y]).flatMap (fun s => [d, s]) :=
      List.flatMap_cons _ _ _
    rw [List.flatMap_cons, List.map_cons, e, ← ih]
    simp

theorem count_alternate (d : Str) :
    ∀ (summaries : List Str), (∀ s ∈ summaries, s ≠ d) →
      (summaries.flatMap (fun s => [d, s])).count d = summaries.length := by
  intro summaries
  induction summaries with
  | nil => intro _; rfl
  | cons s ss ih =>
    intro h
    have hs : s ≠ d := h s (List.mem_cons_self _ _)
    have hs2 : (s == d) = false := by
      rw [beq_eq_false_iff_ne]; exact hs
    rw [List.flatMap_cons, List.count_append, ih (fun x hx => h x (List.mem_cons_of_mem _ hx))]
    simp [List.count_cons, hs2]
    omega

theorem countP_alternate (p : Str → Bool) (d : Str) (hd : p d = false) :
    ∀ (summaries : List Str), (∀ s ∈ summaries, p s = true) →
      (summaries.flatMap (fun s => [d, s])).countP p = summaries.length := by
  intro summaries
  induction summaries with
  | nil => intro _; rfl
  | cons s ss ih =>
    intro h
    have hs : p s = true := h s (List.mem_cons_self _ _)
    rw [List.flatMap_cons, List.countP_append,
      ih (fun x hx => h x (List.mem_cons_of_mem _ hx))]
    simp [List.countP_cons, hs, hd]
    omega

/-- No two adjacent lines both read `d`. -/
theorem chain_block (d cmd sm e c : Str) (c1 c2 c3 c4 : Prop)
    [Decidable c1] [Decidable c2] [Decidable c3] [Decidable c4]
    (hcmd : cmd ≠ d) (he : e ≠ d) (hc : c ≠ d) :
    List.Chain' (fun a b => ¬ (a = d ∧ b = d))
      ((if c1 then [d] else []) ++ [cmd]
        ++ (if c2 then [sm, e] ++ (if c3 then [d] else []) else [])
        ++ (if c4 then [c] else [])) := by
  by_cases h1 : c1 <;> by_cases h2 : c2 <;> by_cases h3 : c3 <;> by_cases h4 : c4 <;>
    simp [h1, h2, h3, h4, List.chain'_cons, hcmd, he, hc]

theorem chain_append_head (d : Str) (a b : List Str)
    (ha : List.Chain' (fun x y => ¬ (x = d ∧ y = d)) a)
    (hb : List.Chain' (fun x y => ¬ (x = d ∧ y = d)) b)
    (hhead : ∀ y ∈ b.head?, y ≠ d) :
    List.Chain' (fun x y => ¬ (x = d ∧ y = d)) (a ++ b) := by
  rw [List.chain'_append]
  refine ⟨ha, hb, ?_⟩
  intro x _ y hy hxy
  exact hhead y hy hxy.2


theorem ne_delimiter_of_isMark (line : Str) (h : isMark line = false) :
    line ≠ "# new image".toList := by
  intro e
  rw [e, isMark_delimiter] at h
  cases h

theorem commentText_ne_delimiter (inst : imageInst) :
    commentText inst ≠ "# new image".toList := by
  intro e
  have h := isDelimiter_commentText inst
  rw [e] at h
  exact absurd h (by decide)

/-- The lines of one layer hold no two adjacent delimiters. -/
theorem chain_instLines (n idx : Nat) (layer : ImageHistory) (isStart : Bool)
    (hClean : cleanLayer layer) :
    List.Chain' (fun a b => ¬ (a = "# new image".toList ∧ b = "# new image".toList))
      (instLines n idx (layerInst layer isStart)) := by
  rw [instLines_layerInst]
  exact chain_block _ _ _ _ _ _ _ _ _ (ne_delimiter_of_isMark _ hClean.1) (by decide)
    (ne_delimiter_of_isMark _ hClean.2)

/-- The lines of a layer decoded in a round other than the round of
`imageLayerStart` start with the command of the layer. -/
theorem head_instLines (n idx : Nat) (layer : ImageHistory) (rest : List Str) :
    (instLines n idx (layerInst layer false) ++ rest).head?
      = some (decodeInst layer.CreatedBy) := by
  rw [instLines_layerInst]
  have h1 : ¬ (layer.Tags.length = 0 ∧ false = true) := by simp
  rw [if_neg h1]
  rfl

theorem chain_nonstart (n : Nat) (rest : List Str)
    (hrest : List.Chain' (fun a b => ¬ (a = "# new image".toList ∧ b = "# new image".toList))
      rest)
    (hhead : ∀ y ∈ rest.head?, y ≠ "# new image".toList) :
    ∀ (layers : List ImageHistory) (idx : Nat), (∀ l ∈ layers, cleanLayer l) →
      List.Chain' (fun a b => ¬ (a = "# new image".toList ∧ b = "# new image".toList))
          (lineLoop n idx (layers.map (fun layer => layerInst layer false)) [] ++ rest)
      ∧ ∀ y ∈ (lineLoop n idx (layers.map (fun layer => layerInst layer false)) []
                ++ rest).head?, y ≠ "# new image".toList := by
  intro layers
  induction layers with
  | nil =>
    intro idx _
    exact ⟨hrest, hhead⟩
  | cons l ls ih =>
    intro idx hClean
    have hl := hClean l (List.mem_cons_self _ _)
    obtain ⟨hc, hh⟩ := ih (idx + 1) (fun x hx => hClean x (List.mem_cons_of_mem _ hx))
    rw [List.map_cons, lineLoop_cons, List.append_assoc]
    refine ⟨chain_append_head _ _ _ (chain_instLines n idx l false hl) hc hh, ?_⟩
    intro y hy
    rw [head_instLines] at hy
    have e : y = decodeInst l.CreatedBy := (Option.some.inj hy).symm
    rw [e]
    exact ne_delimiter_of_isMark _ hl.1

theorem history_shape (imageHistory : List ImageHistory) (oldest newest : ImageHistory)
    (hOld : imageHistory.getLast? = some oldest) (hOldTags : oldest.Tags = [])
    (hNew : imageHistory.head? = some newest) (hNewTags : newest.Tags ≠ []) :
    ∃ mid, imageHistory = newest :: (mid ++ [oldest]) := by
  obtain ⟨init, hinit⟩ := history_of_getLast imageHistory oldest hOld
  subst hinit
  cases init with
  | nil =>
    simp at hNew
    rw [hNew] at hOldTags
    exact absurd hOldTags hNewTags
  | cons x mid =>
    simp at hNew
    rw [hNew]
    exact ⟨mid, rfl⟩

/-- The instructions of a history of at least two layers. -/
theorem instructions_shape (newest oldest : ImageHistory) (mid : List ImageHistory) :
    fatImageDockerInstructions (newest :: (mid ++ [oldest]))
      = layerInst oldest true
          :: (mid.reverse.map (fun layer => layerInst layer false)
              ++ [layerInst newest false]) := by
  have e : newest :: (mid ++ [oldest]) = (newest :: mid) ++ [oldest] := rfl
  rw [e, instructions_concat]
  simp

/-- The lines of a history of at least two layers. -/
theorem lines_shape (ε : Type) (newest oldest : ImageHistory) (mid : List ImageHistory) :
    ReverseDockerfileFromHistory
        (Except.ok (newest :: (mid ++ [oldest])) : Except ε (List ImageHistory))
      = Except.ok
          (instLines (mid.length + 2) 0 (layerInst oldest true)
            ++ (lineLoop (mid.length + 2) 1
                  (mid.reverse.map (fun layer => layerInst layer false)) []
                ++ instLines (mid.length + 2) (mid.length + 1) (layerInst newest false))) := by
  unfold ReverseDockerfileFromHistory
  simp only
  rw [instructions_shape, lineLoop_cons, lineLoop_append, lineLoop_cons, lineLoop_nil]
  have e1 : (layerInst oldest true
      :: (mid.reverse.map (fun layer => layerInst layer false)
          ++ [layerInst newest false])).length = mid.length + 2 := by simp
  have e2 : 0 + 1 + (mid.reverse.map (fun layer => layerInst layer false)).length
      = mid.length + 1 := by simp; omega
  rw [e1, e2, List.append_nil]


/-- The delimiters and summaries among the lines of a history whose oldest
layer has no tags and whose newest layer has tags. -/
theorem marks_lines (newest oldest : ImageHistory) (mid : List ImageHistory)
    (hOldTags : oldest.Tags = []) (hNewTags : newest.Tags ≠ [])
    (hClean : ∀ layer ∈ newest :: (mid ++ [oldest]), cleanLayer layer) :
    (instLines (mid.length + 2) 0 (layerInst oldest true)
      ++ (lineLoop (mid.length + 2) 1
            (mid.reverse.map (fun layer => layerInst layer false)) []
          ++ instLines (mid.length + 2) (mid.length + 1) (layerInst newest false))).filter
        isMark
      = (((mid.reverse.filter (fun layer => decide (layer.Tags.length > 0))).map
            (fun layer => commentText (layerInst layer false)))
          ++ [commentText (layerInst newest false)]).flatMap
          (fun s => ["# new image".toList, s]) := by
  have hco : cleanLayer oldest := hClean oldest (by simp)
  have hcn : cleanLayer newest := hClean newest (by simp)
  have hcm : ∀ l ∈ mid.reverse, cleanLayer l := by
    intro l hl
    have hl2 : l ∈ mid := List.mem_reverse.1 hl
    exact hClean l (by simp [hl2])
  rw [List.filter_append, List.filter_append, marks_instLines _ _ _ _ hco,
    marks_instLines _ _ _ _ hcn, marks_middle _ _ _ hcm (by simp; omega)]
  have h1 : oldest.Tags.length = 0 ∧ true = true := ⟨by rw [hOldTags]; rfl, rfl⟩
  have h2 : ¬ (oldest.Tags.length > 0) := by rw [hOldTags]; simp
  have h3 : ¬ (newest.Tags.length = 0 ∧ false = true) := by simp
  have h4 : newest.Tags.length > 0 := List.length_pos.2 hNewTags
  have h5 : ¬ (mid.length + 1 + 1 < mid.length + 2) := by omega
  rw [if_pos h1, if_neg h2, if_neg h3, if_pos h4, if_neg h5, List.append_nil, List.nil_append,
    ← regroup_marks, List.append_assoc]

/-- C20: for a history whose oldest layer has no tags and whose newest layer
has tags, and in which no command line and no comment line reads as a
delimiter or as a summary, the lines hold as many `# new image` delimiters as
end-of-image summaries, one of each for every layer with tags.  Delimiters
and summaries alternate, a delimiter first and a summary last.  The first
line is a delimiter, and no two adjacent lines are both delimiters. -/
theorem C20_delimiters_balanced (ε : Type) (imageHistory : List ImageHistory)
    (oldest newest : ImageHistory) (lines : List Str)
    (hOld : imageHistory.getLast? = some oldest) (hOldTags : oldest.Tags = [])
    (hNew : imageHistory.head? = some newest) (hNewTags : newest.Tags ≠ [])
    (hClean : ∀ layer ∈ imageHistory, cleanLayer layer)
    (hLines : ReverseDockerfileFromHistory
        (Except.ok imageHistory : Except ε (List ImageHistory)) = Except.ok lines) :
    lines.count "# new image".toList
        = imageHistory.countP (fun layer => decide (layer.Tags.length > 0))
    ∧ lines.countP isSummary
        = imageHistory.countP (fun layer => decide (layer.Tags.length > 0))
    ∧ (∃ summaries : List Str,
        lines.filter isMark = summaries.flatMap (fun s => ["# new image".toList, s])
        ∧ (∀ s ∈ summaries, isSummary s = true)
        ∧ summaries.length
            = imageHistory.countP (fun layer => decide (layer.Tags.length > 0)))
    ∧ lines.head? = some "# new image".toList
    ∧ List.Chain' (fun a b => ¬ (a = "# new image".toList ∧ b = "# new image".toList))
        lines := by
  obtain ⟨mid, hmid⟩ := history_shape imageHistory oldest newest hOld hOldTags hNew hNewTags
  subst hmid
  rw [lines_shape] at hLines
  have hl := Except.ok.inj hLines
  have hmarks := marks_lines newest oldest mid hOldTags hNewTags hClean
  rw [hl] at hmarks
  have hco : cleanLayer oldest := hClean oldest (by simp)
  have hcn : cleanLayer newest := hClean newest (by simp)
  have hcm : ∀ l ∈ mid.reverse, cleanLayer l := by
    intro l hl
    have hl2 : l ∈ mid := List.mem_reverse.1 hl
    exact hClean l (by simp [hl2])
  have hsum : ∀ s ∈ ((mid.reverse.filter (fun layer => decide (layer.Tags.length > 0))).map
        (fun layer => commentText (layerInst layer false)))
        ++ [commentText (layerInst newest false)],
      ∃ inst, s = commentText inst := by
    intro s hs
    rcases List.mem_append.1 hs with h | h
    · obtain ⟨l, _, hl⟩ := List.mem_map.1 h
      exact ⟨_, hl.symm⟩
    · exact ⟨_, List.mem_singleton.1 h⟩
  have hcount : (((mid.reverse.filter (fun layer => decide (layer.Tags.length > 0))).map
        (fun layer => commentText (layerInst layer false)))
        ++ [commentText (layerInst newest false)]).length
      = (newest :: (mid ++ [oldest])).countP (fun layer => decide (layer.Tags.length > 0)) := by
    have h2 : ¬ (oldest.Tags.length > 0) := by rw [hOldTags]; simp
    have h4 : newest.Tags.length > 0 := List.length_pos.2 hNewTags
    rw [List.length_append, List.length_map, List.filter_reverse, List.length_reverse,
      ← List.countP_eq_length_filter, List.countP_cons, List.countP_append, List.countP_cons,
      List.countP_nil]
    simp [h2, h4]
  refine ⟨?_, ?_, ⟨_, hmarks, ?_, hcount⟩, ?_, ?_⟩
  · rw [← List.count_filter isMark_delimiter, hmarks, count_alternate, hcount]
    intro s hs
    obtain ⟨inst, hinst⟩ := hsum s hs
    rw [hinst]
    exact commentText_ne_delimiter inst
  · have hp : (fun a => isSummary a && isMark a) = isSummary := by
      funext a
      unfold isMark
      cases isSummary a <;> simp
    have hq : List.countP isSummary (lines.filter isMark) = List.countP isSummary lines := by
      rw [List.countP_filter, hp]
    rw [← hq, hmarks, countP_alternate isSummary _ (by decide), hcount]
    intro s hs
    obtain ⟨inst, hinst⟩ := hsum s hs
    rw [hinst]
    exact isSummary_commentText inst
  · intro s hs
    obtain ⟨inst, hinst⟩ := hsum s hs
    rw [hinst]
    exact isSummary_commentText inst
  · rw [← hl, instLines_layerInst]
    have h1 : oldest.Tags.length = 0 ∧ true = true := ⟨by rw [hOldTags]; rfl, rfl⟩
    rw [if_pos h1]
    rfl
  · rw [← hl]
    have hlast : List.Chain'
        (fun a b => ¬ (a = "# new image".toList ∧ b = "# new image".toList))
        (instLines (mid.length + 2) (mid.length + 1) (layerInst newest false)) :=
      chain_instLines _ _ _ _ hcn
    have hlasthead : ∀ y ∈ (instLines (mid.length + 2) (mid.length + 1)
        (layerInst newest false)).head?, y ≠ "# new image".toList := by
      intro y hy
      have := head_instLines (mid.length + 2) (mid.length + 1) newest []
      rw [List.append_nil] at this
      rw [this] at hy
      have e : y = decodeInst newest.CreatedBy := (Option.some.inj hy).symm
      rw [e]
      exact ne_delimiter_of_isMark _ hcn.1
    obtain ⟨hc, hh⟩ := chain_nonstart (mid.length + 2) _ hlast hlasthead mid.reverse 1 hcm
    exact chain_append_head _ _ _ (chain_instLines _ _ _ _ hco) hc hh


/-- Witness of C20: `fatHistory`, two stacked tagged images, with two
delimiters and two summaries. -/
theorem C20_delimiters_balanced_witness :
    (fatHistoryLines.count "# new image".toList
        = fatHistory.countP (fun layer => decide (layer.Tags.length > 0))
    ∧ fatHistoryLines.countP isSummary
        = fatHistory.countP (fun layer => decide (layer.Tags.length > 0))
    ∧ (∃ summaries : List Str,
        fatHistoryLines.filter isMark
          = summaries.flatMap (fun s => ["# new image".toList, s])
        ∧ (∀ s ∈ summaries, isSummary s = true)
        ∧ summaries.length
            = fatHistory.countP (fun layer => decide (layer.Tags.length > 0)))
    ∧ fatHistoryLines.head? = some "# new image".toList
    ∧ List.Chain' (fun a b => ¬ (a = "# new image".toList ∧ b = "# new image".toList))
        fatHistoryLines)
    ∧ fatHistoryLines.count "# new image".toList = 2
    ∧ fatHistoryLines.filter isMark
        = [ "# new image".toList,
            "# end of image: base (id: sha7 tags: 1)".toList,
            "# new image".toList,
            "# end of image: app (id: sha9 tags: 1.0)".toList ] :=
  ⟨C20_delimiters_balanced Unit fatHistory fatRootLayer fatTopLayer fatHistoryLines
      (by rfl) (by rfl) (by rfl) (by decide) (by decide) (by rfl),
    by decide, by decide⟩

/-! ## The synthesized recipe (claims C15 and C16) -/

theorem envLoop_eq (env : List Str) :
    ∀ (dfData : Str),
      envLoop env dfData
        = dfData ++ env.flatMap (fun envInfo =>
            if (Split envInfo "=".toList).length > 1 then
              "ENV ".toList ++ (Split envInfo "=".toList).getD 0 [] ++ " ".toList
                ++ (Split envInfo "=".toList).getD 1 [] ++ "\n".toList
            else []) := by
  induction env with
  | nil => intro dfData; simp [envLoop]
  | cons envInfo rest ih =>
    intro dfData
    unfold envLoop
    by_cases h : (Split envInfo "=".toList).length > 1
    · simp only [h, if_true, ih, List.flatMap_cons, List.append_assoc]
      rfl
    · simp only [h, if_false, ih, List.flatMap_cons, List.nil_append]

theorem exposeLoop_eq (exposedPorts : List Str) :
    ∀ (dfData : Str),
      exposeLoop exposedPorts dfData
        = dfData ++ exposedPorts.flatMap (fun portInfo =>
            "EXPOSE ".toList ++ portInfo ++ "\n".toList) := by
  induction exposedPorts with
  | nil => intro dfData; simp [exposeLoop]
  | cons portInfo rest ih =>
    intro dfData
    unfold exposeLoop
    simp only [ih, List.flatMap_cons, List.append_assoc]
    rfl

theorem quoteLoop_eq (isPrintTable : Char → Bool) (elements : List Str) :
    ∀ (quoted : List Str),
      quoteLoop isPrintTable elements quoted
        = quoted ++ elements.map (Quote isPrintTable) := by
  induction elements with
  | nil => intro quoted; simp [quoteLoop]
  | cons element rest ih =>
    intro quoted
    unfold quoteLoop
    rw [ih]
    simp

/-- The buffer of `GenerateFromInfo` as one concatenation. -/
theorem dockerfileData_eq (isPrintTable : Char → Bool) (workingDir : Str) (env : List Str)
    (exposedPorts : List Str) (entrypoint cmd : List Str) :
    dockerfileData isPrintTable workingDir env exposedPorts entrypoint cmd
      = "FROM scratch\n".toList ++ "COPY files /\n".toList
        ++ (if workingDir ≠ "".toList then "WORKDIR ".toList ++ workingDir ++ "\n".toList
            else [])
        ++ env.flatMap (fun envInfo =>
            if (Split envInfo "=".toList).length > 1 then
              "ENV ".toList ++ (Split envInfo "=".toList).getD 0 [] ++ " ".toList
                ++ (Split envInfo "=".toList).getD 1 [] ++ "\n".toList
            else [])
        ++ exposedPorts.flatMap (fun portInfo =>
            "EXPOSE ".toList ++ portInfo ++ "\n".toList)
        ++ (if entrypoint ≠ [] then
              "ENTRYPOINT [".toList ++ Join (entrypoint.map (Quote isPrintTable)) ",".toList
                ++ "]\n".toList
            else [])
        ++ (if cmd ≠ [] then
              "CMD [".toList ++ Join (cmd.map (Quote isPrintTable)) ",".toList
                ++ "]\n".toList
            else []) := by
  by_cases h1 : workingDir = ([] : Str) <;> cases env <;> cases exposedPorts <;>
    cases entrypoint <;> cases cmd <;>
    simp [dockerfileData, envLoop_eq, exposeLoop_eq, quoteLoop_eq, h1]

/-- C16: the bytes that `GenerateFromInfo` hands to the file write are
`FROM scratch`, `COPY files /`, the `WORKDIR` line when `workingDir` is not
empty, the `ENV` lines, one `EXPOSE` line per exposed port, the `ENTRYPOINT`
line when `entrypoint` is not empty and the `CMD` line when `cmd` is not
empty, each ended by a newline, in this order; the example of the claim gives
the five lines it names. -/
theorem C16_fixed_layout (ε : Type) (isPrintTable : Char → Bool)
    (filepathJoin : Str → Str → Str) (writeFile : Str → Str → Except ε Unit)
    (location workingDir : Str) (env : List Str) (exposedPorts : List Str)
    (entrypoint cmd : List Str) :
    GenerateFromInfo isPrintTable filepathJoin writeFile location workingDir env exposedPorts
        entrypoint cmd
      = writeFile (filepathJoin location "Dockerfile".toList)
          ("FROM scratch\n".toList ++ "COPY files /\n".toList
            ++ (if workingDir ≠ "".toList then
                  "WORKDIR ".toList ++ workingDir ++ "\n".toList
                else [])
            ++ env.flatMap (fun envInfo =>
                if (Split envInfo "=".toList).length > 1 then
                  "ENV ".toList ++ (Split envInfo "=".toList).getD 0 [] ++ " ".toList
                    ++ (Split envInfo "=".toList).getD 1 [] ++ "\n".toList
                else [])
            ++ exposedPorts.flatMap (fun portInfo =>
                "EXPOSE ".toList ++ portInfo ++ "\n".toList)
            ++ (if entrypoint ≠ [] then
                  "ENTRYPOINT [".toList
                    ++ Join (entrypoint.map (Quote isPrintTable)) ",".toList
                    ++ "]\n".toList
                else [])
            ++ (if cmd ≠ [] then
                  "CMD [".toList ++ Join (cmd.map (Quote isPrintTable)) ",".toList
                    ++ "]\n".toList
                else []))
    ∧ GenerateFromInfo isPrintTable filepathJoin writeFile location "/app".toList
          ["PATH=/usr/bin".toList, "BAD".toList] []
          ["/bin/sh".toList, "-c".toList, "run.sh".toList] []
        = writeFile (filepathJoin location "Dockerfile".toList)
            (Join
              [ "FROM scratch".toList,
                "COPY files /".toList,
                "WORKDIR /app".toList,
                "ENV PATH /usr/bin".toList,
                "ENTRYPOINT [\"/bin/sh\",\"-c\",\"run.sh\"]".toList,
                "".toList ]
              "\n".toList) := by
  constructor
  · unfold GenerateFromInfo
    rw [dockerfileData_eq]
  · unfold GenerateFromInfo
    rfl

/-- C15, at the entry `A=b=c`: the code writes `ENV A b`, the text between the
first and the second `=`, where the claim has `ENV A b=c`.  Entries without
`=` give no line, and the lines keep the order of the entries. -/
theorem C15_env_value_cut (isPrintTable : Char → Bool) :
    dockerfileData isPrintTable "".toList ["A=b=c".toList] [] [] []
        = "FROM scratch\nCOPY files /\nENV A b\n".toList
    ∧ dockerfileData isPrintTable "".toList ["A=b=c".toList] [] [] []
        ≠ "FROM scratch\nCOPY files /\nENV A b=c\n".toList
    ∧ dockerfileData isPrintTable "".toList
          ["B=2".toList, "BAD".toList, "A=1".toList] [] [] []
        = "FROM scratch\nCOPY files /\nENV B 2\nENV A 1\n".toList := by
  refine ⟨rfl, ?_, rfl⟩
  have h : dockerfileData isPrintTable "".toList ["A=b=c".toList] [] [] []
      = "FROM scratch\nCOPY files /\nENV A b\n".toList := rfl
  rw [h]
  decide


/-! ## Quoting and reading back (claim C17) -/

theorem hexVal_hexDigit : ∀ d : Nat, d < 16 → hexVal (hexDigit d) = some d := by
  decide

theorem hexNumber_two (a b : Nat) (ha : a < 16) (hb : b < 16) :
    hexNumber 0 [hexDigit a, hexDigit b] = some (a * 16 + b) := by
  simp [hexNumber, hexVal_hexDigit a ha, hexVal_hexDigit b hb]

theorem hexNumber_four (a b c d : Nat) (ha : a < 16) (hb : b < 16) (hc : c < 16)
    (hd : d < 16) :
    hexNumber 0 [hexDigit a, hexDigit b, hexDigit c, hexDigit d]
      = some (((a * 16 + b) * 16 + c) * 16 + d) := by
  simp [hexNumber, hexVal_hexDigit a ha, hexVal_hexDigit b hb, hexVal_hexDigit c hc,
    hexVal_hexDigit d hd]

theorem hexNumber_eight (a b c d e f g h : Nat) (ha : a < 16) (hb : b < 16) (hc : c < 16)
    (hd : d < 16) (he : e < 16) (hf : f < 16) (hg : g < 16) (hh : h < 16) :
    hexNumber 0 [hexDigit a, hexDigit b, hexDigit c, hexDigit d, hexDigit e, hexDigit f,
        hexDigit g, hexDigit h]
      = some (((((((a * 16 + b) * 16 + c) * 16 + d) * 16 + e) * 16 + f) * 16 + g) * 16 + h) := by
  simp [hexNumber, hexVal_hexDigit a ha, hexVal_hexDigit b hb, hexVal_hexDigit c hc,
    hexVal_hexDigit d hd, hexVal_hexDigit e he, hexVal_hexDigit f hf, hexVal_hexDigit g hg,
    hexVal_hexDigit h hh]

theorem readRune_raw (c : Char) (rest : Str) (h : c ≠ '\\') :
    readRune (c :: rest) = some (c, rest) := by
  unfold readRune
  simp only [if_neg h]

theorem readRune_simple (e r : Char) (rest : Str) (he : simpleEscape e = some r)
    (hx : e ≠ 'x') (hu : e ≠ 'u') (hU : e ≠ 'U') :
    readRune ('\\' :: e :: rest) = some (r, rest) := by
  unfold readRune
  simp only [if_true, if_neg hx, if_neg hu, if_neg hU, he, Option.map_some']

theorem readRune_x (h1 h2 : Char) (n : Nat) (rest : Str)
    (hn : hexNumber 0 [h1, h2] = some n) :
    readRune ('\\' :: 'x' :: h1 :: h2 :: rest) = some (Char.ofNat n, rest) := by
  unfold readRune
  simp only [if_true, hn, Option.map_some']

theorem readRune_u (h1 h2 h3 h4 : Char) (n : Nat) (rest : Str)
    (hn : hexNumber 0 [h1, h2, h3, h4] = some n) :
    readRune ('\\' :: 'u' :: h1 :: h2 :: h3 :: h4 :: rest) = some (Char.ofNat n, rest) := by
  unfold readRune
  have h : ¬ ('u' = 'x') := by decide
  simp only [if_true, if_neg h, hn, Option.map_some']

theorem readRune_U (h1 h2 h3 h4 h5 h6 h7 h8 : Char) (n : Nat) (rest : Str)
    (hn : hexNumber 0 [h1, h2, h3, h4, h5, h6, h7, h8] = some n) :
    readRune ('\\' :: 'U' :: h1 :: h2 :: h3 :: h4 :: h5 :: h6 :: h7 :: h8 :: rest)
      = some (Char.ofNat n, rest) := by
  unfold readRune
  have h : ¬ ('U' = 'x') := by decide
  have h2 : ¬ ('U' = 'u') := by decide
  simp only [if_true, if_neg h, if_neg h2, hn, Option.map_some']

theorem Char_toNat_bound (r : Char) : r.toNat < 0x110000 := by
  have h := r.valid
  unfold UInt32.isValidChar Nat.isValidChar at h
  unfold Char.toNat
  omega

theorem Char_eq_of_toNat (r : Char) (n : Nat) (h : r.toNat = n) : Char.ofNat n = r := by
  rw [← h]
  exact Char.ofNat_toNat r

/-- Reading back the escape of one character gives the character. -/
theorem readRune_escapedRune (isPrintTable : Char → Bool) (r : Char) (rest : Str) :
    readRune (escapedRune isPrintTable r ++ rest) = some (r, rest) := by
  unfold escapedRune
  by_cases h0 : r = '"' ∨ r = '\\'
  · rw [if_pos h0]
    rcases h0 with h | h
    · subst h
      exact readRune_simple _ _ rest (by decide) (by decide) (by decide) (by decide)
    · subst h
      exact readRune_simple _ _ rest (by decide) (by decide) (by decide) (by decide)
  rw [if_neg h0]
  by_cases hp : IsPrint isPrintTable r = true
  · rw [if_pos hp]
    exact readRune_raw r rest (fun e => h0 (Or.inr e))
  rw [if_neg hp]
  by_cases h1 : r.toNat = 0x07
  · rw [if_pos h1, ← Char_eq_of_toNat r _ h1]
    exact readRune_simple _ _ rest (by decide) (by decide) (by decide) (by decide)
  rw [if_neg h1]
  by_cases h2 : r.toNat = 0x08
  · rw [if_pos h2, ← Char_eq_of_toNat r _ h2]
    exact readRune_simple _ _ rest (by decide) (by decide) (by decide) (by decide)
  rw [if_neg h2]
  by_cases h3 : r.toNat = 0x0C
  · rw [if_pos h3, ← Char_eq_of_toNat r _ h3]
    exact readRune_simple _ _ rest (by decide) (by decide) (by decide) (by decide)
  rw [if_neg h3]
  by_cases h4 : r.toNat = 0x0A
  · rw [if_pos h4, ← Char_eq_of_toNat r _ h4]
    exact readRune_simple _ _ rest (by decide) (by decide) (by decide) (by decide)
  rw [if_neg h4]
  by_cases h5 : r.toNat = 0x0D
  · rw [if_pos h5, ← Char_eq_of_toNat r _ h5]
    exact readRune_simple _ _ rest (by decide) (by decide) (by decide) (by decide)
  rw [if_neg h5]
  by_cases h6 : r.toNat = 0x09
  · rw [if_pos h6, ← Char_eq_of_toNat r _ h6]
    exact readRune_simple _ _ rest (by decide) (by decide) (by decide) (by decide)
  rw [if_neg h6]
  by_cases h7 : r.toNat = 0x0B
  · rw [if_pos h7, ← Char_eq_of_toNat r _ h7]
    exact readRune_simple _ _ rest (by decide) (by decide) (by decide) (by decide)
  rw [if_neg h7]
  have hb := Char_toNat_bound r
  by_cases h8 : r.toNat < 0x20 ∨ r.toNat = 0x7F
  · rw [if_pos h8]
    have hn := hexNumber_two (r.toNat / 16 % 16) (r.toNat % 16) (by omega) (by omega)
    have e : r.toNat / 16 % 16 * 16 + r.toNat % 16 = r.toNat := by omega
    rw [e] at hn
    have := readRune_x _ _ _ rest hn
    rw [Char.ofNat_toNat] at this
    exact this
  rw [if_neg h8]
  by_cases h9 : r.toNat < 0x10000
  · rw [if_pos h9]
    have hn := hexNumber_four (r.toNat / 4096 % 16) (r.toNat / 256 % 16) (r.toNat / 16 % 16)
      (r.toNat % 16) (by omega) (by omega) (by omega) (by omega)
    have e : ((r.toNat / 4096 % 16 * 16 + r.toNat / 256 % 16) * 16 + r.toNat / 16 % 16) * 16
        + r.toNat % 16 = r.toNat := by omega
    rw [e] at hn
    have := readRune_u _ _ _ _ _ rest hn
    rw [Char.ofNat_toNat] at this
    exact this
  rw [if_neg h9]
  have hn := hexNumber_eight (r.toNat / 268435456 % 16) (r.toNat / 16777216 % 16)
    (r.toNat / 1048576 % 16) (r.toNat / 65536 % 16) (r.toNat / 4096 % 16)
    (r.toNat / 256 % 16) (r.toNat / 16 % 16) (r.toNat % 16)
    (by omega) (by omega) (by omega) (by omega) (by omega) (by omega) (by omega) (by omega)
  have e : (((((((r.toNat / 268435456 % 16 * 16 + r.toNat / 16777216 % 16) * 16
      + r.toNat / 1048576 % 16) * 16 + r.toNat / 65536 % 16) * 16 + r.toNat / 4096 % 16) * 16
      + r.toNat / 256 % 16) * 16 + r.toNat / 16 % 16) * 16 + r.toNat % 16) = r.toNat := by
    omega
  rw [e] at hn
  have := readRune_U _ _ _ _ _ _ _ _ _ rest hn
  rw [Char.ofNat_toNat] at this
  exact this

/-- The escape of a character is not empty and does not start with a double
quote. -/
theorem escapedRune_head (isPrintTable : Char → Bool) (r : Char) :
    ∃ c tail, escapedRune isPrintTable r = c :: tail ∧ c ≠ '"' := by
  unfold escapedRune
  by_cases h0 : r = '"' ∨ r = '\\'
  · rw [if_pos h0]
    exact ⟨_, _, rfl, by decide⟩
  rw [if_neg h0]
  by_cases hp : IsPrint isPrintTable r = true
  · rw [if_pos hp]
    exact ⟨_, _, rfl, fun e => h0 (Or.inl e)⟩
  rw [if_neg hp]
  by_cases h1 : r.toNat = 0x07
  · rw [if_pos h1]
    exact ⟨_, _, rfl, by decide⟩
  rw [if_neg h1]
  by_cases h2 : r.toNat = 0x08
  · rw [if_pos h2]
    exact ⟨_, _, rfl, by decide⟩
  rw [if_neg h2]
  by_cases h3 : r.toNat = 0x0C
  · rw [if_pos h3]
    exact ⟨_, _, rfl, by decide⟩
  rw [if_neg h3]
  by_cases h4 : r.toNat = 0x0A
  · rw [if_pos h4]
    exact ⟨_, _, rfl, by decide⟩
  rw [if_neg h4]
  by_cases h5 : r.toNat = 0x0D
  · rw [if_pos h5]
    exact ⟨_, _, rfl, by decide⟩
  rw [if_neg h5]
  by_cases h6 : r.toNat = 0x09
  · rw [if_pos h6]
    exact ⟨_, _, rfl, by decide⟩
  rw [if_neg h6]
  by_cases h7 : r.toNat = 0x0B
  · rw [if_pos h7]
    exact ⟨_, _, rfl, by decide⟩
  rw [if_neg h7]
  by_cases h8 : r.toNat < 0x20 ∨ r.toNat = 0x7F
  · rw [if_pos h8]
    exact ⟨_, _, rfl, by decide⟩
  rw [if_neg h8]
  by_cases h9 : r.toNat < 0x10000
  · rw [if_pos h9]
    exact ⟨_, _, rfl, by decide⟩
  rw [if_neg h9]
  exact ⟨_, _, rfl, by decide⟩


theorem quoteRunes_eq (isPrintTable : Char → Bool) (s : Str) :
    ∀ (buf : Str),
      quoteRunes isPrintTable s buf = buf ++ s.flatMap (escapedRune isPrintTable) := by
  induction s with
  | nil => intro buf; simp [quoteRunes]
  | cons r rest ih =>
    intro buf
    unfold quoteRunes
    rw [ih, List.flatMap_cons, List.append_assoc]

/-- A quoted string is a double quote, the escapes of its characters, and a
double quote. -/
theorem Quote_eq (isPrintTable : Char → Bool) (s : Str) :
    Quote isPrintTable s = ['"'] ++ s.flatMap (escapedRune isPrintTable) ++ ['"'] := by
  unfold Quote
  rw [quoteRunes_eq]

theorem length_escapes (isPrintTable : Char → Bool) (s : Str) :
    s.length ≤ (s.flatMap (escapedRune isPrintTable)).length := by
  induction s with
  | nil => simp
  | cons r rest ih =>
    obtain ⟨c, tail, hc, _⟩ := escapedRune_head isPrintTable r
    rw [List.flatMap_cons, hc]
    simp only [List.length_append, List.length_cons]
    omega

/-- Unescaping the escapes of a string up to the closing quote gives the
string back, and the text after the quote. -/
theorem unquoteRunes_escapes (isPrintTable : Char → Bool) (s : Str) :
    ∀ (fuel : Nat) (acc rest : Str), s.length + 1 ≤ fuel →
      unquoteRunes fuel (s.flatMap (escapedRune isPrintTable) ++ '"' :: rest) acc
        = some (acc ++ s, rest) := by
  induction s with
  | nil =>
    intro fuel acc rest hf
    cases fuel with
    | zero => simp at hf
    | succ f =>
      simp [unquoteRunes]
  | cons r rs ih =>
    intro fuel acc rest hf
    cases fuel with
    | zero => simp at hf
    | succ f =>
      obtain ⟨c, tail, hc, hq⟩ := escapedRune_head isPrintTable r
      have hread := readRune_escapedRune isPrintTable r
        (rs.flatMap (escapedRune isPrintTable) ++ '"' :: rest)
      rw [List.flatMap_cons, List.append_assoc]
      rw [hc] at hread ⊢
      rw [List.cons_append] at hread ⊢
      unfold unquoteRunes
      simp only [if_neg hq, hread]
      rw [ih f (acc ++ [r]) rest (by simp at hf; omega)]
      simp

theorem unquoteRunes_Quote (isPrintTable : Char → Bool) (s rest : Str) :
    ∃ body, Quote isPrintTable s ++ rest = '"' :: body
      ∧ unquoteRunes (body.length + 1) body [] = some (s, rest) := by
  refine ⟨s.flatMap (escapedRune isPrintTable) ++ '"' :: rest, ?_, ?_⟩
  · rw [Quote_eq]
    simp
  · have hlen := length_escapes isPrintTable s
    have := unquoteRunes_escapes isPrintTable s
      ((s.flatMap (escapedRune isPrintTable) ++ '"' :: rest).length + 1) [] rest
      (by simp only [List.length_append]; omega)
    rw [this]
    rfl

/-- Reading the elements back from the joined quoted elements and the closing
bracket. -/
theorem parseElements_Join (isPrintTable : Char → Bool) :
    ∀ (elements : List Str), elements ≠ [] →
      ∀ (fuel : Nat) (acc : List Str), elements.length ≤ fuel →
        parseElements fuel
            (Join (elements.map (Quote isPrintTable)) ",".toList ++ [']']) acc
          = some (acc ++ elements) := by
  intro elements
  induction elements with
  | nil => intro h; exact absurd rfl h
  | cons e es ih =>
    intro _ fuel acc hf
    cases fuel with
    | zero => simp at hf
    | succ f =>
      cases es with
      | nil =>
        obtain ⟨body, hb, hu⟩ := unquoteRunes_Quote isPrintTable e [']']
        have hj : Join ([e].map (Quote isPrintTable)) ",".toList ++ [']'] = '"' :: body := hb
        rw [hj]
        unfold parseElements
        simp [hu]
      | cons e2 es2 =>
        have hj : Join ((e :: e2 :: es2).map (Quote isPrintTable)) ",".toList ++ [']']
            = Quote isPrintTable e
                ++ (',' :: (Join ((e2 :: es2).map (Quote isPrintTable)) ",".toList ++ [']'])) := by
          simp [Join]
        obtain ⟨body, hb, hu⟩ := unquoteRunes_Quote isPrintTable e
          (',' :: (Join ((e2 :: es2).map (Quote isPrintTable)) ",".toList ++ [']']))
        rw [hj, hb]
        unfold parseElements
        simp only [if_true, hu]
        rw [ih (by simp) f (acc ++ [e]) (by simp at hf ⊢; omega)]
        simp

theorem length_Join_Quote (isPrintTable : Char → Bool) (elements : List Str) :
    elements.length ≤ (Join (elements.map (Quote isPrintTable)) ",".toList).length := by
  induction elements with
  | nil => simp [Join]
  | cons e es ih =>
    cases es with
    | nil =>
      simp [Join, Quote_eq]
    | cons e2 es2 =>
      have hj : Join ((e :: e2 :: es2).map (Quote isPrintTable)) ",".toList
          = Quote isPrintTable e ++ ",".toList
              ++ Join ((e2 :: es2).map (Quote isPrintTable)) ",".toList := rfl
      rw [hj]
      have hd : (",".toList).length = 1 := rfl
      simp only [List.length_append, List.length_cons] at ih ⊢
      omega

/-- Reading a bracketed list of quoted elements gives the elements back. -/
theorem parseList_bracketed (isPrintTable : Char → Bool) (elements : List Str)
    (hne : elements ≠ []) :
    parseList ("[".toList ++ Join (elements.map (Quote isPrintTable)) ",".toList ++ "]".toList)
      = some elements := by
  have h : "[".toList ++ Join (elements.map (Quote isPrintTable)) ",".toList ++ "]".toList
      = '[' :: (Join (elements.map (Quote isPrintTable)) ",".toList ++ [']']) := by
    simp
  rw [h]
  unfold parseList
  simp only [if_true]
  have hlen := length_Join_Quote isPrintTable elements
  rw [parseElements_Join isPrintTable elements hne _ []
    (by simp only [List.length_append]; omega)]
  rfl


/-- The buffer, cut before the `ENTRYPOINT` line. -/
theorem dockerfileData_cut (isPrintTable : Char → Bool) (workingDir : Str) (env : List Str)
    (exposedPorts : List Str) (entrypoint cmd : List Str) :
    dockerfileData isPrintTable workingDir env exposedPorts entrypoint cmd
      = dockerfileData isPrintTable workingDir env exposedPorts [] []
        ++ (if entrypoint ≠ [] then
              "ENTRYPOINT ".toList
                ++ ("[".toList ++ Join (entrypoint.map (Quote isPrintTable)) ",".toList
                    ++ "]".toList)
                ++ "\n".toList
            else [])
        ++ (if cmd ≠ [] then
              "CMD ".toList
                ++ ("[".toList ++ Join (cmd.map (Quote isPrintTable)) ",".toList
                    ++ "]".toList)
                ++ "\n".toList
            else []) := by
  rw [dockerfileData_eq, dockerfileData_eq isPrintTable workingDir env exposedPorts [] []]
  by_cases h2 : entrypoint = [] <;> by_cases h3 : cmd = [] <;> simp [h2, h3]

/-- C17: for a non-empty `entrypoint`, and likewise a non-empty `cmd`, the
written line is `ENTRYPOINT ` (or `CMD `), an opening bracket, the quoted
elements joined by commas, a closing bracket and a newline.  A quoted element
is the element between two double quotes, with every character escaped as
`strconv.Quote` does: a double quote and a backslash get a backslash in front.
Reading the bracketed list back, element by element, gives the original list
of strings. -/
theorem C17_quoting_round_trip (isPrintTable : Char → Bool) (elements : List Str)
    (hne : elements ≠ []) :
    (∀ (workingDir : Str) (env exposedPorts cmd : List Str),
      dockerfileData isPrintTable workingDir env exposedPorts elements cmd
        = dockerfileData isPrintTable workingDir env exposedPorts [] []
          ++ ("ENTRYPOINT ".toList
              ++ ("[".toList ++ Join (elements.map (Quote isPrintTable)) ",".toList
                  ++ "]".toList)
              ++ "\n".toList)
          ++ (if cmd ≠ [] then
                "CMD ".toList
                  ++ ("[".toList ++ Join (cmd.map (Quote isPrintTable)) ",".toList
                      ++ "]".toList)
                  ++ "\n".toList
              else []))
    ∧ (∀ (workingDir : Str) (env exposedPorts entrypoint : List Str),
      dockerfileData isPrintTable workingDir env exposedPorts entrypoint elements
        = dockerfileData isPrintTable workingDir env exposedPorts entrypoint []
          ++ ("CMD ".toList
              ++ ("[".toList ++ Join (elements.map (Quote isPrintTable)) ",".toList
                  ++ "]".toList)
              ++ "\n".toList))
    ∧ (∀ s : Str,
        Quote isPrintTable s = ['"'] ++ s.flatMap (escapedRune isPrintTable) ++ ['"'])
    ∧ escapedRune isPrintTable '"' = ['\\', '"']
    ∧ escapedRune isPrintTable '\\' = ['\\', '\\']
    ∧ parseList
          ("[".toList ++ Join (elements.map (Quote isPrintTable)) ",".toList ++ "]".toList)
        = some elements := by
  refine ⟨?_, ?_, Quote_eq isPrintTable, rfl, rfl, parseList_bracketed isPrintTable elements hne⟩
  · intro workingDir env exposedPorts cmd
    rw [dockerfileData_cut isPrintTable workingDir env exposedPorts elements cmd, if_pos hne]
  · intro workingDir env exposedPorts entrypoint
    rw [dockerfileData_cut isPrintTable workingDir env exposedPorts entrypoint elements,
      dockerfileData_cut isPrintTable workingDir env exposedPorts entrypoint [], if_pos hne]
    simp

/-- Witness of C17: an entrypoint whose last element holds double quotes, a
comma and a backslash. -/
theorem C17_quoting_round_trip_witness :
    ((∀ (workingDir : Str) (env exposedPorts cmd : List Str),
      dockerfileData (fun _ => true) workingDir env exposedPorts quotedEntrypoint cmd
        = dockerfileData (fun _ => true) workingDir env exposedPorts [] []
          ++ ("ENTRYPOINT ".toList
              ++ ("[".toList ++ Join (quotedEntrypoint.map (Quote (fun _ => true))) ",".toList
                  ++ "]".toList)
              ++ "\n".toList)
          ++ (if cmd ≠ [] then
                "CMD ".toList
                  ++ ("[".toList ++ Join (cmd.map (Quote (fun _ => true))) ",".toList
                      ++ "]".toList)
                  ++ "\n".toList
              else []))
    ∧ (∀ (workingDir : Str) (env exposedPorts entrypoint : List Str),
      dockerfileData (fun _ => true) workingDir env exposedPorts entrypoint quotedEntrypoint
        = dockerfileData (fun _ => true) workingDir env exposedPorts entrypoint []
          ++ ("CMD ".toList
              ++ ("[".toList ++ Join (quotedEntrypoint.map (Quote (fun _ => true))) ",".toList
                  ++ "]".toList)
              ++ "\n".toList))
    ∧ (∀ s : Str,
        Quote (fun _ => true) s = ['"'] ++ s.flatMap (escapedRune (fun _ => true)) ++ ['"'])
    ∧ escapedRune (fun _ => true) '"' = ['\\', '"']
    ∧ escapedRune (fun _ => true) '\\' = ['\\', '\\']
    ∧ parseList
          ("[".toList ++ Join (quotedEntrypoint.map (Quote (fun _ => true))) ",".toList
            ++ "]".toList)
        = some quotedEntrypoint)
    ∧ "[".toList ++ Join (quotedEntrypoint.map (Quote (fun _ => true))) ",".toList ++ "]".toList
        = "[\"/bin/sh\",\"-c\",\"echo \\\"a,b\\\" \\\\ c\"]".toList
    ∧ dockerfileData (fun _ => true) "".toList [] [] quotedEntrypoint []
        = "FROM scratch\nCOPY files /\nENTRYPOINT [\"/bin/sh\",\"-c\",\"echo \\\"a,b\\\" \\\\ c\"]\n".toList :=
  ⟨C17_quoting_round_trip (fun _ => true) quotedEntrypoint (by decide), by decide, by decide⟩

/-! ## One pass of a replacement -/

theorem HasPrefix_cons_cons (c d : Char) (t p : Str) :
    HasPrefix (c :: t) (d :: p) = (d == c && HasPrefix t p) := rfl

theorem HasPrefix_nil_right (s : Str) : HasPrefix s [] = true := by
  cases s <;> rfl

theorem HasPrefix_nil_cons (d : Char) (p : Str) : HasPrefix [] (d :: p) = false := rfl

theorem Contains_cons (c : Char) (t p : Str) :
    Contains (c :: t) p = (HasPrefix (c :: t) p || Contains t p) := by
  unfold Contains
  rw [Index]
  cases h : HasPrefix (c :: t) p
  · cases Index t p <;> simp
  · simp

theorem Contains_of_tail (c : Char) (t p : Str) (h : Contains t p = true) :
    Contains (c :: t) p = true := by
  rw [Contains_cons, h]
  simp

theorem Contains_of_drop (p : Str) :
    ∀ (k : Nat) (t : Str), Contains (t.drop k) p = true → Contains t p = true := by
  intro k
  induction k with
  | zero => intro t h; exact h
  | succ k ih =>
    intro t h
    cases t with
    | nil => exact h
    | cons c t => exact Contains_of_tail c t p (ih t h)

theorem Contains_of_HasPrefix (s p : Str) (h : HasPrefix s p = true) :
    Contains s p = true := by
  cases s with
  | nil =>
    unfold Contains
    rw [Index]
    simp [h]
  | cons c t =>
    rw [Contains_cons, h]
    simp

theorem Index_none_of_not_Contains (s p : Str) (h : Contains s p = false) :
    Index s p = none := by
  unfold Contains at h
  cases hi : Index s p with
  | none => rfl
  | some j => rw [hi] at h; cases h


theorem scanLoop_cons (old new : Str) (fuel : Nat) (c : Char) (rest : Str) :
    scanLoop old new (fuel + 1) (c :: rest)
      = if HasPrefix (c :: rest) old then
          new ++ scanLoop old new fuel (rest.drop (old.length - 1))
        else c :: scanLoop old new fuel rest := rfl

theorem Index_cons_none (c : Char) (t p : Str) (h : Index (c :: t) p = none) :
    HasPrefix (c :: t) p = false ∧ Index t p = none := by
  rw [Index] at h
  cases hp : HasPrefix (c :: t) p
  · rw [hp] at h
    cases hi : Index t p with
    | none => exact ⟨rfl, rfl⟩
    | some j => rw [hi] at h; simp at h
  · rw [hp] at h
    simp at h

theorem scanLoop_none (old new : Str) :
    ∀ (fuel : Nat) (s : Str), Index s old = none → scanLoop old new fuel s = s := by
  intro fuel
  induction fuel with
  | zero => intro s _; rfl
  | succ f ih =>
    intro s h
    cases s with
    | nil => rfl
    | cons c t =>
      obtain ⟨hp, hi⟩ := Index_cons_none c t old h
      rw [scanLoop_cons, hp, ih t hi]
      rfl

theorem scanLoop_some (old new : Str) (hold : 0 < old.length) :
    ∀ (s : Str) (j fuel : Nat), Index s old = some j → j < fuel →
      scanLoop old new fuel s
        = s.take j ++ new ++ scanLoop old new (fuel - j - 1) (s.drop (j + old.length)) := by
  intro s
  induction s with
  | nil =>
    intro j fuel h _
    rw [Index_nil old hold] at h
    cases h
  | cons c t ih =>
    intro j fuel h hj
    cases fuel with
    | zero => exact absurd hj (Nat.not_lt_zero _)
    | succ f =>
      rw [Index] at h
      cases hp : HasPrefix (c :: t) old
      · rw [hp] at h
        cases hi : Index t old with
        | none => rw [hi] at h; simp at h
        | some j2 =>
          rw [hi] at h
          simp at h
          subst h
          rw [scanLoop_cons, hp, ih j2 f hi (by omega)]
          have e1 : f + 1 - (j2 + 1) - 1 = f - j2 - 1 := by omega
          have e2 : j2 + 1 + old.length = (j2 + old.length) + 1 := by omega
          rw [e1, e2]
          simp
      · rw [hp] at h
        simp at h
        subst h
        rw [scanLoop_cons, hp]
        have e : (c :: t).drop (0 + old.length) = t.drop (old.length - 1) := by
          cases hl : old.length with
          | zero => omega
          | succ n => simp
        rw [e]
        simp

theorem replaceLoop_eq_scanLoop (old new : Str) (hold : 0 < old.length) :
    ∀ (g : Nat) (s : Str) (fuel : Nat), s.length ≤ g → s.length ≤ fuel →
      replaceLoop old new (countLoop old g s) s = scanLoop old new fuel s := by
  intro g
  induction g with
  | zero =>
    intro s fuel hg _
    have hs : s = [] := List.length_eq_zero.1 (Nat.le_zero.1 hg)
    subst hs
    cases fuel <;> rfl
  | succ g ih =>
    intro s fuel hg hf
    unfold countLoop
    cases hi : Index s old with
    | none =>
      simp only
      rw [scanLoop_none old new fuel s hi]
      rfl
    | some j =>
      simp only
      have hb := Index_bound old s j hi
      have hl : (s.drop (j + old.length)).length = s.length - (j + old.length) :=
        List.length_drop _ _
      rw [scanLoop_some old new hold s j fuel hi (by omega)]
      unfold replaceLoop
      simp only [hi]
      rw [ih (s.drop (j + old.length)) (fuel - j - 1) (by omega) (by omega)]

/-- `Replace` is one pass of `scanLoop`. -/
theorem Replace_eq_scanLoop (s old new : Str) (hold : 0 < old.length) (hne : old ≠ new) :
    Replace s old new = scanLoop old new s.length s := by
  have h0 : old.length ≠ 0 := by omega
  unfold Replace Count
  rw [if_neg hne, if_neg h0, if_neg h0]
  exact replaceLoop_eq_scanLoop old new hold s.length s s.length (Nat.le_refl _) (Nat.le_refl _)

/-- Where `old` does not occur, `Replace` changes nothing. -/
theorem Replace_of_not_Contains (s old new : Str) (hold : 0 < old.length)
    (h : Contains s old = false) : Replace s old new = s := by
  by_cases hne : old = new
  · unfold Replace
    rw [if_pos hne]
  · rw [Replace_eq_scanLoop s old new hold hne]
    exact scanLoop_none old new _ s (Index_none_of_not_Contains s old h)


/-- A character other than the replacement `z` at the head of the result of a
pass was at the head of the text. -/
theorem scanLoop_head (old : Str) (z d : Char) (q : Str) (hd : d ≠ z) :
    ∀ (fuel : Nat) (t : Str), HasPrefix (scanLoop old [z] fuel t) (d :: q) = true →
      ∃ t2, t = d :: t2 ∧ HasPrefix (scanLoop old [z] (fuel - 1) t2) q = true := by
  intro fuel t h
  cases fuel with
  | zero =>
    cases t with
    | nil => cases h
    | cons c t2 =>
      have h2 : HasPrefix (c :: t2) (d :: q) = true := h
      rw [HasPrefix_cons_cons, Bool.and_eq_true] at h2
      have hc : d = c := eq_of_beq h2.1
      subst hc
      exact ⟨t2, rfl, h2.2⟩
  | succ f =>
    cases t with
    | nil => cases h
    | cons c t2 =>
      rw [scanLoop_cons] at h
      by_cases hp : HasPrefix (c :: t2) old = true
      · rw [if_pos hp] at h
        have h2 : HasPrefix (z :: scanLoop old [z] f (t2.drop (old.length - 1))) (d :: q)
            = true := h
        rw [HasPrefix_cons_cons, Bool.and_eq_true] at h2
        exact absurd (eq_of_beq h2.1) hd
      · rw [if_neg hp, HasPrefix_cons_cons, Bool.and_eq_true] at h
        have hc : d = c := eq_of_beq h.1
        subst hc
        exact ⟨t2, rfl, h.2⟩

/-- A text without the replacement character at the head of the result of a
pass was at the head of the text. -/
theorem scanLoop_HasPrefix (old : Str) (z : Char) :
    ∀ (w : Str), (∀ d ∈ w, d ≠ z) →
      ∀ (fuel : Nat) (t : Str), HasPrefix (scanLoop old [z] fuel t) w = true →
        HasPrefix t w = true := by
  intro w
  induction w with
  | nil => intro _ fuel t _; exact HasPrefix_nil_right t
  | cons d q ih =>
    intro hw fuel t h
    obtain ⟨t2, ht, h2⟩ := scanLoop_head old z d q (hw d (List.mem_cons_self _ _)) fuel t h
    subst ht
    rw [HasPrefix_cons_cons, ih (fun x hx => hw x (List.mem_cons_of_mem _ hx)) _ t2 h2]
    simp

/-- A text without the replacement character that occurs in the result of a
pass occurred before the pass. -/
theorem scanLoop_Contains (old : Str) (z d : Char) (q : Str)
    (hw : ∀ x ∈ d :: q, x ≠ z) :
    ∀ (fuel : Nat) (s : Str), Contains (scanLoop old [z] fuel s) (d :: q) = true →
      Contains s (d :: q) = true := by
  intro fuel
  induction fuel with
  | zero => intro s h; exact h
  | succ f ih =>
    intro s h
    cases s with
    | nil => exact h
    | cons c t =>
      rw [scanLoop_cons] at h
      by_cases hp : HasPrefix (c :: t) old = true
      · rw [if_pos hp] at h
        have h2 : Contains (z :: scanLoop old [z] f (t.drop (old.length - 1))) (d :: q)
            = true := h
        rw [Contains_cons, HasPrefix_cons_cons] at h2
        have hdz : (d == z) = false := by
          rw [beq_eq_false_iff_ne]
          exact hw d (List.mem_cons_self _ _)
        rw [hdz] at h2
        simp only [Bool.false_and, Bool.false_or] at h2
        exact Contains_of_tail c t _ (Contains_of_drop _ _ t (ih _ h2))
      · rw [if_neg hp, Contains_cons, Bool.or_eq_true] at h
        rcases h with h | h
        · rw [HasPrefix_cons_cons, Bool.and_eq_true] at h
          have hq := scanLoop_HasPrefix old z q
            (fun x hx => hw x (List.mem_cons_of_mem _ hx)) f t h.2
          apply Contains_of_HasPrefix
          rw [HasPrefix_cons_cons, h.1, hq]
          rfl
        · exact Contains_of_tail c t _ (ih t h)


theorem HasPrefix_cons_inv (s : Str) (d : Char) (q : Str) (h : HasPrefix s (d :: q) = true) :
    ∃ t, s = d :: t ∧ HasPrefix t q = true := by
  cases s with
  | nil => cases h
  | cons c t =>
    rw [HasPrefix_cons_cons, Bool.and_eq_true] at h
    have hc : d = c := eq_of_beq h.1
    subst hc
    exact ⟨t, rfl, h.2⟩

theorem HasPrefix_cons_self (d : Char) (t q : Str) (h : HasPrefix t q = true) :
    HasPrefix (d :: t) (d :: q) = true := by
  rw [HasPrefix_cons_cons, h]
  simp

theorem not_Contains_cons (c : Char) (t p : Str) (h : Contains (c :: t) p = false) :
    HasPrefix (c :: t) p = false ∧ Contains t p = false := by
  rw [Contains_cons, Bool.or_eq_false_iff] at h
  exact h

theorem not_Contains_drop (p : Str) (k : Nat) (t : Str) (h : Contains t p = false) :
    Contains (t.drop k) p = false := by
  cases hd : Contains (t.drop k) p with
  | false => rfl
  | true =>
    rw [Contains_of_drop p k t hd] at h
    cases h

/-- An opening bracket at the head of the result of the first pass was at the
head of the text, or the text started with `&{[`. -/
theorem scanOpen_head (fuel : Nat) (u : Str)
    (h : HasPrefix (scanLoop ['&', '{', '['] ['['] fuel u) ['['] = true) :
    HasPrefix u ['['] = true ∨ HasPrefix u ['&', '{', '['] = true := by
  cases fuel with
  | zero => exact Or.inl h
  | succ f =>
    cases u with
    | nil => cases h
    | cons c u2 =>
      rw [scanLoop_cons] at h
      by_cases hp : HasPrefix (c :: u2) ['&', '{', '['] = true
      · exact Or.inr hp
      · rw [if_neg hp] at h
        obtain ⟨t, ht, _⟩ := HasPrefix_cons_inv _ _ _ h
        have hc : c = '[' := (List.cons.inj ht).1
        subst hc
        exact Or.inl (HasPrefix_cons_self _ _ _ (HasPrefix_nil_right _))

/-- After the first pass no `&{[` is left, when the text held no `&{&{[`. -/
theorem scanOpen_complete :
    ∀ (fuel : Nat) (s : Str), s.length ≤ fuel →
      Contains s ['&', '{', '&', '{', '['] = false →
      Contains (scanLoop ['&', '{', '['] ['['] fuel s) ['&', '{', '['] = false := by
  intro fuel
  induction fuel with
  | zero =>
    intro s hs _
    have h0 : s = [] := List.length_eq_zero.1 (Nat.le_zero.1 hs)
    subst h0
    rfl
  | succ f ih =>
    intro s hs hW
    cases s with
    | nil => rfl
    | cons c t =>
      have ht : t.length ≤ f := by simp at hs; omega
      obtain ⟨hW0, hWt⟩ := not_Contains_cons c t _ hW
      rw [scanLoop_cons]
      by_cases hp : HasPrefix (c :: t) ['&', '{', '['] = true
      · rw [if_pos hp]
        have hrest := ih (t.drop 2) (by rw [List.length_drop]; omega)
          (not_Contains_drop _ 2 t hWt)
        show Contains ('[' :: scanLoop ['&', '{', '['] ['['] f (t.drop 2)) ['&', '{', '[']
          = false
        rw [Contains_cons, hrest]
        rfl
      · rw [if_neg hp, Contains_cons, ih t ht hWt, Bool.or_false]
        cases hh : HasPrefix (c :: scanLoop ['&', '{', '['] ['['] f t) ['&', '{', '['] with
        | false => rfl
        | true =>
          exfalso
          obtain ⟨x, hx, hx2⟩ := HasPrefix_cons_inv _ _ _ hh
          have hc : c = '&' := (List.cons.inj hx).1
          have hxe : scanLoop ['&', '{', '['] ['['] f t = x := (List.cons.inj hx).2
          rw [← hxe] at hx2
          obtain ⟨t2, ht2, h3⟩ := scanLoop_head _ '[' '{' ['['] (by decide) f t hx2
          subst hc
          subst ht2
          rcases scanOpen_head _ t2 h3 with h4 | h4
          · apply hp
            exact HasPrefix_cons_self _ _ _ (HasPrefix_cons_self _ _ _ h4)
          · have : HasPrefix ('&' :: '{' :: t2) ['&', '{', '&', '{', '['] = true :=
              HasPrefix_cons_self _ _ _ (HasPrefix_cons_self _ _ _ h4)
            rw [this] at hW0
            cases hW0

/-- After the second pass no `]}` is left, when the text held no `]}}`. -/
theorem scanClose_complete :
    ∀ (fuel : Nat) (s : Str), s.length ≤ fuel →
      Contains s [']', '}', '}'] = false →
      Contains (scanLoop [']', '}'] [']'] fuel s) [']', '}'] = false := by
  intro fuel
  induction fuel with
  | zero =>
    intro s hs _
    have h0 : s = [] := List.length_eq_zero.1 (Nat.le_zero.1 hs)
    subst h0
    rfl
  | succ f ih =>
    intro s hs hV
    cases s with
    | nil => rfl
    | cons c t =>
      have ht : t.length ≤ f := by simp at hs; omega
      obtain ⟨hV0, hVt⟩ := not_Contains_cons c t _ hV
      rw [scanLoop_cons]
      by_cases hp : HasPrefix (c :: t) [']', '}'] = true
      · rw [if_pos hp]
        have hrest := ih (t.drop 1) (by rw [List.length_drop]; omega)
          (not_Contains_drop _ 1 t hVt)
        show Contains (']' :: scanLoop [']', '}'] [']'] f (t.drop 1)) [']', '}'] = false
        rw [Contains_cons, hrest, Bool.or_false]
        cases hh : HasPrefix (']' :: scanLoop [']', '}'] [']'] f (t.drop 1)) [']', '}'] with
        | false => rfl
        | true =>
          exfalso
          obtain ⟨x, hx, hx2⟩ := HasPrefix_cons_inv _ _ _ hh
          have hxe : scanLoop [']', '}'] [']'] f (t.drop 1) = x := (List.cons.inj hx).2
          rw [← hxe] at hx2
          have h3 := scanLoop_HasPrefix [']', '}'] ']' ['}'] (by decide) f _ hx2
          obtain ⟨y, hy, hy2⟩ := HasPrefix_cons_inv _ _ _ hp
          have hc : c = ']' := (List.cons.inj hy).1
          have hte : t = y := (List.cons.inj hy).2
          subst hc
          subst hte
          obtain ⟨t2, ht2, _⟩ := HasPrefix_cons_inv _ _ _ hy2
          subst ht2
          have : HasPrefix (']' :: '}' :: t2) [']', '}', '}'] = true :=
            HasPrefix_cons_self _ _ _ (HasPrefix_cons_self _ _ _ h3)
          rw [this] at hV0
          cases hV0
      · rw [if_neg hp, Contains_cons, ih t ht hVt, Bool.or_false]
        cases hh : HasPrefix (c :: scanLoop [']', '}'] [']'] f t) [']', '}'] with
        | false => rfl
        | true =>
          exfalso
          obtain ⟨x, hx, hx2⟩ := HasPrefix_cons_inv _ _ _ hh
          have hc : c = ']' := (List.cons.inj hx).1
          have hxe : scanLoop [']', '}'] [']'] f t = x := (List.cons.inj hx).2
          rw [← hxe] at hx2
          have h3 := scanLoop_HasPrefix [']', '}'] ']' ['}'] (by decide) f _ hx2
          subst hc
          exact hp (HasPrefix_cons_self _ _ _ h3)


/-! ## The `ENTRYPOINT` clean-up is one pass (claim C19) -/

/-- The two replacements of the clean-up leave neither `&{[` nor `]}` in a
text that held neither `&{&{[` nor `]}}`. -/
theorem cleanup_complete (s : Str)
    (hOpen : Contains s ['&', '{', '&', '{', '['] = false)
    (hClose : Contains s [']', '}', '}'] = false) :
    Contains (Replace (Replace s ['&', '{', '['] ['[']) [']', '}'] [']']) ['&', '{', '[']
        = false
    ∧ Contains (Replace (Replace s ['&', '{', '['] ['[']) [']', '}'] [']']) [']', '}']
        = false := by
  rw [Replace_eq_scanLoop s _ _ (by decide) (by decide),
    Replace_eq_scanLoop _ [']', '}'] [']'] (by decide) (by decide)]
  have h1 : Contains (scanLoop ['&', '{', '['] ['['] s.length s) ['&', '{', '['] = false :=
    scanOpen_complete s.length s (Nat.le_refl _) hOpen
  have h2 : Contains (scanLoop ['&', '{', '['] ['['] s.length s) [']', '}', '}'] = false := by
    cases h : Contains (scanLoop ['&', '{', '['] ['['] s.length s) [']', '}', '}'] with
    | false => rfl
    | true =>
      rw [scanLoop_Contains _ '[' ']' ['}', '}'] (by decide) _ s h] at hClose
      cases hClose
  refine ⟨?_, scanClose_complete _ _ (Nat.le_refl _) h2⟩
  cases h : Contains (scanLoop [']', '}'] [']']
      (scanLoop ['&', '{', '['] ['['] s.length s).length
      (scanLoop ['&', '{', '['] ['['] s.length s)) ['&', '{', '['] with
  | false => rfl
  | true =>
    rw [scanLoop_Contains _ ']' '&' ['{', '['] (by decide) _ _ h] at h1
    cases h1

/-- C19, as the code has it: each of the two replacements is one pass from
left to right.  For a layer whose prefix-decoded instruction starts with
`ENTRYPOINT ` and holds neither `&{&{[` nor `]}}`, the final instruction holds
no `&{[` and no `]}`, and the same clean-up applied to it again leaves it
unchanged. -/
theorem C19_cleanup_single_pass (imageHistory : List ImageHistory) (idx : Nat)
    (layer : ImageHistory)
    (hl : imageHistory[idx]? = some layer)
    (hEntry : HasPrefix (prefixDecode layer.CreatedBy) "ENTRYPOINT ".toList = true)
    (hOpen : Contains (prefixDecode layer.CreatedBy) "&\x7b&\x7b[".toList = false)
    (hClose : Contains (prefixDecode layer.CreatedBy) "]\x7d\x7d".toList = false) :
    ∃ inst,
      (fatImageDockerInstructions imageHistory)[imageHistory.length - 1 - idx]? = some inst
      ∧ Contains inst.instCmd "&\x7b[".toList = false
      ∧ Contains inst.instCmd "]\x7d".toList = false
      ∧ Replace (Replace inst.instCmd "&\x7b[".toList "[".toList) "]\x7d".toList "]".toList
          = inst.instCmd := by
  refine ⟨_, instruction_of_some imageHistory idx layer hl, ?_⟩
  have hcmd : (layerInst layer (decide (idx + 1 = imageHistory.length))).instCmd
      = Replace (Replace (prefixDecode layer.CreatedBy) ['&', '{', '['] ['['])
          [']', '}'] [']'] := by
    rw [layerInst_instCmd, decodeInst, entrypointFix, if_pos hEntry]
    rfl
  obtain ⟨h1, h2⟩ := cleanup_complete (prefixDecode layer.CreatedBy) hOpen hClose
  rw [hcmd]
  refine ⟨h1, h2, ?_⟩
  have e1 : Replace (Replace (Replace (prefixDecode layer.CreatedBy) ['&', '{', '['] ['['])
      [']', '}'] [']']) ['&', '{', '['] ['[']
      = Replace (Replace (prefixDecode layer.CreatedBy) ['&', '{', '['] ['['])
          [']', '}'] [']'] :=
    Replace_of_not_Contains _ _ _ (by decide) h1
  have e2 : Replace (Replace (Replace (prefixDecode layer.CreatedBy) ['&', '{', '['] ['['])
      [']', '}'] [']']) [']', '}'] [']']
      = Replace (Replace (prefixDecode layer.CreatedBy) ['&', '{', '['] ['['])
          [']', '}'] [']'] :=
    Replace_of_not_Contains _ _ _ (by decide) h2
  show Replace (Replace _ ['&', '{', '['] ['[']) [']', '}'] [']'] = _
  rw [e1, e2]

/-- Witness of C19: the `ENTRYPOINT` layer of `exampleHistory`. -/
theorem C19_cleanup_single_pass_witness :
    (∃ inst,
      (fatImageDockerInstructions exampleHistory)[exampleHistory.length - 1 - 0]? = some inst
      ∧ Contains inst.instCmd "&\x7b[".toList = false
      ∧ Contains inst.instCmd "]\x7d".toList = false
      ∧ Replace (Replace inst.instCmd "&\x7b[".toList "[".toList) "]\x7d".toList "]".toList
          = inst.instCmd)
    ∧ prefixDecode entrypointLayer.CreatedBy
        = "ENTRYPOINT &\x7b[\"/bin/sh\" \"-c\"]\x7d".toList
    ∧ (fatImageDockerInstructions exampleHistory)[5]?.map imageInst.instCmd
        = some "ENTRYPOINT [\"/bin/sh\" \"-c\"]".toList :=
  ⟨C19_cleanup_single_pass exampleHistory 0 entrypointLayer (by rfl) (by decide) (by decide)
      (by decide),
    by decide, by decide⟩

/-- Counterexample to C19 as stated: the instruction of a layer whose
`ENTRYPOINT` list is wrapped twice still holds `&{[` and `]}` after the
clean-up, and the clean-up applied again changes it. -/
theorem C19_counterexample :
    [nestedEntrypointLayer][0]? = some nestedEntrypointLayer
    ∧ prefixDecode nestedEntrypointLayer.CreatedBy
        = "ENTRYPOINT &\x7b&\x7b[[\"/app\"]]\x7d\x7d".toList
    ∧ (fatImageDockerInstructions [nestedEntrypointLayer])[[nestedEntrypointLayer].length - 1 - 0]?.map
          imageInst.instCmd
        = some "ENTRYPOINT &\x7b[[\"/app\"]]\x7d".toList
    ∧ HasPrefix "ENTRYPOINT &\x7b[[\"/app\"]]\x7d".toList "ENTRYPOINT ".toList = true
    ∧ Contains "ENTRYPOINT &\x7b[[\"/app\"]]\x7d".toList "&\x7b[".toList = true
    ∧ Contains "ENTRYPOINT &\x7b[[\"/app\"]]\x7d".toList "]\x7d".toList = true
    ∧ entrypointFix "ENTRYPOINT &\x7b[[\"/app\"]]\x7d".toList
        = "ENTRYPOINT [[\"/app\"]]".toList := by
  decide

end Dockerfile
